import Mathlib

/-!
# Verification of the `dawm` DOM core

A shallow embedding of the mutable DOM tree maintained by `dawm`
(`src/dom.ts`, a.k.a. `unnamed/part_005`, together with the live-collection
machinery of `src/collections.ts`, the tree assembler of `unnamed/part_001`
and the selector engine of `src/select.ts`).

Nodes live in a heap addressed by the numeric counter that the source uses
for `Node.#__id` (`this.id = "node-" ++ ++Node.#__id`); every mutable field of
a `Node` instance becomes a field of `NodeData`.  The backing `LinkedList`
of a node's `childNodes` `NodeList` (which the mutation core manipulates via
`splice`/`indexOf` through the proxy traps of `collections.ts`) is the
`childList` field; the five structural pointers are the corresponding
`Option Nat` fields.  The `NamedNodeMap` backing list of an element is the
`attrs` field (a list of attribute-node ids).  `Document`'s private caches
`#documentElement` / `#head` / `#body` are the `cache*` fields.

Methods become functions `Heap → ... → Heap`; a thrown exception becomes an
`Except` value paired with the heap as it stands at throw time, so that
"validation before mutation" is a provable property rather than an artifact
of the model.
-/

namespace Dawm

/-- The `NodeType` enum of the wasm bindings (`Element = 1 ... Notation = 12`). -/
inductive NodeKind where
  | element
  | attribute
  | text
  | cdata
  | entityReference
  | entity
  | processingInstruction
  | comment
  | document
  | documentType
  | documentFragment
  | notationNode
  deriving Repr, DecidableEq

/-- Numeric value of the `NodeType` enum member. -/
def NodeKind.toNat : NodeKind → Nat
  | .element => 1
  | .attribute => 2
  | .text => 3
  | .cdata => 4
  | .entityReference => 5
  | .entity => 6
  | .processingInstruction => 7
  | .comment => 8
  | .document => 9
  | .documentType => 10
  | .documentFragment => 11
  | .notationNode => 12

/-- One DOM node: the per-instance state of the `Node` class hierarchy of
`dom.ts`.  `childList` is the contents of the backing `LinkedList` of the
node's `childNodes` `NodeList`; `attrs` is the backing list of its
`NamedNodeMap` (ids of attribute nodes); the `cache*` fields are the
`Document` private fields `#documentElement`, `#head` and `#body`. -/
structure NodeData where
  kind : NodeKind
  nodeName : String
  nodeValue : Option String
  tagName : String
  namespaceURI : Option String
  parentNode : Option Nat
  firstChild : Option Nat
  lastChild : Option Nat
  previousSibling : Option Nat
  nextSibling : Option Nat
  ownerDocument : Option Nat
  ownerElement : Option Nat
  publicId : String
  systemId : String
  childList : List Nat
  attrs : List Nat
  cacheDocumentElement : Option Nat
  cacheHead : Option Nat
  cacheBody : Option Nat
  deriving Repr, DecidableEq

/-- The state of a node fresh out of `new Node(name, value)` with no linking
arguments, before any field assignments: all pointers `null`, no children. -/
def NodeData.blank : NodeData where
  kind := .text
  nodeName := ""
  nodeValue := none
  tagName := ""
  namespaceURI := none
  parentNode := none
  firstChild := none
  lastChild := none
  previousSibling := none
  nextSibling := none
  ownerDocument := none
  ownerElement := none
  publicId := ""
  systemId := ""
  childList := []
  attrs := []
  cacheDocumentElement := none
  cacheHead := none
  cacheBody := none

instance : Inhabited NodeData := ⟨NodeData.blank⟩

/-- The node heap: `nextId` is the state of the global counter `Node.#__id`
(the id the *next* allocated node will get), `nodes` maps ids to node state.
Reading an unallocated id yields `NodeData.blank`, which is exactly the
all-`null` record, so quantifying invariants over every `Nat` is harmless. -/
structure Heap where
  nextId : Nat
  nodes : List (Nat × NodeData)
  deriving Repr, DecidableEq

namespace Heap

/-- Replace the binding of key `i` (first occurrence), or append it. -/
def setEntry : List (Nat × NodeData) → Nat → NodeData → List (Nat × NodeData)
  | [], i, d => [(i, d)]
  | (j, e) :: rest, i, d =>
    if i = j then (i, d) :: rest else (j, e) :: setEntry rest i d

/-- Look up the binding of key `i` (first occurrence). -/
def lookupEntry : List (Nat × NodeData) → Nat → Option NodeData
  | [], _ => none
  | (j, e) :: rest, i => if i = j then some e else lookupEntry rest i

/-- Read a node record (the all-`null` blank record if unallocated). -/
def get (s : Heap) (i : Nat) : NodeData :=
  (lookupEntry s.nodes i).getD NodeData.blank

/-- Write a node record. -/
def set (s : Heap) (i : Nat) (d : NodeData) : Heap :=
  { s with nodes := setEntry s.nodes i d }

/-- Field-update a node record in place. -/
def modify (s : Heap) (i : Nat) (f : NodeData → NodeData) : Heap :=
  s.set i (f (s.get i))

/-- Allocate a fresh node: models `new <NodeClass>(...)`, which draws
`++Node.#__id` and installs the instance state. -/
def alloc (s : Heap) (d : NodeData) : Nat × Heap :=
  (s.nextId, { nextId := s.nextId + 1, nodes := (s.nextId, d) :: s.nodes })

/-- The allocated ids. -/
def keys (s : Heap) : List Nat := s.nodes.map Prod.fst

/-- The empty heap (counter starts so that the first node is id 1, matching
`node-1`). -/
def empty : Heap := { nextId := 1, nodes := [] }

end Heap

/-! ## Mutation core (`Node.insertBefore` / `removeChild` / `appendChild` /
`replaceChild`, `dom.ts`)

`indexOf(children, x)` on the `childNodes` proxy reads `children[i]` through
the proxy `get` trap, which for a non-live list is the backing `LinkedList`,
i.e. `childList`; `splice(children, index, 0, x)` / `splice(children, index,
1)` are `Array.prototype.splice` routed through the proxy `set`/`delete`
traps, whose net effect on the backing list is `List.insertIdx` /
`List.eraseIdx`.  A thrown exception is an `Except.error` paired with the
heap at throw time. -/

/-- First index of `x` in `l` (the `indexOf` helper of `_internal.ts`,
restricted to found/not-found). -/
def listIndexOf : List Nat → Nat → Option Nat
  | [], _ => none
  | y :: rest, x => if y = x then some 0 else (listIndexOf rest x).map (· + 1)

inductive DomErr where
  /-- `Error("… is not a child of this node.")` from the base class. -/
  | hierarchy
  /-- `DOMException(…, "HierarchyRequestError")` from the `Attr` overrides
  (`Attr` nodes cannot have children). -/
  | attrHierarchy
  /-- Fuel exhaustion: a modelling artifact, never produced when the fuel
  exceeds the number of mutation steps. -/
  | fuel
  deriving Repr, DecidableEq

/-! Single-field assignment combinators.  Each models one JavaScript field
assignment (`x.field = v`); the mutation methods below are chains of these. -/

/-- `i.childList := f i.childList` (a `splice` on the backing list). -/
def updChildList (s : Heap) (i : Nat) (f : List Nat → List Nat) : Heap :=
  s.modify i fun d => { d with childList := f d.childList }

/-- `i.nextSibling = v`. -/
def updNext (s : Heap) (i : Nat) (v : Option Nat) : Heap :=
  s.modify i fun d => { d with nextSibling := v }

/-- `i.previousSibling = v`. -/
def updPrev (s : Heap) (i : Nat) (v : Option Nat) : Heap :=
  s.modify i fun d => { d with previousSibling := v }

/-- `i.firstChild = v`. -/
def updFirst (s : Heap) (i : Nat) (v : Option Nat) : Heap :=
  s.modify i fun d => { d with firstChild := v }

/-- `i.lastChild = v`. -/
def updLast (s : Heap) (i : Nat) (v : Option Nat) : Heap :=
  s.modify i fun d => { d with lastChild := v }

/-- `oldChild.parentNode = null; oldChild.previousSibling = null;
oldChild.nextSibling = null` (tail of `removeChild`). -/
def updDetach (s : Heap) (i : Nat) : Heap :=
  s.modify i fun d =>
    { d with parentNode := none, previousSibling := none, nextSibling := none }

/-- `newChild.previousSibling = prev; newChild.nextSibling = next;
newChild.parentNode = parent; newChild.ownerDocument = od`
(tail of `insertBefore`). -/
def updLink (s : Heap) (i : Nat) (prev next : Option Nat) (parent : Nat)
    (od : Option Nat) : Heap :=
  s.modify i fun d =>
    { d with previousSibling := prev, nextSibling := next,
             parentNode := some parent, ownerDocument := od }

/-- `this.firstChild = children[0] ?? null;
this.lastChild = children[children.length - 1] ?? null`. -/
def updEnds (s : Heap) (i : Nat) : Heap :=
  s.modify i fun d =>
    { d with firstChild := d.childList.head?, lastChild := d.childList.getLast? }

/-- The node fields no mutation-core write ever touches, bundled for
once-and-for-all preservation statements. -/
def NodeData.misc (d : NodeData) :
    NodeKind × String × Option String × String × Option String × Option Nat ×
      String × String × List Nat × Option Nat × Option Nat × Option Nat :=
  (d.kind, d.nodeName, d.nodeValue, d.tagName, d.namespaceURI, d.ownerElement,
    d.publicId, d.systemId, d.attrs, d.cacheDocumentElement, d.cacheHead,
    d.cacheBody)

/-- `Node.removeChild(oldChild)` with receiver `self`.  The `Attr` subclass
overrides this method to throw unconditionally. -/
def removeChild (s : Heap) (self old : Nat) : Except DomErr Nat × Heap :=
  if (s.get self).kind = .attribute then (.error .attrHierarchy, s) else
  match listIndexOf (s.get self).childList old with
  | none => (.error .hierarchy, s)
  | some idx =>
    -- splice(this.childNodes, index, 1)
    let s1 := updChildList s self (·.eraseIdx idx)
    let prev := (s1.get old).previousSibling
    let next := (s1.get old).nextSibling
    -- if (prev) prev.nextSibling = next
    let s2 := match prev with
      | some p => updNext s1 p next
      | none => s1
    -- if (next) next.previousSibling = prev
    let s3 := match next with
      | some n => updPrev s2 n prev
      | none => s2
    -- if (this.firstChild === oldChild) this.firstChild = next
    let s4 := if (s3.get self).firstChild = some old then
        updFirst s3 self next
      else s3
    -- if (this.lastChild === oldChild) this.lastChild = prev
    let s5 := if (s4.get self).lastChild = some old then
        updLast s4 self prev
      else s4
    -- null out the detached node's pointers
    (.ok old, updDetach s5 old)

/-- The tail of `Node.insertBefore` after the fragment branch: detach has
already happened, `children` is the current child list, `idx` the insertion
index (`indexOf(children, refChild)` or `children.length`). -/
def finishInsert (s : Heap) (self newChild : Nat) (refChild : Option Nat)
    (idx : Nat) : Except DomErr Nat × Heap :=
  let children := (s.get self).childList
  -- const previousSibling = refChild ? refChild.previousSibling
  --   : children[children.length - 1] ?? null
  let prevSib : Option Nat := match refChild with
    | some r => (s.get r).previousSibling
    | none => children.getLast?
  -- splice(children, index, 0, newChild)
  let s2 := updChildList s self (·.insertIdx idx newChild)
  -- if (previousSibling) previousSibling.nextSibling = newChild
  let s3 := match prevSib with
    | some p => updNext s2 p (some newChild)
    | none => s2
  -- if (nextSibling) nextSibling.previousSibling = newChild
  let s4 := match refChild with
    | some r => updPrev s3 r (some newChild)
    | none => s3
  -- newChild.previousSibling / nextSibling / parentNode / ownerDocument
  let ownerDoc := (s4.get self).ownerDocument
  let s5 := updLink s4 newChild prevSib refChild self ownerDoc
  -- this.firstChild = children[0] ?? null; this.lastChild = children[len-1] ?? null
  (.ok newChild, updEnds s5 self)

/-- The index computation and linking tail of `insertBefore`, after the
detach step: `const index = refChild ? indexOf(children, refChild) :
children.length; if (refChild && index === -1) throw …; <link>`. -/
def insertBeforeTail (s1 : Heap) (self newChild : Nat) (refChild : Option Nat) :
    Except DomErr Nat × Heap :=
  match refChild with
  | some r =>
    match listIndexOf (s1.get self).childList r with
    | none => (.error .hierarchy, s1)
    | some idx => finishInsert s1 self newChild (some r) idx
  | none => finishInsert s1 self newChild none (s1.get self).childList.length

mutual

/-- `Node.insertBefore(newChild, refChild)` with receiver `self`.  The fuel
argument bounds the recursion through the `DocumentFragment` branch; the
`Attr` subclass overrides the method to throw unconditionally. -/
def insertBeforeFuel : Nat → Heap → Nat → Nat → Option Nat → Except DomErr Nat × Heap
  | 0, s, _, _, _ => (.error .fuel, s)
  | fuel + 1, s, self, newChild, refChild =>
    if (s.get self).kind = .attribute then (.error .attrHierarchy, s) else
    -- if (newChild === refChild) return newChild
    if refChild = some newChild then (.ok newChild, s) else
    -- if (refChild && refChild.parentNode !== this) throw
    if _h : ∃ r, refChild = some r ∧ (s.get r).parentNode ≠ some self then
      (.error .hierarchy, s)
    else
    -- if (newChild.nodeType === NodeType.DocumentFragment) { for … }
    if (s.get newChild).kind = .documentFragment then
      fragLoopFuel fuel s self newChild refChild 0
    else
      -- if (newChild.parentNode) newChild.parentNode.removeChild(newChild)
      let det : Except DomErr Nat × Heap := match (s.get newChild).parentNode with
        | some p => removeChild s p newChild
        | none => (.ok newChild, s)
      match det with
      | (.error e, s1) => (.error e, s1)
      | (.ok _, s1) => insertBeforeTail s1 self newChild refChild
termination_by structural fuel => fuel

/-- The `DocumentFragment` branch of `insertBefore`: the source iterates
`newChild.childNodes` with the proxy iterator, which walks the *live* backing
list by increasing index (`for (i = 0; i < list.length; i++) yield
list.at(i)`) while the recursive `insertBefore` calls remove children from
that same list. -/
def fragLoopFuel : Nat → Heap → Nat → Nat → Option Nat → Nat → Except DomErr Nat × Heap
  | 0, s, _, _, _, _ => (.error .fuel, s)
  | fuel + 1, s, self, frag, refChild, i =>
    let l := (s.get frag).childList
    if h : i < l.length then
      let child := l.get ⟨i, h⟩
      match insertBeforeFuel fuel s self child refChild with
      | (.ok _, s') => fragLoopFuel fuel s' self frag refChild (i + 1)
      | (.error e, s') => (.error e, s')
    else
      (.ok frag, s)
termination_by structural fuel => fuel

end

/-- `Node.appendChild(newChild)` is `insertBefore(newChild, null)`. -/
def appendChild (fuel : Nat) (s : Heap) (self newChild : Nat) :
    Except DomErr Nat × Heap :=
  insertBeforeFuel fuel s self newChild none

/-- `Node.replaceChild(newChild, oldChild)` with receiver `self`. -/
def replaceChild (fuel : Nat) (s : Heap) (self newChild old : Nat) :
    Except DomErr Nat × Heap :=
  if (s.get self).kind = .attribute then (.error .attrHierarchy, s) else
  -- if (oldChild.parentNode && oldChild.parentNode !== this) throw
  if _h : ∃ p, (s.get old).parentNode = some p ∧ p ≠ self then
    (.error .hierarchy, s)
  else
    match insertBeforeFuel fuel s self newChild (some old) with
    | (.error e, s1) => (.error e, s1)
    | (.ok _, s1) => removeChild s1 self old

/-! ## Structural well-formedness

The pointer/child-list invariants that §3 of the specification requires after
every public mutation: the `childNodes` backing list, the five structural
pointers and the parent back-pointers must describe one and the same sibling
chain. -/

/-- `sibSeg s prev l`: the nodes of `l` are doubly linked in order, the first
one's `previousSibling` being `prev` and the last one's `nextSibling` being
`none`. -/
def sibSeg (s : Heap) : Option Nat → List Nat → Prop
  | _, [] => True
  | prev, c :: rest =>
    (s.get c).previousSibling = prev ∧ (s.get c).nextSibling = rest.head? ∧
      sibSeg s (some c) rest

instance sibSeg.decidable (s : Heap) : ∀ (prev : Option Nat) (l : List Nat),
    Decidable (sibSeg s prev l)
  | _, [] => isTrue trivial
  | prev, c :: rest =>
    have : Decidable (sibSeg s (some c) rest) := sibSeg.decidable s _ rest
    inferInstanceAs (Decidable (_ ∧ _ ∧ _))

/-- Well-formedness of the heap: for every node, (i) its child list has no
duplicates, (ii) every listed child points back to it, (iii) every node
pointing to it as parent is listed, (iv) `firstChild`/`lastChild` are the
ends of the list, and (v) the list is a correctly doubly-linked sibling
segment.  Quantifiers range over allocated ids; unallocated ids carry the
all-`null` blank record, for which every condition holds trivially. -/
def WF (s : Heap) : Prop :=
  (∀ p ∈ s.keys, (s.get p).childList.Nodup) ∧
  (∀ p ∈ s.keys, ∀ c ∈ (s.get p).childList, (s.get c).parentNode = some p) ∧
  (∀ n ∈ s.keys, ∀ p, (s.get n).parentNode = some p → n ∈ (s.get p).childList) ∧
  (∀ p ∈ s.keys, (s.get p).firstChild = (s.get p).childList.head?) ∧
  (∀ p ∈ s.keys, (s.get p).lastChild = (s.get p).childList.getLast?) ∧
  (∀ p ∈ s.keys, sibSeg s none (s.get p).childList)

instance WF.decidable (s : Heap) : Decidable (WF s) := by
  unfold WF; infer_instance

/-! ## Toolkit: `listIndexOf`, split lists, generalized sibling segments -/

/-- `headOr l n` : the head of `l`, else `n`. -/
def headOr (l : List Nat) (n : Option Nat) : Option Nat :=
  match l with
  | [] => n
  | c :: _ => some c

/-- `lastOr l p` : the last element of `l`, else `p`. -/
def lastOr : List Nat → Option Nat → Option Nat
  | [], p => p
  | c :: rest, _ => lastOr rest (some c)

/-- Sibling segment with explicit continuation: the nodes of `l`, linked in
order; the first one's `previousSibling` is `prev`, the last one's
`nextSibling` is `next`. -/
def sibSegN (s : Heap) : Option Nat → List Nat → Option Nat → Prop
  | _, [], _ => True
  | prev, c :: rest, next =>
    (s.get c).previousSibling = prev ∧ (s.get c).nextSibling = headOr rest next ∧
      sibSegN s (some c) rest next

/-! ### Step characterizations

Each successful mutation is described as a simultaneous per-field update of
the heap (provably equal to the sequential assignment chain; the `if` spines
order aliased writes so that the later JavaScript assignment wins). -/

/-- The value `insertBefore` assigns to `previousSibling`:
`refChild ? refChild.previousSibling : children[children.length - 1] ?? null`. -/
def prevSibOf (s : Heap) (self : Nat) (refChild : Option Nat) : Option Nat :=
  match refChild with
  | some r => (s.get r).previousSibling
  | none => (s.get self).childList.getLast?

/-- The sibling chain as the specification reads it: start at a pointer and
follow `nextSibling` while fuel lasts. -/
def chainFrom (s : Heap) : Nat → Option Nat → List Nat
  | 0, _ => []
  | _ + 1, none => []
  | fuel + 1, some n => n :: chainFrom s fuel (s.get n).nextSibling

/-- Heaps where every id at or above the allocation counter is still blank:
the invariant that makes `alloc` safe. -/
def Fresh (s : Heap) : Prop :=
  ∀ j, s.nextId ≤ j → s.get j = NodeData.blank

/-- A node record with no structural linkage. -/
def NodeData.clean (d : NodeData) : Prop :=
  d.parentNode = none ∧ d.childList = [] ∧ d.firstChild = none ∧
    d.lastChild = none ∧ d.previousSibling = none ∧ d.nextSibling = none

/-! ## The tree assembler (`build.ts`, `unnamed/part_001`)

The builder is embedded at the *resolved* wire level: `resolveStrings` has
already replaced string-table indices by strings (its index arithmetic is
orthogonal to tree structure).  A wire node's `nodeType` is carried as
`NodeKind`; the catch-all arm of `instantiateDomNode`'s `switch` (the
`GenericNode` case) covers the remaining kinds.  The `Document` instance's
private `#contentType` (readable in the builder only through
`context.document?.contentType`) is tracked in the context as
`docContentType`, since `NodeData` does not model it. -/

/-- A resolved wire attribute (`ResolvedWireAttr` of `wire.ts`). -/
structure ResolvedWireAttr where
  name : String
  value : Option String
  ns : Option String
  deriving Repr, DecidableEq

/-- A resolved wire node (`ResolvedWireNode` of `wire.ts`). -/
structure ResolvedWireNode where
  id : Nat
  nodeType : NodeKind
  nodeName : Option String
  nodeValue : Option String
  parentNode : Option Nat
  firstChild : Option Nat
  nextSibling : Option Nat
  attributes : List ResolvedWireAttr
  deriving Repr, DecidableEq

/-- A resolved wire document (`ResolvedWireDoc` of `wire.ts`). -/
structure ResolvedWireDoc where
  contentType : String
  quirksMode : String
  nodes : List ResolvedWireNode
  deriving Repr, DecidableEq

/-- `BuildTreeContext` of `build.ts`.  `lookup` is the `Map<number,
ResolvedWireNode>`; `document` is the heap id of the instantiated document. -/
structure BuildTreeContext where
  lookup : List (Nat × ResolvedWireNode)
  contentType : String
  quirksMode : String
  document : Option Nat
  docContentType : Option String
  namespaceURI : Option String
  deriving Repr, DecidableEq

/-- Builder failures: the `TypeError`s thrown by `build.ts` itself, or a
`DOMException` propagating out of the mutation core. -/
inductive BuildErr where
  | typeError
  | dom (e : DomErr)
  deriving Repr, DecidableEq

def XHTML_NAMESPACE : String := "http://www.w3.org/1999/xhtml"

def XML_NAMESPACE : String := "http://www.w3.org/XML/1998/namespace"

/-- The `switch (contentType)` namespace fallback at the top of
`instantiateDomNode`. -/
def namespaceFallback (contentType : String) : Option String :=
  if contentType = "application/xhtml+xml" ∨ contentType = "image/svg+xml" ∨
      contentType = "application/mathml+xml" then
    some XHTML_NAMESPACE
  else if contentType = "application/xml" ∨ contentType = "text/xml" then
    some XML_NAMESPACE
  else
    none

/-- `if (!context.namespaceURI) { … }` at the top of `instantiateDomNode`:
prefer the document's namespace, else fall back on the content type
(`context.document?.contentType ?? context.contentType`). -/
def resolveContextNamespace (ctx : BuildTreeContext) (s : Heap) :
    BuildTreeContext :=
  match ctx.namespaceURI with
  | some _ => ctx
  | none =>
    match ctx.document with
    | some d =>
      match (s.get d).namespaceURI with
      | some ns => { ctx with namespaceURI := some ns }
      | none =>
        { ctx with namespaceURI :=
            namespaceFallback (ctx.docContentType.getD ctx.contentType) }
    | none => { ctx with namespaceURI := namespaceFallback ctx.contentType }

/-- `instance.namespaceURI = ns`. -/
def updNamespace (s : Heap) (i : Nat) (v : Option String) : Heap :=
  s.modify i fun d => { d with namespaceURI := v }

/-- `instance.ownerDocument = doc`. -/
def updOwnerDoc (s : Heap) (i : Nat) (v : Option Nat) : Heap :=
  s.modify i fun d => { d with ownerDocument := v }

/-- `instance.attributes = createNamedNodeMap(instance, attrs)`: install the
backing list of attribute-node ids. -/
def updAttrs (s : Heap) (i : Nat) (l : List Nat) : Heap :=
  s.modify i fun d => { d with attrs := l }

/-- `clone.ownerElement = element`. -/
def updOwnerElement (s : Heap) (i : Nat) (v : Option Nat) : Heap :=
  s.modify i fun d => { d with ownerElement := v }

/-- `tagName.toUpperCase()`: per-character uppercase (written over the
character list so that it evaluates inside the kernel; extensionally it is
`String.toUpper`). -/
def jsToUpperCase (s : String) : String := String.mk (s.data.map Char.toUpper)

/-- `new Attr(name, value, namespaceURI?, ownerElement?)`: `super(name,
value)`, then the owner wiring (`ownerDocument = ownerElement?.ownerDocument
?? null`). -/
def mkAttr (s : Heap) (name value : String) (ns : Option String)
    (owner : Option Nat) : Nat × Heap :=
  s.alloc { NodeData.blank with
    kind := .attribute
    nodeName := name
    nodeValue := some value
    namespaceURI := ns
    ownerElement := owner
    ownerDocument := owner.bind fun e => (s.get e).ownerDocument }

/-- `new Element(tagName)` with no further arguments: `super(tagName, null)`,
`tagName` uppercased, an empty `NamedNodeMap`. -/
def mkElement (s : Heap) (tagName : String) : Nat × Heap :=
  s.alloc { NodeData.blank with
    kind := .element
    nodeName := tagName
    nodeValue := none
    tagName := jsToUpperCase tagName }

/-- `new Text(data)`: `super("#text", data)`. -/
def mkText (s : Heap) (data : String) : Nat × Heap :=
  s.alloc { NodeData.blank with
    kind := .text
    nodeName := "#text"
    nodeValue := some data }

/-- `new CDATASection(data)`: `super("#cdata-section", data)`. -/
def mkCDATASection (s : Heap) (data : String) : Nat × Heap :=
  s.alloc { NodeData.blank with
    kind := .cdata
    nodeName := "#cdata-section"
    nodeValue := some data }

/-- `new DocumentFragment()`: `super("#document-fragment", null)`. -/
def mkDocumentFragment (s : Heap) : Nat × Heap :=
  s.alloc { NodeData.blank with
    kind := .documentFragment
    nodeName := "#document-fragment"
    nodeValue := none }

/-- `new DocumentType(name, publicId, systemId)`. -/
def mkDocumentType (s : Heap) (name publicId systemId : String) : Nat × Heap :=
  s.alloc { NodeData.blank with
    kind := .documentType
    nodeName := name
    nodeValue := none
    publicId := publicId
    systemId := systemId }

/-- `new Document(contentType, quirksMode, namespaceURI, baseURI)`:
`super("#document", null, null, null, null)`; `ownerDocument` is the document
itself (its id is the one `alloc` is about to hand out). -/
def mkDocument (s : Heap) (ns : Option String) : Nat × Heap :=
  s.alloc { NodeData.blank with
    kind := .document
    nodeName := "#document"
    nodeValue := none
    namespaceURI := ns
    ownerDocument := some s.nextId }

/-- `new GenericNode(nodeType, nodeName, nodeValue)`. -/
def mkGenericNode (s : Heap) (k : NodeKind) (name : String)
    (value : Option String) : Nat × Heap :=
  s.alloc { NodeData.blank with
    kind := k
    nodeName := name
    nodeValue := value }

/-- `(node.attributes ?? []).map((attr) => new Attr(attr.name, attr.value ??
"", attr.ns ?? context.namespaceURI, instance))`. -/
def allocAttrs (ns : Option String) (e : Nat) :
    List ResolvedWireAttr → Heap → List Nat × Heap
  | [], s => ([], s)
  | a :: rest, s =>
    let p := mkAttr s a.name (a.value.getD "")
      (match a.ns with | some x => some x | none => ns) (some e)
    let q := allocAttrs ns e rest p.2
    (p.1 :: q.1, q.2)

/-- The `NodeType.Document` arm of `instantiateDomNode`'s `switch`: pick
`HTMLDocument` / `Document` / `XMLDocument` by content type.  Returns the new
id, the heap, and the document's private `#contentType`. -/
def instantiateDocument (ctx : BuildTreeContext) (s : Heap) :
    Nat × Heap × String :=
  if ctx.contentType = "text/html" then
    let p := mkDocument s (some XHTML_NAMESPACE)
    (p.1, p.2, "text/html")
  else if ctx.contentType = "application/xhtml+xml" then
    let p := mkDocument s (some XHTML_NAMESPACE)
    (p.1, p.2, ctx.contentType)
  else
    let p := mkDocument s none
    (p.1, p.2, "application/xml")

/-- The `NodeType.Element` arm: `new Element(node.nodeName ?? "")`, namespace
assignment, then the attribute map (each `new Attr(…, instance)`). -/
def instantiateElement (node : ResolvedWireNode) (ctx : BuildTreeContext)
    (s : Heap) : Nat × Heap :=
  let p := mkElement s (node.nodeName.getD "")
  let s2 := updNamespace p.2 p.1 ctx.namespaceURI
  let q := allocAttrs ctx.namespaceURI p.1 node.attributes s2
  (p.1, updAttrs q.2 p.1 q.1)

/-- The `NodeType.DocumentType` arm: publicId/systemId are fished out of the
wire attributes; `createDocumentType` wires `ownerDocument`, then the builder
assigns `ownerDocument` and `namespaceURI` again. -/
def instantiateDocumentType (node : ResolvedWireNode) (ctx : BuildTreeContext)
    (s : Heap) : Nat × Heap :=
  let publicAttr := node.attributes.find? fun a => a.name = "publicId"
  let systemAttr := node.attributes.find? fun a => a.name = "systemId"
  let p := mkDocumentType s (node.nodeName.getD "")
    ((publicAttr.bind fun a => a.value).getD "")
    ((systemAttr.bind fun a => a.value).getD "")
  let s2 := updOwnerDoc p.2 p.1 ctx.document
  (p.1, updNamespace s2 p.1 ctx.namespaceURI)

/-- The `NodeType.Attribute` arm: `createAttributeNS(context.namespaceURI,
name, value)`, then the `ownerDocument` / `namespaceURI` assignments. -/
def instantiateAttribute (node : ResolvedWireNode) (ctx : BuildTreeContext)
    (s : Heap) : Nat × Heap :=
  let p := mkAttr s (node.nodeName.getD "") (node.nodeValue.getD "")
    ctx.namespaceURI none
  let s2 := updOwnerDoc p.2 p.1 ctx.document
  (p.1, updNamespace s2 p.1 ctx.namespaceURI)

/-- The `NodeType.CData` arm: `createCDATASection(node.nodeValue ?? "")`,
then the `ownerDocument` / `namespaceURI` assignments. -/
def instantiateCData (node : ResolvedWireNode) (ctx : BuildTreeContext)
    (s : Heap) : Nat × Heap :=
  let p := mkCDATASection s (node.nodeValue.getD "")
  let s2 := updOwnerDoc p.2 p.1 ctx.document
  (p.1, updNamespace s2 p.1 ctx.namespaceURI)

/-- `instantiateDomNode(node, context)` of `build.ts`: the guard against
instantiating a non-document node without a document context, the namespace
resolution, the per-`nodeType` `switch`, and the final `if (instance.nodeType
!== NodeType.Document) instance.ownerDocument = context.document`. -/
def instantiateDomNode (node : ResolvedWireNode) (ctx0 : BuildTreeContext)
    (s : Heap) : Except BuildErr (Nat × Heap × BuildTreeContext) :=
  if ctx0.document = none ∧ node.nodeType ≠ NodeKind.document then
    .error .typeError
  else
    let ctx := resolveContextNamespace ctx0 s
    match node.nodeType with
    | NodeKind.document =>
      let p := instantiateDocument ctx s
      .ok (p.1, p.2.1,
        { ctx with document := some p.1, docContentType := some p.2.2 })
    | NodeKind.element =>
      let p := instantiateElement node ctx s
      .ok (p.1, updOwnerDoc p.2 p.1 ctx.document, ctx)
    | NodeKind.text =>
      let p := mkText s (node.nodeValue.getD "")
      .ok (p.1, updOwnerDoc p.2 p.1 ctx.document, ctx)
    | NodeKind.documentFragment =>
      let p := mkDocumentFragment s
      .ok (p.1, updOwnerDoc p.2 p.1 ctx.document, ctx)
    | NodeKind.documentType =>
      let p := instantiateDocumentType node ctx s
      .ok (p.1, updOwnerDoc p.2 p.1 ctx.document, ctx)
    | NodeKind.attribute =>
      let p := instantiateAttribute node ctx s
      .ok (p.1, updOwnerDoc p.2 p.1 ctx.document, ctx)
    | NodeKind.cdata =>
      let p := instantiateCData node ctx s
      .ok (p.1, updOwnerDoc p.2 p.1 ctx.document, ctx)
    | k =>
      let p := mkGenericNode s k (node.nodeName.getD "") node.nodeValue
      .ok (p.1, updOwnerDoc p.2 p.1 ctx.document, ctx)

/-- `Map.get` on the wire-node lookup (first binding wins). -/
def wireLookup : List (Nat × ResolvedWireNode) → Nat → Option ResolvedWireNode
  | [], _ => none
  | (j, w) :: rest, i => if i = j then some w else wireLookup rest i

/-- `Map.set` on the wire-node lookup (replace or append). -/
def wireLookupInsert (l : List (Nat × ResolvedWireNode)) (i : Nat)
    (w : ResolvedWireNode) : List (Nat × ResolvedWireNode) :=
  match l with
  | [] => [(i, w)]
  | (j, e) :: rest =>
    if i = j then (i, w) :: rest else (j, e) :: wireLookupInsert rest i w

/-- `const reference = next && next.parentNode === parent ? next :
prev?.nextSibling ?? null` in `buildSubtree`. -/
def buildReference (s1 : Heap) (p : Nat) (prev next : Option Nat) :
    Option Nat :=
  match next with
  | some nx =>
    if (s1.get nx).parentNode = some p then some nx
    else
      match prev with
      | some pv => (s1.get pv).nextSibling
      | none => none
  | none =>
    match prev with
    | some pv => (s1.get pv).nextSibling
    | none => none

/-- `if (parent) { … reference ? parent.insertBefore(domNode, reference) :
parent.appendChild(domNode) }` in `buildSubtree`. -/
def buildInsertStep (fuel : Nat) (s1 : Heap) (parent : Option Nat)
    (prev next : Option Nat) (domNode : Nat) : Except DomErr Nat × Heap :=
  match parent with
  | none => (.ok domNode, s1)
  | some p =>
    match buildReference s1 p prev next with
    | some r => insertBeforeFuel fuel s1 p domNode (some r)
    | none => appendChild fuel s1 p domNode

mutual

/-- `buildSubtree(node, parent, prev, next, context)`: instantiate, then
`parent.insertBefore(domNode, reference)` / `parent.appendChild(domNode)`,
then the `while (childId != null)` loop over the wire
first-child/next-sibling chain.  Fuel bounds both recursions. -/
def buildSubtreeFuel :
    Nat → ResolvedWireNode → Option Nat → Option Nat → Option Nat →
      BuildTreeContext → Heap → Except BuildErr (Nat × Heap × BuildTreeContext)
  | 0, _, _, _, _, _, _ => .error (.dom .fuel)
  | fuel + 1, node, parent, prev, next, ctx, s =>
    match instantiateDomNode node ctx s with
    | .error e => .error e
    | .ok (domNode, s1, ctx1) =>
      match buildInsertStep fuel s1 parent prev next domNode with
      | (.error e, _) => .error (.dom e)
      | (.ok _, s2) =>
        match buildChildrenFuel fuel node.firstChild none domNode ctx1 s2 with
        | .error e => .error e
        | .ok (_, s3, ctx3) => .ok (domNode, s3, ctx3)
termination_by structural fuel => fuel

/-- The children loop of `buildSubtree`: `while (childId != null) { const
childWire = lookup.get(childId); if (!childWire) break; previousChild =
buildSubtree(childWire, domNode, previousChild, null, context); childId =
childWire.nextSibling; }`. -/
def buildChildrenFuel :
    Nat → Option Nat → Option Nat → Nat → BuildTreeContext → Heap →
      Except BuildErr (Option Nat × Heap × BuildTreeContext)
  | 0, _, _, _, _, _ => .error (.dom .fuel)
  | fuel + 1, childId, previousChild, domNode, ctx, s =>
    match childId with
    | none => .ok (previousChild, s, ctx)
    | some cid =>
      match wireLookup ctx.lookup cid with
      | none => .ok (previousChild, s, ctx)
      | some childWire =>
        match buildSubtreeFuel fuel childWire (some domNode) previousChild
            none ctx s with
        | .error e => .error e
        | .ok (child, s', ctx') =>
          buildChildrenFuel fuel childWire.nextSibling (some child) domNode
            ctx' s'
termination_by structural fuel => fuel

end

/-- `buildDocumentTree(document)` of `build.ts` (on an already-resolved wire
document): build the id lookup, find the document root, build its subtree
from the empty heap, and check that a document node came back. -/
def buildDocumentTree (doc : ResolvedWireDoc) (fuel : Nat) :
    Except BuildErr (Nat × Heap) :=
  let lookup := doc.nodes.foldl (fun acc n => wireLookupInsert acc n.id n) []
  match doc.nodes.find? (fun n => n.nodeType = NodeKind.document) with
  | none => .error .typeError
  | some root =>
    let ctx : BuildTreeContext :=
      { lookup := lookup, contentType := doc.contentType,
        quirksMode := doc.quirksMode, document := none,
        docContentType := none, namespaceURI := none }
    match buildSubtreeFuel fuel root none none none ctx Heap.empty with
    | .error e => .error e
    | .ok (d, s, _) =>
      if (s.get d).kind = NodeKind.document then .ok (d, s)
      else .error .typeError

/-! ## Well-formedness of assembled trees -/

/-- The bundle of facts carried through the assembler: structural
well-formedness, heap freshness, and monotone id allocation. -/
def BuildInv (s s' : Heap) : Prop :=
  WF s' ∧ Fresh s' ∧ s.nextId ≤ s'.nextId

instance {ε α : Type} [DecidableEq ε] [DecidableEq α] :
    DecidableEq (Except ε α) := fun a b =>
  match a, b with
  | .error e, .error f =>
    if h : e = f then isTrue (by rw [h])
    else isFalse (by intro hc; injection hc; contradiction)
  | .ok x, .ok y =>
    if h : x = y then isTrue (by rw [h])
    else isFalse (by intro hc; injection hc; contradiction)
  | .error _, .ok _ => isFalse (by intro hc; cases hc)
  | .ok _, .error _ => isFalse (by intro hc; cases hc)

/-- A two-node wire document (`#document` with a single `html` element
child), used to evaluate the assembler on a concrete input. -/
def wireDocC1 : ResolvedWireDoc where
  contentType := "text/html"
  quirksMode := "no-quirks"
  nodes := [
    { id := 10, nodeType := .document, nodeName := some "#document",
      nodeValue := none, parentNode := none, firstChild := some 11,
      nextSibling := none, attributes := [] },
    { id := 11, nodeType := .element, nodeName := some "html",
      nodeValue := none, parentNode := some 10, firstChild := none,
      nextSibling := none, attributes := [] }]

/-- The heap assembled from `wireDocC1` (document = id 1, element = id 2). -/
def heapC1 : Heap :=
  match buildDocumentTree wireDocC1 16 with
  | .ok ds => ds.2
  | .error _ => Heap.empty

/-- `heapC1` with a detached text node (id 3) allocated. -/
def heapC1T : Heap :=
  (heapC1.alloc { NodeData.blank with
    kind := .text, nodeName := "#text", nodeValue := some "x" }).2

/-- `heapC1T` after `document.insertBefore(text, null)`. -/
def heapC1App : Heap := (insertBeforeFuel 8 heapC1T 1 3 none).2

/-- Two detached elements (ids 1 and 2, plus 3 unallocated): the receiver of
the concrete error-handling calls. -/
def sC2 : Heap where
  nextId := 3
  nodes := [
    (1, { NodeData.blank with kind := .element, nodeName := "DIV" }),
    (2, { NodeData.blank with kind := .element, nodeName := "SPAN" })]

/-- An element (id 1) and a well-formed two-child document fragment (id 2
with text children 3 and 4). -/
def sC3 : Heap where
  nextId := 5
  nodes := [
    (1, { NodeData.blank with kind := .element, nodeName := "DIV" }),
    (2, { NodeData.blank with
          kind := .documentFragment
          nodeName := "#document-fragment"
          childList := [3, 4]
          firstChild := some 3
          lastChild := some 4 }),
    (3, { NodeData.blank with
          kind := .text
          nodeName := "#text"
          nodeValue := some "A"
          parentNode := some 2
          nextSibling := some 4 }),
    (4, { NodeData.blank with
          kind := .text
          nodeName := "#text"
          nodeValue := some "B"
          parentNode := some 2
          previousSibling := some 3 })]

/-! ## `cloneNode(false)` (`dom.ts`): the per-class `cloneShallow` methods -/

/-- An attribute's contribution to a node's shallow shape: `(attr.name,
attr.value)` (the `value` getter is `this.nodeValue ?? ""`). -/
def attrShape (s : Heap) (a : Nat) : String × String :=
  ((s.get a).nodeName, (s.get a).nodeValue.getD "")

/-- A node's shallow shape: `nodeName`, `nodeValue` and the ordered attribute
name/value pairs. -/
def shallowShape (s : Heap) (n : Nat) :
    String × Option String × List (String × String) :=
  ((s.get n).nodeName, (s.get n).nodeValue, (s.get n).attrs.map (attrShape s))

/-- `[...this.attributes].map((attr) => attr.cloneNode())`: each
`Attr.cloneNode` is `new Attr(this.nodeName, this.value, this.namespaceURI)`
followed by `clone.ownerElement = this.ownerElement`. -/
def cloneAttrs : List Nat → Heap → List Nat × Heap
  | [], s => ([], s)
  | a :: rest, s =>
    let d := s.get a
    let p := mkAttr s d.nodeName (d.nodeValue.getD "") d.namespaceURI none
    let s2 := updOwnerElement p.2 p.1 d.ownerElement
    let q := cloneAttrs rest s2
    (p.1 :: q.1, q.2)

/-- `for (const attr of attrs) attr.ownerElement = this` in the `Element`
constructor. -/
def setAttrsOwner (e : Nat) : List Nat → Heap → Heap
  | [], s => s
  | a :: rest, s => setAttrsOwner e rest (updOwnerElement s a (some e))

/-- `Element.cloneShallow`: clone the attributes, then `new
Element(this.tagName, clonedAttrs)` (which re-owns the attribute clones). -/
def cloneElement (s : Heap) (n : Nat) : Nat × Heap :=
  let q := cloneAttrs (s.get n).attrs s
  let p := q.2.alloc { NodeData.blank with
    kind := .element
    nodeName := (s.get n).tagName
    tagName := jsToUpperCase (s.get n).tagName
    attrs := q.1 }
  (p.1, setAttrsOwner p.1 q.1 p.2)

/-- `node.cloneNode(false)` = `cloneShallow()`, dispatched per class exactly
as the source's overrides do (the catch-all is `GenericNode.cloneShallow`). -/
def cloneNodeF (s : Heap) (n : Nat) : Nat × Heap :=
  let d := s.get n
  match d.kind with
  | .element => cloneElement s n
  | .attribute =>
    let p := mkAttr s d.nodeName (d.nodeValue.getD "") d.namespaceURI none
    (p.1, updOwnerElement p.2 p.1 d.ownerElement)
  | .text => mkText s (d.nodeValue.getD "")
  | .cdata => mkCDATASection s (d.nodeValue.getD "")
  | .comment => s.alloc { NodeData.blank with
      kind := .comment
      nodeName := "#comment"
      nodeValue := some (d.nodeValue.getD "") }
  | .processingInstruction => s.alloc { NodeData.blank with
      kind := .processingInstruction
      nodeName := d.nodeName
      nodeValue := some (d.nodeValue.getD "") }
  | .documentFragment => mkDocumentFragment s
  | .documentType => mkDocumentType s d.nodeName d.publicId d.systemId
  | .document => mkDocument s (some XHTML_NAMESPACE)
  | k => mkGenericNode s k d.nodeName d.nodeValue

/-- The shallow shape a clone of `n` will carry, computed from the source
heap alone. -/
def cloneShape (s : Heap) (n : Nat) :
    String × Option String × List (String × String) :=
  let d := s.get n
  match d.kind with
  | .element => (d.tagName, none, d.attrs.map (attrShape s))
  | .attribute => (d.nodeName, some (d.nodeValue.getD ""), [])
  | .text => ("#text", some (d.nodeValue.getD ""), [])
  | .cdata => ("#cdata-section", some (d.nodeValue.getD ""), [])
  | .comment => ("#comment", some (d.nodeValue.getD ""), [])
  | .processingInstruction => (d.nodeName, some (d.nodeValue.getD ""), [])
  | .documentFragment => ("#document-fragment", none, [])
  | .documentType => (d.nodeName, none, [])
  | .document => ("#document", none, [])
  | _ => (d.nodeName, d.nodeValue, [])

/-- An element (id 1) holding one attribute node (id 2, `class="x"`). -/
def sC9 : Heap where
  nextId := 3
  nodes := [
    (1, { NodeData.blank with
          kind := .element
          nodeName := "div"
          tagName := "DIV"
          attrs := [2] }),
    (2, { NodeData.blank with
          kind := .attribute
          nodeName := "class"
          nodeValue := some "x"
          ownerElement := some 1 })]

/-! ## `Document`'s `documentElement` / `head` / `body` caches (C10) -/

/-- `tagName.toLowerCase()`, over the character list. -/
def jsToLowerCase (t : String) : String := String.mk (t.data.map Char.toLower)

/-- The `while (child) { if (child.nodeType === NodeType.Element) return
child; child = child.nextSibling; }` scan of the `documentElement` getter. -/
def documentElementScan (s : Heap) : Nat → Option Nat → Option Nat
  | 0, _ => none
  | _ + 1, none => none
  | fuel + 1, some c =>
    if (s.get c).kind = NodeKind.element then some c
    else documentElementScan s fuel (s.get c).nextSibling

/-- The scan of the `head` / `body` getters: first element child whose
lowercased `tagName` is the given name. -/
def namedElementScan (s : Heap) (name : String) : Nat → Option Nat → Option Nat
  | 0, _ => none
  | _ + 1, none => none
  | fuel + 1, some c =>
    if (s.get c).kind = NodeKind.element ∧ jsToLowerCase (s.get c).tagName = name
    then some c
    else namedElementScan s name fuel (s.get c).nextSibling

/-- `get documentElement() { return this.#documentElement ??= (scan)(); }`:
a `null` scan result is re-assigned to the `null` cache (so nothing
changes); a node is cached. -/
def documentElementRead (s : Heap) (d : Nat) (fuel : Nat) : Option Nat × Heap :=
  match (s.get d).cacheDocumentElement with
  | some e => (some e, s)
  | none =>
    match documentElementScan s fuel (s.get d).firstChild with
    | some e =>
      (some e, s.modify d fun x => { x with cacheDocumentElement := some e })
    | none => (none, s)

/-- `docEl?.firstChild` for the heap/result pair of a `documentElement`
read. -/
def headStart (p : Option Nat × Heap) : Option Nat :=
  match p.1 with
  | some de => (p.2.get de).firstChild
  | none => none

/-- `get head() { return this.#head ??= (() => { const docEl =
this.documentElement; …scan… })(); }`. -/
def headRead (s : Heap) (d : Nat) (fuel : Nat) : Option Nat × Heap :=
  match (s.get d).cacheHead with
  | some e => (some e, s)
  | none =>
    match namedElementScan (documentElementRead s d fuel).2 "head" fuel
        (headStart (documentElementRead s d fuel)) with
    | some e =>
      (some e, (documentElementRead s d fuel).2.modify d
        fun x => { x with cacheHead := some e })
    | none => (none, (documentElementRead s d fuel).2)

/-- `get body()`: identical to `head` with tag name `"body"` and cache
`#body`. -/
def bodyRead (s : Heap) (d : Nat) (fuel : Nat) : Option Nat × Heap :=
  match (s.get d).cacheBody with
  | some e => (some e, s)
  | none =>
    match namedElementScan (documentElementRead s d fuel).2 "body" fuel
        (headStart (documentElementRead s d fuel)) with
    | some e =>
      (some e, (documentElementRead s d fuel).2.modify d
        fun x => { x with cacheBody := some e })
    | none => (none, (documentElementRead s d fuel).2)

/-- One public mutation-core call. -/
inductive MutOp where
  | ins (fuel self nc : Nat) (rc : Option Nat)
  | app (fuel self nc : Nat)
  | rep (fuel self nc old : Nat)
  | rem (self old : Nat)
  deriving Repr, DecidableEq

/-- Run a sequence of mutation-core calls (keeping the heap whether each
succeeds or throws). -/
def applyOps : List MutOp → Heap → Heap
  | [], s => s
  | op :: rest, s =>
    applyOps rest (match op with
      | .ins fuel self nc rc => (insertBeforeFuel fuel s self nc rc).2
      | .app fuel self nc => (appendChild fuel s self nc).2
      | .rep fuel self nc old => (replaceChild fuel s self nc old).2
      | .rem self old => (removeChild s self old).2)

/-- A document (id 1) with an `html` element child (id 2) holding a `head`
element (id 3). -/
def sC10 : Heap where
  nextId := 4
  nodes := [
    (1, { NodeData.blank with
          kind := .document
          nodeName := "#document"
          firstChild := some 2
          lastChild := some 2
          childList := [2]
          ownerDocument := some 1 }),
    (2, { NodeData.blank with
          kind := .element
          nodeName := "html"
          tagName := "HTML"
          parentNode := some 1
          firstChild := some 3
          lastChild := some 3
          childList := [3]
          ownerDocument := some 1 }),
    (3, { NodeData.blank with
          kind := .element
          nodeName := "head"
          tagName := "HEAD"
          parentNode := some 2
          ownerDocument := some 1 })]

/-! ## The selector engine (`select.ts`): attribute matching (C7) -/

/-- `a.split(/\s+/g)`: split on maximal whitespace runs, keeping the empty
boundary pieces JavaScript produces (`" a".split(/\s+/)` is `["", "a"]`,
`"a ".split(/\s+/)` is `["a", ""]`). -/
def jsSplitWsAux : List Char → List Char → Bool → List String
  | [], acc, _ => [String.mk acc.reverse]
  | c :: rest, acc, inRun =>
    if c.isWhitespace then
      if inRun then jsSplitWsAux rest acc true
      else String.mk acc.reverse :: jsSplitWsAux rest [] true
    else jsSplitWsAux rest (c :: acc) false

def jsSplitWs (a : String) : List String := jsSplitWsAux a.data [] false

/-- `a.startsWith(b)`, over the character lists. -/
def jsStartsWith (a b : String) : Bool := b.data.isPrefixOf a.data

/-- `a.endsWith(b)`. -/
def jsEndsWith (a b : String) : Bool := b.data.isSuffixOf a.data

/-- Substring check over character lists (prefix at some suffix). -/
def isInfixOfCh (b : List Char) : List Char → Bool
  | [] => b.isEmpty
  | c :: rest => b.isPrefixOf (c :: rest) || isInfixOfCh b rest

/-- `a.indexOf(b) > -1`. -/
def jsIncludesSub (a b : String) : Bool := isInfixOfCh b.data a.data

/-- `getAttributeMatch(selector)` of `select.ts`: the per-operator
comparison closures (the fall-through returns a constant-`false` matcher). -/
def getAttributeMatch (operator : String) (a b : String) : Bool :=
  match operator with
  | "=" => a == b
  | "~=" => (jsSplitWs a).contains b
  | "|=" => jsStartsWith a (b ++ "-")
  | "*=" => jsIncludesSub a b
  | "$=" => jsEndsWith a b
  | "^=" => jsStartsWith a b
  | _ => false

/-- The shape of one `Object.entries(node.attributes)` pair as the attribute
arm of `createMatch` destructures it (`[attr, attrVal]`): the property key it
was reached under and the attribute node's current value.  See
`objectEntriesAttrs` for the entries the program actually produces — the
`NamedNodeMap` proxy's traps never surface any, so the list consumed by
`attributeLoop` is always empty. -/
structure AttrEntry where
  key : String
  value : String
  deriving Repr, DecidableEq

/-- `JSON.parse` applied to a quote-wrapped operand, for operands without
escape sequences (the only shape the selector grammar produces for plain
values): drop the matching outer quotes. -/
def stripQuotesSimple (v : String) : String :=
  match v.data with
  | c :: rest =>
    if (c = '"' ∨ c = '\'') ∧ rest ≠ [] ∧ rest.getLast? = some c then
      String.mk rest.dropLast
    else v
  | [] => v

/-- The `for (const [attr, attrVal] of attrs)` loop of `createMatch`'s
attribute arm, over whatever entries it is fed — in the program always the
empty list (see `objectEntriesAttrs`), so the loop body below never runs.
With the case-insensitive flag the source assigns `value =
name.toLowerCase()` and `attrVal.value = attr.toLowerCase()` before
comparing (the mutated `value` persists into later iterations, which the
recursion threads through; the write into the attribute node is observable
only outside the matcher and is not modelled here). -/
def attributeLoop (operator : String) (ci : Bool) (name : String) :
    Option String → List AttrEntry → Bool
  | _, [] => false
  | value, e :: rest =>
    let value' := if ci then some (jsToLowerCase name) else value
    let entryVal := if ci then jsToLowerCase e.key else e.value
    if e.key ≠ name then attributeLoop operator ci name value' rest
    else
      match value' with
      | none => true
      | some v =>
        if v = "" then true
        else
          let v2 := stripQuotesSimple v
          if v2 ≠ "" then getAttributeMatch operator entryVal v2
          else attributeLoop operator ci name (some v2) rest

/-! ## The selector engine (`select.ts`): tree queries (C4, C8) -/

/-- `NamedNodeMap.namedItem` (via `getNamedItem`) reached through
`node.attributes?.`: the first attribute whose name matches
case-insensitively, or `none` when the node has no attribute map (the base
class initializes `attributes` to `null`; only `Element` assigns a map).
Returns the matched attribute's `.value` (`nodeValue ?? ""`). -/
def getNamedItemValue (s : Heap) (n : Nat) (name : String) : Option String :=
  if (s.get n).kind == NodeKind.element then
    match (s.get n).attrs.find?
        (fun a => jsToLowerCase (s.get a).nodeName == jsToLowerCase name) with
    | some a => some ((s.get a).nodeValue.getD "")
    | none => none
  else none

/-- Leading and trailing whitespace removed, as `Number`'s string coercion
does before reading the literal. -/
def jsTrimCh (l : List Char) : List Char :=
  ((l.dropWhile Char.isWhitespace).reverse.dropWhile Char.isWhitespace).reverse

def parseDigits : List Char → Option Nat → Option Nat
  | [], acc => acc
  | c :: rest, acc =>
    if c.isDigit then
      parseDigits rest (some ((acc.getD 0) * 10 + (c.toNat - 48)))
    else none

/-- `Number(str)` on the integer fragment JavaScript's coercion accepts from
an `nth-child` argument: trimmed empty string is `0`, an optionally signed
decimal integer is its value, anything else (including `odd`, `even` and
`An+B` formulas) is `NaN`, modelled as `none`. -/
def jsNumberOfString (str : String) : Option Int :=
  match jsTrimCh str.data with
  | [] => some 0
  | '-' :: rest => (parseDigits rest none).map (fun n => -(n : Int))
  | '+' :: rest => (parseDigits rest none).map (fun n => (n : Int))
  | l => (parseDigits l none).map (fun n => (n : Int))

/-- `nthChildIndex(node, parent)`: the index of `node` among `parent`'s
element children (`findIndex` gives `-1` when absent or when there is no
parent). -/
def nthChildIndex (s : Heap) (node : Nat) (parent : Option Nat) : Int :=
  match parent with
  | none => -1
  | some p =>
    match listIndexOf
        ((s.get p).childList.filter
          (fun c => (s.get c).kind == NodeKind.element)) node with
    | some i => (i : Int)
    | none => -1

/-- The fragment of parsel-js's AST that `createMatch`/`selectorToMatch`
consume and the claims exercise: type, class, id, `nth-child` pseudo-class,
universal, and the compound/list combinations (complex selectors with
combinators and the remaining pseudo-classes are outside the claims'
selectors). -/
inductive SelAst where
  | typ (content name : String)
  | cls (name : String)
  | idSel (name : String)
  | nthChild (argument : String)
  | universal
  | compound (list : List SelAst)
  | selList (list : List SelAst)
  deriving Repr

/-- A matcher closure `(node, parent?, index?) => boolean`, over the heap. -/
def Matcher : Type := Heap → Nat → Option Nat → Int → Bool

/-- `createMatch(selector)` for the token kinds above.  The `nth-child`
matcher first coerces the argument with `Number`; a numeric argument
compares against `nthChildIndex + 1`, and otherwise `odd`/`even` test the
parity (`An+B` formulas, which the source handles by a further formula
parse, are outside the claims' selectors and are left unmatched here, as
are compound/list tokens, on which the source's `createMatch` throws
`Unhandled selector`). -/
def createMatch : SelAst → Matcher
  | .typ content name => fun s n _ _ =>
    if content == "*" then true else (s.get n).nodeName == name
  | .cls name => fun s n _ _ =>
    match getNamedItemValue s n "class" with
    | some v => (jsSplitWs v).contains name
    | none => false
  | .idSel name => fun s n _ _ =>
    match getNamedItemValue s n "id" with
    | some v => v == name
    | none => false
  | .nthChild argument => fun s n parent _ =>
    let target : Int := nthChildIndex s n parent + 1
    match jsNumberOfString argument with
    | some k => target == k
    | none =>
      match argument with
      | "odd" => (target.tmod 2).natAbs == 1
      | "even" => target.tmod 2 == 0
      | _ => false
  | .universal => fun _ _ _ _ => true
  | .compound _ => fun _ _ _ _ => false
  | .selList _ => fun _ _ _ _ => false

/-- `selectorToMatch`: a list token matches when any of its members'
`createMatch` matchers does, a compound when all do, and any other token
goes to `createMatch` directly. -/
def selectorToMatch : SelAst → Matcher
  | .selList l => fun s n p i => (l.map createMatch).any (fun m => m s n p i)
  | .compound l => fun s n p i => (l.map createMatch).all (fun m => m s n p i)
  | ast => createMatch ast

mutual

/-- `walkSync(node, cb, parent)` fused with `select`'s callback: walk the
child list (the tree is not mutated during a query, so the live NodeList
reads equal this snapshot), record element matches, and in single mode
signal the first match by throwing it (`Except.error child`).  `none` is
fuel exhaustion. -/
def selWalkNodeFuel (m : Matcher) (single : Bool) :
    Nat → Heap → Nat → Option Nat → List Nat → Option (Except Nat (List Nat))
  | 0, _, _, _, _ => none
  | fuel + 1, s, node, parentArg, acc =>
    selWalkListFuel m single fuel s ((s.get node).childList) node parentArg 0 acc
termination_by structural fuel => fuel

/-- The `for (let i = 0; i < childNodes.length; i++)` loop of `walkSync`:
`callback(child, parent ?? node, i)` then `walkSync(child, callback,
parent ?? node)` — note the recursive call forwards `parent ?? node`, not
`node`, so every level below the first reports the original root as its
parent. -/
def selWalkListFuel (m : Matcher) (single : Bool) :
    Nat → Heap → List Nat → Nat → Option Nat → Int → List Nat →
      Option (Except Nat (List Nat))
  | 0, _, _, _, _, _, _ => none
  | _ + 1, _, [], _, _, _, acc => some (Except.ok acc)
  | fuel + 1, s, child :: rest, node, parentArg, i, acc =>
    let p := match parentArg with | some q => q | none => node
    let hit := (s.get child).kind == NodeKind.element && m s child (some p) i
    if hit && single then some (Except.error child)
    else
      let acc1 := if hit then acc ++ [child] else acc
      match selWalkNodeFuel m single fuel s child (some p) acc1 with
      | none => none
      | some (Except.error n) => some (Except.error n)
      | some (Except.ok acc2) =>
        selWalkListFuel m single fuel s rest node parentArg (i + 1) acc2
termination_by structural fuel => fuel

end

/-- Modelled from the spec: "A syntactically invalid selector fails
parsing."  parsel-js's `parse` is an external dependency whose code is not
in this repository, so it is represented by its outcome: `Except.error ()`
when the selector string is syntactically invalid (`parse` throws),
`Except.ok ast` with the parsed AST otherwise.  The selector APIs below
take this outcome in place of the selector string. -/
def ParseOutcome : Type := Except Unit SelAst

/-- An exception escaping a selector API: the parse failure from parsel's
`parse`, or a found node thrown by `select`'s single mode. -/
inductive JsErr where
  | parseError
  | thrownNode (n : Nat)
  deriving Repr, DecidableEq

/-- `matches(node, selector)`: build the matcher (a parse failure
propagates) and apply it at `(node, node.parentNode,
nthChildIndex(node, node.parentNode))`. -/
def matchesApi (s : Heap) (node : Nat) (psel : ParseOutcome) : Except JsErr Bool :=
  match psel with
  | Except.error _ => Except.error JsErr.parseError
  | Except.ok ast =>
    Except.ok (selectorToMatch ast s node (s.get node).parentNode
      (nthChildIndex s node (s.get node).parentNode))

/-- `querySelector(node, selector)`: `selectorToMatch` runs *outside* the
`try`, so a parse failure propagates; inside, `select(…, {single: true})[0]`
— when a node matches, `select` throws it, the `catch {}` swallows it, and
`null` is returned; when nothing matches the `[0]` of the empty returned
list is the result. -/
def querySelectorApi (s : Heap) (node : Nat) (fuel : Nat) (psel : ParseOutcome) :
    Option (Except JsErr (Option Nat)) :=
  match psel with
  | Except.error _ => some (Except.error JsErr.parseError)
  | Except.ok ast =>
    match selWalkNodeFuel (selectorToMatch ast) true fuel s node none [] with
    | none => none
    | some (Except.error _) => some (Except.ok none)
    | some (Except.ok l) => some (Except.ok l.head?)

/-- `querySelectorAll(node, selector)`: no handler at all — a parse failure
(or anything thrown below) propagates; otherwise the collected list is
returned. -/
def querySelectorAllApi (s : Heap) (node : Nat) (fuel : Nat) (psel : ParseOutcome) :
    Option (Except JsErr (List Nat)) :=
  match psel with
  | Except.error _ => some (Except.error JsErr.parseError)
  | Except.ok ast =>
    match selWalkNodeFuel (selectorToMatch ast) false fuel s node none [] with
    | none => none
    | some (Except.error n) => some (Except.error (JsErr.thrownNode n))
    | some (Except.ok l) => some (Except.ok l)

/-- The tree of `<ul><li>A</li><li class="sel">B</li></ul>`: `ul` = 1, the
`li` elements 2 and 4 (text children 3 and 5), and the `class="sel"`
attribute node 6 on element 4. -/
def sC4 : Heap where
  nextId := 7
  nodes := [
    (1, { NodeData.blank with
          kind := .element
          nodeName := "ul"
          tagName := "UL"
          childList := [2, 4]
          firstChild := some 2
          lastChild := some 4 }),
    (2, { NodeData.blank with
          kind := .element
          nodeName := "li"
          tagName := "LI"
          parentNode := some 1
          nextSibling := some 4
          childList := [3]
          firstChild := some 3
          lastChild := some 3 }),
    (3, { NodeData.blank with
          kind := .text
          nodeName := "#text"
          nodeValue := some "A"
          parentNode := some 2 }),
    (4, { NodeData.blank with
          kind := .element
          nodeName := "li"
          tagName := "LI"
          parentNode := some 1
          previousSibling := some 2
          attrs := [6]
          childList := [5]
          firstChild := some 5
          lastChild := some 5 }),
    (5, { NodeData.blank with
          kind := .text
          nodeName := "#text"
          nodeValue := some "B"
          parentNode := some 4 }),
    (6, { NodeData.blank with
          kind := .attribute
          nodeName := "class"
          nodeValue := some "sel"
          ownerElement := some 4 })]

/-! ## Live element collections (`collections.ts`): `createHTMLCollection` (C5) -/

/-- The `for (let n = start; n; n = n.nextSibling) if (element) return n`
scan shared by `firstElementChild` (start = `firstChild`) and
`nextElementSibling` (start = `nextSibling`). -/
def elementFromFuel : Nat → Heap → Option Nat → Option Nat
  | 0, _, _ => none
  | _ + 1, _, none => none
  | fuel + 1, s, some n =>
    if (s.get n).kind == NodeKind.element then some n
    else elementFromFuel fuel s (s.get n).nextSibling

def childrenLoopFuel : Nat → Nat → Heap → Option Nat → List Nat
  | 0, _, _, _ => []
  | _ + 1, _, _, none => []
  | fuel + 1, scanFuel, s, some n =>
    n :: childrenLoopFuel fuel scanFuel s
      (elementFromFuel scanFuel s (s.get n).nextSibling)

/-- The `children` getter's snapshot closure: walk from `firstElementChild`
through `nextElementSibling`, collecting the element children of `owner`
as they stand in the current heap. -/
def childrenItems (s : Heap) (owner : Nat) (fuel : Nat) : List Nat :=
  childrenLoopFuel fuel fuel s (elementFromFuel fuel s (s.get owner).firstChild)

/-- An `HTMLCollection` object's state: the `LinkedList` backing storage,
and — when the collection was made by `createHTMLCollection` for the
`children` accessor — the owner element whose recompute closure
(`getItems`) was registered via `setListMeta`.  `getter = none` is a
manually constructed collection with no registered closure. -/
structure HTMLColl where
  storage : List Nat
  getter : Option Nat
  deriving Repr, DecidableEq

/-- `refreshList`: with a registered getter, `syncLinkedList` replaces the
storage with the getter's fresh snapshot and reads go against that;
without one, the stored list is returned as is. -/
def refreshColl (s : Heap) (fuel : Nat) (c : HTMLColl) : List Nat × HTMLColl :=
  match c.getter with
  | some owner =>
    let items := childrenItems s owner fuel
    (items, { c with storage := items })
  | none => (c.storage, c)

/-- `createHTMLCollection(owner, getItems)` =
`new HTMLCollectionOf(owner, getItems(), getItems)`: the storage starts as
a snapshot and the closure is registered for every later read. -/
def createHTMLColl (s : Heap) (fuel : Nat) (owner : Nat) : HTMLColl :=
  { storage := childrenItems s owner fuel, getter := some owner }

/-- The proxy's `length` read: `refreshList(t).length`. -/
def collLength (s : Heap) (fuel : Nat) (c : HTMLColl) : Nat :=
  (refreshColl s fuel c).1.length

/-- The proxy's indexed read: `refreshList(t).at(index)`. -/
def collItem (s : Heap) (fuel : Nat) (c : HTMLColl) (i : Nat) : Option Nat :=
  (refreshColl s fuel c).1.get? i

/-- A `div` (1) with one element child `span` (2), plus an unattached
element (3) and an unattached text node (4). -/
def sC5 : Heap where
  nextId := 5
  nodes := [
    (1, { NodeData.blank with
          kind := .element
          nodeName := "div"
          tagName := "DIV"
          childList := [2]
          firstChild := some 2
          lastChild := some 2 }),
    (2, { NodeData.blank with
          kind := .element
          nodeName := "span"
          tagName := "SPAN"
          parentNode := some 1 }),
    (3, { NodeData.blank with
          kind := .element
          nodeName := "em"
          tagName := "EM" }),
    (4, { NodeData.blank with
          kind := .text
          nodeName := "#text"
          nodeValue := some "x" })]

def cC5 : HTMLColl := createHTMLColl sC5 9 1

/-! ## `DOMTokenList` (`collections.ts`): the token-set view (C6) -/

/-- A `DOMTokenList`'s state: the owning element's attribute value (the
`getAttribute(#attributeName) ?? ""` it would read; `""` for an absent
attribute), the `#tokens` cache, and the `#updating` single-flight flag. -/
structure TokenListState where
  attrValue : String
  tokens : Option (List String)
  updating : Bool
  deriving Repr, DecidableEq

/-- `split(trim(value), /\s+/).filter(t => t.length > 0)`: the token
materialization of `#updateTokens`.  Note: no de-duplication. -/
def materializeTokens (v : String) : List String :=
  (jsSplitWs (String.mk (jsTrimCh v.data))).filter (fun t => t.data.length ≠ 0)

/-- `#updateTokens(value?)`: unless re-entered, re-materialize `#tokens`
from the given value or the current attribute value; returns
`#tokens ??= []`. -/
def updateTokens (st : TokenListState) (value : Option String) :
    List String × TokenListState :=
  if st.updating then
    match st.tokens with
    | some t => (t, st)
    | none => ([], { st with tokens := some [] })
  else
    let toks := materializeTokens (value.getD st.attrValue)
    (toks, { st with tokens := some toks })

def joinSp : List String → String
  | [] => ""
  | [t] => t
  | t :: rest => t ++ " " ++ joinSp rest

/-- `get value()`: `this.#tokens?.join(" ") ?? ""`. -/
def tlValue (st : TokenListState) : String :=
  match st.tokens with
  | some t => joinSp t
  | none => ""

/-- `#updateAttribute(value?)`: unless re-entered,
`setAttribute(#attributeName, value ?? this.value)`. -/
def updateAttribute (st : TokenListState) (value : Option String) :
    TokenListState :=
  if st.updating then st
  else { st with attrValue := value.getD (tlValue st) }

/-- The constructor: fields initialized then `#updateTokens()`. -/
def tlNew (attrValue : String) : TokenListState :=
  (updateTokens { attrValue := attrValue, tokens := none, updating := false }
    none).2

/-- `get length()`: `this.#tokens?.length ?? 0` — reads the cache *without*
calling `#updateTokens`. -/
def tlLength (st : TokenListState) : Nat :=
  match st.tokens with
  | some t => t.length
  | none => 0

/-- `item(index)`: `this.#updateTokens()?.[index] ?? null`. -/
def tlItem (st : TokenListState) (i : Nat) :
    Option String × TokenListState :=
  let (t, st') := updateTokens st none
  (t.get? i, st')

/-- `contains(token)`: `this.#updateTokens()?.includes(token) ?? false`. -/
def tlContains (st : TokenListState) (tok : String) : Bool × TokenListState :=
  let (t, st') := updateTokens st none
  (t.contains tok, st')

/-- `filter((t, i, a) => indexOf(a, t) === i)`: keep first occurrences. -/
def dedupAux : List String → List String → List String
  | [], _ => []
  | t :: rest, seen =>
    if seen.contains t then dedupAux rest seen
    else t :: dedupAux rest (t :: seen)

def dedupFirst (l : List String) : List String := dedupAux l []

/-- `add(...tokens)`: re-materialize, push, de-duplicate, write back. -/
def tlAdd (st : TokenListState) (newTokens : List String) : TokenListState :=
  let (list, st') := updateTokens st none
  let toks := dedupFirst (list ++ newTokens)
  updateAttribute { st' with tokens := some toks } none

/-- `remove(...tokens)`: re-materialize, filter out, write back. -/
def tlRemove (st : TokenListState) (toks : List String) : TokenListState :=
  let (list, st') := updateTokens st none
  updateAttribute
    { st' with tokens := some (list.filter (fun t => !toks.contains t)) } none

/-- `toggle(token, force?)`. -/
def tlToggle (st : TokenListState) (tok : String) (force : Option Bool) :
    Bool × TokenListState :=
  let (t, st') := updateTokens st none
  let has := t.contains tok
  let f := force.getD (!has)
  (!has, if f then tlAdd st' [tok] else tlRemove st' [tok])

def listIndexOfStr : List String → String → Option Nat
  | [], _ => none
  | y :: rest, x =>
    if y = x then some 0 else (listIndexOfStr rest x).map (· + 1)

/-- `replace(oldToken, newToken)`: re-materialize, substitute in place,
de-duplicate, write the joined value back; `false` when absent. -/
def tlReplace (st : TokenListState) (oldT newT : String) :
    Bool × TokenListState :=
  let (tokens, st') := updateTokens st none
  match listIndexOfStr tokens oldT with
  | none => (false, st')
  | some i =>
    let toks := dedupFirst (tokens.set i newT)
    (true, updateAttribute { st' with tokens := some toks }
      (some (joinSp toks)))

/-- An external `setAttribute` on the owning element: the attribute value
changes under the token list; its `#tokens` cache is untouched. -/
def setAttrExternal (st : TokenListState) (v : String) : TokenListState :=
  { st with attrValue := v }

/-! ## `NamedNodeMap` enumeration (`collections.ts`): what `Object.entries`
sees (C7) -/

/-- `t[i]` inside the `NamedNodeMap` proxy's `ownKeys` trap.  `t` is the
*raw proxy target*: index interception lives only in the proxy's `get`
trap, and neither the constructor nor the prototype ever installs numeric
properties on the instance, so this read yields `undefined` at every
index. -/
def rawTargetIndexed (_s : Heap) (_n : Nat) (_i : Nat) : Option Nat :=
  none

/-- The `for (let i = 0; i < t.length; i++)` body of the `ownKeys` trap:
`const attr = t[i]; if (!attr?.name) continue; …`.  Because `t[i]` is
`undefined` on the raw target, every iteration takes the `continue` and
contributes no keys; the other branch records the two pushes the source
would otherwise make (the attribute's name — guarded there by
`isIdentifier` and a duplicate check — and the stringified index), and is
unreachable. -/
def namedNodeMapOwnKeysLoop (s : Heap) (n : Nat) : Nat → List String
  | 0 => []
  | i + 1 =>
    namedNodeMapOwnKeysLoop s n i ++
      match rawTargetIndexed s n i with
      | none => []
      | some a => [(s.get a).nodeName, toString i]

/-- `[...new Set(keys).add("length")]`: insertion-ordered de-duplication
with `"length"` appended when absent. -/
def jsSetAdd (l : List String) (x : String) : List String :=
  if l.contains x then l else l ++ [x]

/-- The `ownKeys` trap of the `NamedNodeMap` proxy: start from
`ReflectOwnKeys(t)` — empty, since the constructor assigns no own
properties to the instance — run the indexed loop (`t.length` reads the
true count through the prototype getter, so the loop does run), then
`[...new Set(keys).add("length")]`. -/
def namedNodeMapOwnKeys (s : Heap) (n : Nat) : List String :=
  jsSetAdd
    (dedupFirst ([] ++ namedNodeMapOwnKeysLoop s n (s.get n).attrs.length))
    "length"

/-- The `getOwnPropertyDescriptor` trap, as the attribute node backing the
(always enumerable) data descriptor it returns — `none` when there is no
descriptor: an integral non-negative `Number(p)` indexes the backing list,
any other string goes through `getNamedItem` (case-insensitive name
lookup), and with no match the trap falls back to
`ReflectGetOwnPropertyDescriptor` on a target that owns no string-keyed
properties, i.e. `undefined`. -/
def namedNodeMapOwnDesc (s : Heap) (n : Nat) (p : String) : Option Nat :=
  match jsNumberOfString p with
  | some k =>
    if 0 ≤ k then (s.get n).attrs.get? k.toNat
    else (s.get n).attrs.find?
      (fun a => jsToLowerCase (s.get a).nodeName == jsToLowerCase p)
  | none =>
    (s.get n).attrs.find?
      (fun a => jsToLowerCase (s.get a).nodeName == jsToLowerCase p)

/-- `Object.entries(node.attributes)`: the trap-returned own keys, kept
when the `getOwnPropertyDescriptor` trap yields a descriptor, each paired
with the value `[[Get]]` reads — for a name key, `getNamedItem(p)`, whose
`.value` the matcher then uses.  (The one key whose `get`-trap value would
differ from its descriptor — `"length"`, surfacing the numeric list length
when an attribute is literally named `length` — is excluded by the C7
theorem's hypothesis.) -/
def objectEntriesAttrs (s : Heap) (n : Nat) : List AttrEntry :=
  (namedNodeMapOwnKeys s n).filterMap (fun p =>
    match namedNodeMapOwnDesc s n p with
    | some a => some ⟨p, (s.get a).nodeValue.getD ""⟩
    | none => none)

/-- The attribute arm of `createMatch` end to end: `node.attributes` is
`null` off elements (`if (!node.attributes) return false`), and on an
element the `for (const [attr, attrVal] of Object.entries(node.attributes))`
loop runs over `objectEntriesAttrs`. -/
def attributeArmMatch (s : Heap) (n : Nat) (operator : String) (ci : Bool)
    (name : String) (value : Option String) : Bool :=
  if (s.get n).kind == NodeKind.element then
    attributeLoop operator ci name value (objectEntriesAttrs s n)
  else false

/-! ## Theorems -/

namespace Heap

theorem lookup_setEntry_self (l : List (Nat × NodeData)) (i : Nat) (d : NodeData) :
    lookupEntry (setEntry l i d) i = some d := by
  induction l with
  | nil => simp [setEntry, lookupEntry]
  | cons hd tl ih =>
    obtain ⟨j, e⟩ := hd
    by_cases h : i = j
    · simp [setEntry, h, lookupEntry]
    · simp [setEntry, h, lookupEntry, ih]

theorem lookup_setEntry_ne (l : List (Nat × NodeData)) (i j : Nat) (d : NodeData)
    (h : j ≠ i) : lookupEntry (setEntry l i d) j = lookupEntry l j := by
  induction l with
  | nil => simp [setEntry, lookupEntry, h]
  | cons hd tl ih =>
    obtain ⟨k, e⟩ := hd
    by_cases hk : i = k
    · subst hk
      simp [setEntry, lookupEntry, h]
    · by_cases hjk : j = k
      · subst hjk; simp [setEntry, hk, lookupEntry]
      · simp [setEntry, hk, lookupEntry, hjk, ih]

@[simp] theorem get_set_self (s : Heap) (i : Nat) (d : NodeData) :
    (s.set i d).get i = d := by
  simp [get, set, lookup_setEntry_self]

theorem get_set_ne (s : Heap) (i j : Nat) (d : NodeData) (h : j ≠ i) :
    (s.set i d).get j = s.get j := by
  simp [get, set, lookup_setEntry_ne _ _ _ _ h]

theorem get_set (s : Heap) (i j : Nat) (d : NodeData) :
    (s.set i d).get j = if j = i then d else s.get j := by
  by_cases h : j = i
  · subst h; simp
  · simp [h, get_set_ne _ _ _ _ h]

theorem get_modify (s : Heap) (i j : Nat) (f : NodeData → NodeData) :
    (s.modify i f).get j = if j = i then f (s.get i) else s.get j := by
  simp [modify, get_set]

@[simp] theorem get_modify_self (s : Heap) (i : Nat) (f : NodeData → NodeData) :
    (s.modify i f).get i = f (s.get i) := by
  simp [get_modify]

theorem get_modify_ne (s : Heap) (i j : Nat) (f : NodeData → NodeData) (h : j ≠ i) :
    (s.modify i f).get j = s.get j := by
  simp [get_modify, h]

theorem keys_setEntry_subset (l : List (Nat × NodeData)) (i : Nat) (d : NodeData) :
    ∀ k ∈ (setEntry l i d).map Prod.fst, k ∈ l.map Prod.fst ∨ k = i := by
  induction l with
  | nil => simp [setEntry]
  | cons hd tl ih =>
    obtain ⟨j, e⟩ := hd
    by_cases h : i = j
    · subst h
      intro k hk
      rw [setEntry, if_pos rfl] at hk
      simp only [List.map_cons, List.mem_cons] at hk ⊢
      tauto
    · intro k hk
      simp only [setEntry, if_neg h, List.map_cons, List.mem_cons] at hk ⊢
      rcases hk with hk | hk
      · tauto
      · rcases ih k hk with h' | h' <;> tauto

@[simp] theorem nextId_set (s : Heap) (i : Nat) (d : NodeData) :
    (s.set i d).nextId = s.nextId := rfl

@[simp] theorem nextId_modify (s : Heap) (i : Nat) (f : NodeData → NodeData) :
    (s.modify i f).nextId = s.nextId := rfl

end Heap

section UpdLemmas

variable (s : Heap) (i j : Nat)

@[simp] theorem updChildList_childList (f : List Nat → List Nat) :
    ((updChildList s i f).get j).childList =
      if j = i then f ((s.get i).childList) else (s.get j).childList := by
  by_cases h : j = i <;> simp [updChildList, Heap.get_modify, h]

@[simp] theorem updChildList_misc (f : List Nat → List Nat) :
    ((updChildList s i f).get j).misc = (s.get j).misc := by
  by_cases h : j = i <;> simp [updChildList, Heap.get_modify, h, NodeData.misc]

@[simp] theorem updChildList_parent (f : List Nat → List Nat) :
    ((updChildList s i f).get j).parentNode = (s.get j).parentNode := by
  by_cases h : j = i <;> simp [updChildList, Heap.get_modify, h]

@[simp] theorem updChildList_prev (f : List Nat → List Nat) :
    ((updChildList s i f).get j).previousSibling = (s.get j).previousSibling := by
  by_cases h : j = i <;> simp [updChildList, Heap.get_modify, h]

@[simp] theorem updChildList_next (f : List Nat → List Nat) :
    ((updChildList s i f).get j).nextSibling = (s.get j).nextSibling := by
  by_cases h : j = i <;> simp [updChildList, Heap.get_modify, h]

@[simp] theorem updChildList_first (f : List Nat → List Nat) :
    ((updChildList s i f).get j).firstChild = (s.get j).firstChild := by
  by_cases h : j = i <;> simp [updChildList, Heap.get_modify, h]

@[simp] theorem updChildList_last (f : List Nat → List Nat) :
    ((updChildList s i f).get j).lastChild = (s.get j).lastChild := by
  by_cases h : j = i <;> simp [updChildList, Heap.get_modify, h]

@[simp] theorem updChildList_ownerDoc (f : List Nat → List Nat) :
    ((updChildList s i f).get j).ownerDocument = (s.get j).ownerDocument := by
  by_cases h : j = i <;> simp [updChildList, Heap.get_modify, h]

variable (v : Option Nat)

@[simp] theorem updNext_next :
    ((updNext s i v).get j).nextSibling =
      if j = i then v else (s.get j).nextSibling := by
  by_cases h : j = i <;> simp [updNext, Heap.get_modify, h]

@[simp] theorem updNext_childList :
    ((updNext s i v).get j).childList = (s.get j).childList := by
  by_cases h : j = i <;> simp [updNext, Heap.get_modify, h]

@[simp] theorem updNext_misc :
    ((updNext s i v).get j).misc = (s.get j).misc := by
  by_cases h : j = i <;> simp [updNext, Heap.get_modify, h, NodeData.misc]

@[simp] theorem updNext_parent :
    ((updNext s i v).get j).parentNode = (s.get j).parentNode := by
  by_cases h : j = i <;> simp [updNext, Heap.get_modify, h]

@[simp] theorem updNext_prev :
    ((updNext s i v).get j).previousSibling = (s.get j).previousSibling := by
  by_cases h : j = i <;> simp [updNext, Heap.get_modify, h]

@[simp] theorem updNext_first :
    ((updNext s i v).get j).firstChild = (s.get j).firstChild := by
  by_cases h : j = i <;> simp [updNext, Heap.get_modify, h]

@[simp] theorem updNext_last :
    ((updNext s i v).get j).lastChild = (s.get j).lastChild := by
  by_cases h : j = i <;> simp [updNext, Heap.get_modify, h]

@[simp] theorem updNext_ownerDoc :
    ((updNext s i v).get j).ownerDocument = (s.get j).ownerDocument := by
  by_cases h : j = i <;> simp [updNext, Heap.get_modify, h]

@[simp] theorem updPrev_prev :
    ((updPrev s i v).get j).previousSibling =
      if j = i then v else (s.get j).previousSibling := by
  by_cases h : j = i <;> simp [updPrev, Heap.get_modify, h]

@[simp] theorem updPrev_childList :
    ((updPrev s i v).get j).childList = (s.get j).childList := by
  by_cases h : j = i <;> simp [updPrev, Heap.get_modify, h]

@[simp] theorem updPrev_misc :
    ((updPrev s i v).get j).misc = (s.get j).misc := by
  by_cases h : j = i <;> simp [updPrev, Heap.get_modify, h, NodeData.misc]

@[simp] theorem updPrev_parent :
    ((updPrev s i v).get j).parentNode = (s.get j).parentNode := by
  by_cases h : j = i <;> simp [updPrev, Heap.get_modify, h]

@[simp] theorem updPrev_next :
    ((updPrev s i v).get j).nextSibling = (s.get j).nextSibling := by
  by_cases h : j = i <;> simp [updPrev, Heap.get_modify, h]

@[simp] theorem updPrev_first :
    ((updPrev s i v).get j).firstChild = (s.get j).firstChild := by
  by_cases h : j = i <;> simp [updPrev, Heap.get_modify, h]

@[simp] theorem updPrev_last :
    ((updPrev s i v).get j).lastChild = (s.get j).lastChild := by
  by_cases h : j = i <;> simp [updPrev, Heap.get_modify, h]

@[simp] theorem updPrev_ownerDoc :
    ((updPrev s i v).get j).ownerDocument = (s.get j).ownerDocument := by
  by_cases h : j = i <;> simp [updPrev, Heap.get_modify, h]

@[simp] theorem updFirst_first :
    ((updFirst s i v).get j).firstChild =
      if j = i then v else (s.get j).firstChild := by
  by_cases h : j = i <;> simp [updFirst, Heap.get_modify, h]

@[simp] theorem updFirst_childList :
    ((updFirst s i v).get j).childList = (s.get j).childList := by
  by_cases h : j = i <;> simp [updFirst, Heap.get_modify, h]

@[simp] theorem updFirst_misc :
    ((updFirst s i v).get j).misc = (s.get j).misc := by
  by_cases h : j = i <;> simp [updFirst, Heap.get_modify, h, NodeData.misc]

@[simp] theorem updFirst_parent :
    ((updFirst s i v).get j).parentNode = (s.get j).parentNode := by
  by_cases h : j = i <;> simp [updFirst, Heap.get_modify, h]

@[simp] theorem updFirst_prev :
    ((updFirst s i v).get j).previousSibling = (s.get j).previousSibling := by
  by_cases h : j = i <;> simp [updFirst, Heap.get_modify, h]

@[simp] theorem updFirst_next :
    ((updFirst s i v).get j).nextSibling = (s.get j).nextSibling := by
  by_cases h : j = i <;> simp [updFirst, Heap.get_modify, h]

@[simp] theorem updFirst_last :
    ((updFirst s i v).get j).lastChild = (s.get j).lastChild := by
  by_cases h : j = i <;> simp [updFirst, Heap.get_modify, h]

@[simp] theorem updFirst_ownerDoc :
    ((updFirst s i v).get j).ownerDocument = (s.get j).ownerDocument := by
  by_cases h : j = i <;> simp [updFirst, Heap.get_modify, h]

@[simp] theorem updLast_last :
    ((updLast s i v).get j).lastChild =
      if j = i then v else (s.get j).lastChild := by
  by_cases h : j = i <;> simp [updLast, Heap.get_modify, h]

@[simp] theorem updLast_childList :
    ((updLast s i v).get j).childList = (s.get j).childList := by
  by_cases h : j = i <;> simp [updLast, Heap.get_modify, h]

@[simp] theorem updLast_misc :
    ((updLast s i v).get j).misc = (s.get j).misc := by
  by_cases h : j = i <;> simp [updLast, Heap.get_modify, h, NodeData.misc]

@[simp] theorem updLast_parent :
    ((updLast s i v).get j).parentNode = (s.get j).parentNode := by
  by_cases h : j = i <;> simp [updLast, Heap.get_modify, h]

@[simp] theorem updLast_prev :
    ((updLast s i v).get j).previousSibling = (s.get j).previousSibling := by
  by_cases h : j = i <;> simp [updLast, Heap.get_modify, h]

@[simp] theorem updLast_next :
    ((updLast s i v).get j).nextSibling = (s.get j).nextSibling := by
  by_cases h : j = i <;> simp [updLast, Heap.get_modify, h]

@[simp] theorem updLast_first :
    ((updLast s i v).get j).firstChild = (s.get j).firstChild := by
  by_cases h : j = i <;> simp [updLast, Heap.get_modify, h]

@[simp] theorem updLast_ownerDoc :
    ((updLast s i v).get j).ownerDocument = (s.get j).ownerDocument := by
  by_cases h : j = i <;> simp [updLast, Heap.get_modify, h]

@[simp] theorem updDetach_parent :
    ((updDetach s i).get j).parentNode =
      if j = i then none else (s.get j).parentNode := by
  by_cases h : j = i <;> simp [updDetach, Heap.get_modify, h]

@[simp] theorem updDetach_prev :
    ((updDetach s i).get j).previousSibling =
      if j = i then none else (s.get j).previousSibling := by
  by_cases h : j = i <;> simp [updDetach, Heap.get_modify, h]

@[simp] theorem updDetach_next :
    ((updDetach s i).get j).nextSibling =
      if j = i then none else (s.get j).nextSibling := by
  by_cases h : j = i <;> simp [updDetach, Heap.get_modify, h]

@[simp] theorem updDetach_childList :
    ((updDetach s i).get j).childList = (s.get j).childList := by
  by_cases h : j = i <;> simp [updDetach, Heap.get_modify, h]

@[simp] theorem updDetach_misc :
    ((updDetach s i).get j).misc = (s.get j).misc := by
  by_cases h : j = i <;> simp [updDetach, Heap.get_modify, h, NodeData.misc]

@[simp] theorem updDetach_first :
    ((updDetach s i).get j).firstChild = (s.get j).firstChild := by
  by_cases h : j = i <;> simp [updDetach, Heap.get_modify, h]

@[simp] theorem updDetach_last :
    ((updDetach s i).get j).lastChild = (s.get j).lastChild := by
  by_cases h : j = i <;> simp [updDetach, Heap.get_modify, h]

@[simp] theorem updDetach_ownerDoc :
    ((updDetach s i).get j).ownerDocument = (s.get j).ownerDocument := by
  by_cases h : j = i <;> simp [updDetach, Heap.get_modify, h]

variable (pv nv : Option Nat) (par : Nat) (od : Option Nat)

@[simp] theorem updLink_parent :
    ((updLink s i pv nv par od).get j).parentNode =
      if j = i then some par else (s.get j).parentNode := by
  by_cases h : j = i <;> simp [updLink, Heap.get_modify, h]

@[simp] theorem updLink_prev :
    ((updLink s i pv nv par od).get j).previousSibling =
      if j = i then pv else (s.get j).previousSibling := by
  by_cases h : j = i <;> simp [updLink, Heap.get_modify, h]

@[simp] theorem updLink_next :
    ((updLink s i pv nv par od).get j).nextSibling =
      if j = i then nv else (s.get j).nextSibling := by
  by_cases h : j = i <;> simp [updLink, Heap.get_modify, h]

@[simp] theorem updLink_ownerDoc :
    ((updLink s i pv nv par od).get j).ownerDocument =
      if j = i then od else (s.get j).ownerDocument := by
  by_cases h : j = i <;> simp [updLink, Heap.get_modify, h]

@[simp] theorem updLink_childList :
    ((updLink s i pv nv par od).get j).childList = (s.get j).childList := by
  by_cases h : j = i <;> simp [updLink, Heap.get_modify, h]

@[simp] theorem updLink_misc :
    ((updLink s i pv nv par od).get j).misc = (s.get j).misc := by
  by_cases h : j = i <;> simp [updLink, Heap.get_modify, h, NodeData.misc]

@[simp] theorem updLink_first :
    ((updLink s i pv nv par od).get j).firstChild = (s.get j).firstChild := by
  by_cases h : j = i <;> simp [updLink, Heap.get_modify, h]

@[simp] theorem updLink_last :
    ((updLink s i pv nv par od).get j).lastChild = (s.get j).lastChild := by
  by_cases h : j = i <;> simp [updLink, Heap.get_modify, h]

@[simp] theorem updEnds_first :
    ((updEnds s i).get j).firstChild =
      if j = i then (s.get i).childList.head? else (s.get j).firstChild := by
  by_cases h : j = i <;> simp [updEnds, Heap.get_modify, h]

@[simp] theorem updEnds_last :
    ((updEnds s i).get j).lastChild =
      if j = i then (s.get i).childList.getLast? else (s.get j).lastChild := by
  by_cases h : j = i <;> simp [updEnds, Heap.get_modify, h]

@[simp] theorem updEnds_childList :
    ((updEnds s i).get j).childList = (s.get j).childList := by
  by_cases h : j = i <;> simp [updEnds, Heap.get_modify, h]

@[simp] theorem updEnds_misc :
    ((updEnds s i).get j).misc = (s.get j).misc := by
  by_cases h : j = i <;> simp [updEnds, Heap.get_modify, h, NodeData.misc]

@[simp] theorem updEnds_parent :
    ((updEnds s i).get j).parentNode = (s.get j).parentNode := by
  by_cases h : j = i <;> simp [updEnds, Heap.get_modify, h]

@[simp] theorem updEnds_prev :
    ((updEnds s i).get j).previousSibling = (s.get j).previousSibling := by
  by_cases h : j = i <;> simp [updEnds, Heap.get_modify, h]

@[simp] theorem updEnds_next :
    ((updEnds s i).get j).nextSibling = (s.get j).nextSibling := by
  by_cases h : j = i <;> simp [updEnds, Heap.get_modify, h]

@[simp] theorem updEnds_ownerDoc :
    ((updEnds s i).get j).ownerDocument = (s.get j).ownerDocument := by
  by_cases h : j = i <;> simp [updEnds, Heap.get_modify, h]

end UpdLemmas

theorem lookupEntry_eq_none (l : List (Nat × NodeData)) (i : Nat)
    (h : i ∉ l.map Prod.fst) : Heap.lookupEntry l i = none := by
  induction l with
  | nil => rfl
  | cons hd tl ih =>
    obtain ⟨j, e⟩ := hd
    simp only [List.map_cons, List.mem_cons] at h
    push_neg at h
    simp [Heap.lookupEntry, h.1, ih h.2]

theorem get_eq_blank_of_not_mem (s : Heap) (i : Nat) (h : i ∉ s.keys) :
    s.get i = NodeData.blank := by
  simp [Heap.get, lookupEntry_eq_none s.nodes i h]

theorem mem_keys_of_get_ne_blank (s : Heap) (i : Nat)
    (h : s.get i ≠ NodeData.blank) : i ∈ s.keys := by
  by_contra hc
  exact h (get_eq_blank_of_not_mem s i hc)

namespace WF

variable {s : Heap}

theorem childNodup (h : WF s) (p : Nat) : (s.get p).childList.Nodup := by
  by_cases hp : p ∈ s.keys
  · exact h.1 p hp
  · rw [get_eq_blank_of_not_mem s p hp]; exact List.nodup_nil

theorem childMem (h : WF s) {p c : Nat} (hc : c ∈ (s.get p).childList) :
    (s.get c).parentNode = some p := by
  by_cases hp : p ∈ s.keys
  · exact h.2.1 p hp c hc
  · rw [get_eq_blank_of_not_mem s p hp] at hc; cases hc

theorem parentMem (h : WF s) {n p : Nat} (hn : (s.get n).parentNode = some p) :
    n ∈ (s.get p).childList := by
  by_cases hk : n ∈ s.keys
  · exact h.2.2.1 n hk p hn
  · rw [get_eq_blank_of_not_mem s n hk] at hn; cases hn

theorem firstEq (h : WF s) (p : Nat) :
    (s.get p).firstChild = (s.get p).childList.head? := by
  by_cases hp : p ∈ s.keys
  · exact h.2.2.2.1 p hp
  · rw [get_eq_blank_of_not_mem s p hp]; rfl

theorem lastEq (h : WF s) (p : Nat) :
    (s.get p).lastChild = (s.get p).childList.getLast? := by
  by_cases hp : p ∈ s.keys
  · exact h.2.2.2.2.1 p hp
  · rw [get_eq_blank_of_not_mem s p hp]; rfl

theorem sib (h : WF s) (p : Nat) : sibSeg s none (s.get p).childList := by
  by_cases hp : p ∈ s.keys
  · exact h.2.2.2.2.2 p hp
  · rw [get_eq_blank_of_not_mem s p hp]; trivial

/-- A node in some child list is itself allocated. -/
theorem memChild_mem_keys (h : WF s) {p c : Nat} (hc : c ∈ (s.get p).childList) :
    c ∈ s.keys := by
  apply mem_keys_of_get_ne_blank
  intro hb
  have := h.childMem hc
  rw [hb] at this
  cases this

/-- A node with `parentNode = none` is in nobody's child list. -/
theorem not_memChild_of_parent_none (h : WF s) {c : Nat}
    (hc : (s.get c).parentNode = none) (p : Nat) : c ∉ (s.get p).childList := by
  intro hmem
  rw [h.childMem hmem] at hc
  cases hc

end WF

theorem listIndexOf_spec (l : List Nat) (x i : Nat) :
    listIndexOf l x = some i →
      i < l.length ∧ l.take i ++ x :: l.drop (i + 1) = l ∧ x ∉ l.take i := by
  induction l generalizing i with
  | nil => intro h; cases h
  | cons y rest ih =>
    intro h
    by_cases hy : y = x
    · subst hy
      simp [listIndexOf] at h
      subst h
      simp
    · simp only [listIndexOf, if_neg hy] at h
      match hi : listIndexOf rest x with
      | none => rw [hi] at h; cases h
      | some j =>
        rw [hi] at h
        obtain ⟨hlen, hsplit, hnot⟩ := ih j hi
        obtain rfl : j + 1 = i := by simpa using h
        refine ⟨by simpa using Nat.succ_lt_succ hlen, ?_, ?_⟩
        · simpa using hsplit
        · simp only [List.take_succ_cons, List.mem_cons]
          rintro (h | h)
          · exact hy h.symm
          · exact hnot h

theorem listIndexOf_eq_none_iff (l : List Nat) (x : Nat) :
    listIndexOf l x = none ↔ x ∉ l := by
  induction l with
  | nil => simp [listIndexOf]
  | cons y rest ih =>
    by_cases hy : y = x
    · simp [listIndexOf, hy]
    · simp [listIndexOf, hy, ih, Ne.symm hy]

theorem eraseIdx_append_cons (T D : List Nat) (x : Nat) :
    (T ++ x :: D).eraseIdx T.length = T ++ D := by
  induction T with
  | nil => simp [List.eraseIdx]
  | cons a T ih => simp [List.eraseIdx, ih]

theorem insertIdx_append (T D : List Nat) (y : Nat) :
    (T ++ D).insertIdx T.length y = T ++ y :: D := by
  induction T with
  | nil => simp
  | cons a T ih => simpa [List.insertIdx_succ_cons] using ih

@[simp] theorem headOr_nil (n : Option Nat) : headOr [] n = n := rfl

@[simp] theorem headOr_cons (c : Nat) (l : List Nat) (n : Option Nat) :
    headOr (c :: l) n = some c := rfl

@[simp] theorem lastOr_nil (p : Option Nat) : lastOr [] p = p := rfl

theorem lastOr_cons (c : Nat) (l : List Nat) (p : Option Nat) :
    lastOr (c :: l) p = lastOr l (some c) := rfl

theorem lastOr_append_cons (T : List Nat) (x : Nat) (D : List Nat) (p : Option Nat) :
    lastOr (T ++ x :: D) p = lastOr D (some x) := by
  induction T generalizing p with
  | nil => rfl
  | cons a T ih => simpa [lastOr_cons] using ih (some a)

theorem lastOr_eq_getLast? (l : List Nat) (p : Option Nat) :
    lastOr l p = match l.getLast? with | some c => some c | none => p := by
  induction l generalizing p with
  | nil => rfl
  | cons a l ih =>
    rw [lastOr_cons, ih]
    cases l with
    | nil => rfl
    | cons b l' =>
      rw [List.getLast?_cons_cons]
      cases h : (b :: l').getLast? with
      | some c => rfl
      | none => simp at h

@[simp] theorem sibSegN_nil (s : Heap) (prev next : Option Nat) :
    sibSegN s prev [] next := trivial

theorem sibSegN_cons (s : Heap) (prev next : Option Nat) (c : Nat) (rest : List Nat) :
    sibSegN s prev (c :: rest) next ↔
      (s.get c).previousSibling = prev ∧ (s.get c).nextSibling = headOr rest next ∧
        sibSegN s (some c) rest next := Iff.rfl

@[simp] theorem sibSeg_nil (s : Heap) (prev : Option Nat) : sibSeg s prev [] := trivial

theorem sibSeg_cons (s : Heap) (prev : Option Nat) (c : Nat) (rest : List Nat) :
    sibSeg s prev (c :: rest) ↔
      (s.get c).previousSibling = prev ∧ (s.get c).nextSibling = rest.head? ∧
        sibSeg s (some c) rest := Iff.rfl

theorem sibSeg_iff_sibSegN (s : Heap) (prev : Option Nat) (l : List Nat) :
    sibSeg s prev l ↔ sibSegN s prev l none := by
  induction l generalizing prev with
  | nil => simp
  | cons c rest ih =>
    rw [sibSeg_cons, sibSegN_cons, ih]
    cases rest <;> simp [headOr]

theorem sibSegN_append (s : Heap) (prev next : Option Nat) (T D : List Nat) :
    sibSegN s prev (T ++ D) next ↔
      sibSegN s prev T (headOr D next) ∧ sibSegN s (lastOr T prev) D next := by
  induction T generalizing prev with
  | nil => simp
  | cons c T ih =>
    rw [List.cons_append, sibSegN_cons, sibSegN_cons, ih, lastOr_cons]
    cases T <;> cases D <;> simp [headOr] <;> tauto

/-- Congruence: a sibling segment only reads the two sibling pointers of its
members. -/
theorem sibSegN_congr {s s' : Heap} {l : List Nat}
    (hc : ∀ c ∈ l, (s'.get c).previousSibling = (s.get c).previousSibling ∧
      (s'.get c).nextSibling = (s.get c).nextSibling)
    {prev next : Option Nat} (h : sibSegN s prev l next) : sibSegN s' prev l next := by
  induction l generalizing prev with
  | nil => trivial
  | cons c rest ih =>
    obtain ⟨h1, h2, h3⟩ := h
    obtain ⟨hc1, hc2⟩ := hc c (by simp)
    exact ⟨hc1.trans h1, hc2.trans h2,
      ih (fun d hd => hc d (by simp [hd])) h3⟩

theorem removeChild_ok_char (s : Heap) (self old idx : Nat)
    (hk : ¬(s.get self).kind = NodeKind.attribute)
    (hidx : listIndexOf (s.get self).childList old = some idx) :
    ∃ s', removeChild s self old = (.ok old, s') ∧
      (∀ n, (s'.get n).childList =
        if n = self then (s.get self).childList.eraseIdx idx
        else (s.get n).childList) ∧
      (∀ n, (s'.get n).parentNode =
        if n = old then none else (s.get n).parentNode) ∧
      (∀ n, (s'.get n).previousSibling =
        if n = old then none
        else if some n = (s.get old).nextSibling then (s.get old).previousSibling
        else (s.get n).previousSibling) ∧
      (∀ n, (s'.get n).nextSibling =
        if n = old then none
        else if some n = (s.get old).previousSibling then (s.get old).nextSibling
        else (s.get n).nextSibling) ∧
      (∀ n, (s'.get n).firstChild =
        if n = self ∧ (s.get self).firstChild = some old then (s.get old).nextSibling
        else (s.get n).firstChild) ∧
      (∀ n, (s'.get n).lastChild =
        if n = self ∧ (s.get self).lastChild = some old then (s.get old).previousSibling
        else (s.get n).lastChild) ∧
      (∀ n, (s'.get n).misc = (s.get n).misc) ∧
      (∀ n, (s'.get n).ownerDocument = (s.get n).ownerDocument) := by
  unfold removeChild
  simp only [if_neg hk, hidx]
  refine ⟨_, rfl, ?_, ?_, ?_, ?_, ?_, ?_, ?_, ?_⟩ <;> intro n <;>
    simp only [updChildList_childList, updChildList_prev, updChildList_next,
      updChildList_first, updChildList_last, updChildList_parent,
      updChildList_misc, updChildList_ownerDoc] <;>
    cases hprev : (s.get old).previousSibling <;>
    cases hnext : (s.get old).nextSibling <;>
    split_ifs <;> simp_all

theorem removeChild_err_char (s : Heap) (self old : Nat) (e : DomErr) (s' : Heap)
    (h : removeChild s self old = (.error e, s')) : s' = s := by
  unfold removeChild at h
  by_cases hk : (s.get self).kind = NodeKind.attribute
  · rw [if_pos hk] at h; exact (Prod.mk.injEq _ _ _ _ ▸ h).2.symm ▸ rfl
  · rw [if_neg hk] at h
    cases hidx : listIndexOf (s.get self).childList old with
    | none => rw [hidx] at h; exact congrArg Prod.snd h |>.symm
    | some idx => rw [hidx] at h; cases h

@[simp] theorem prevSibOf_some (s : Heap) (self r : Nat) :
    prevSibOf s self (some r) = (s.get r).previousSibling := rfl

@[simp] theorem prevSibOf_none (s : Heap) (self : Nat) :
    prevSibOf s self none = (s.get self).childList.getLast? := rfl

theorem finishInsert_char (s : Heap) (self newChild : Nat) (refChild : Option Nat)
    (idx : Nat) :
    ∃ s', finishInsert s self newChild refChild idx = (.ok newChild, s') ∧
      (∀ n, (s'.get n).childList =
        if n = self then (s.get self).childList.insertIdx idx newChild
        else (s.get n).childList) ∧
      (∀ n, (s'.get n).parentNode =
        if n = newChild then some self else (s.get n).parentNode) ∧
      (∀ n, (s'.get n).previousSibling =
        if n = newChild then prevSibOf s self refChild
        else if some n = refChild then some newChild
        else (s.get n).previousSibling) ∧
      (∀ n, (s'.get n).nextSibling =
        if n = newChild then refChild
        else if some n = prevSibOf s self refChild then some newChild
        else (s.get n).nextSibling) ∧
      (∀ n, (s'.get n).firstChild =
        if n = self then ((s.get self).childList.insertIdx idx newChild).head?
        else (s.get n).firstChild) ∧
      (∀ n, (s'.get n).lastChild =
        if n = self then ((s.get self).childList.insertIdx idx newChild).getLast?
        else (s.get n).lastChild) ∧
      (∀ n, (s'.get n).misc = (s.get n).misc) ∧
      (∀ n, (s'.get n).ownerDocument =
        if n = newChild then (s.get self).ownerDocument
        else (s.get n).ownerDocument) := by
  unfold finishInsert
  refine ⟨_, rfl, ?_, ?_, ?_, ?_, ?_, ?_, ?_, ?_⟩ <;> intro n <;>
    rcases refChild with _ | r
  all_goals first
    | (cases hps : (s.get r).previousSibling <;> (try split_ifs) <;>
        simp_all [prevSibOf])
    | (cases hps : (s.get self).childList.getLast? <;> (try split_ifs) <;>
        simp_all [prevSibOf])

/-- Transfer a sibling segment to a new heap where only the *last* member's
`nextSibling` was retargeted (to the new continuation `next'`). -/
theorem sibSegN_update_last {s s' : Heap} {l : List Nat} (hnd : l.Nodup)
    {prev next next' : Option Nat}
    (hprev : ∀ c ∈ l, (s'.get c).previousSibling = (s.get c).previousSibling)
    (hinner : ∀ c ∈ l, some c ≠ l.getLast? → (s'.get c).nextSibling = (s.get c).nextSibling)
    (hlast : ∀ c, l.getLast? = some c → (s'.get c).nextSibling = next')
    (h : sibSegN s prev l next) : sibSegN s' prev l next' := by
  induction l generalizing prev with
  | nil => trivial
  | cons c rest ih =>
    obtain ⟨h1, h2, h3⟩ := h
    cases rest with
    | nil =>
      exact ⟨(hprev c (by simp)).trans h1, by simpa using hlast c rfl, trivial⟩
    | cons d rest' =>
      have hlast' : (c :: d :: rest').getLast? = (d :: rest').getLast? := by
        simp [List.getLast?]
      refine ⟨(hprev c (by simp)).trans h1, ?_, ?_⟩
      · have hcne : some c ≠ (c :: d :: rest').getLast? := by
          rw [hlast']
          intro hceq
          have : c ∈ d :: rest' := List.mem_of_mem_getLast? hceq.symm
          exact (List.nodup_cons.mp hnd).1 this
        rw [hinner c (by simp) hcne, h2]; rfl
      · exact ih (List.nodup_cons.mp hnd).2
          (fun e he => hprev e (by simp [he]))
          (fun e he hne => hinner e (by simp [he]) (hlast' ▸ hne))
          (fun e he => hlast e (hlast' ▸ he))
          h3

theorem headOr_none_eq (l : List Nat) : headOr l none = l.head? := by
  cases l <;> rfl

theorem lastOr_none_eq (l : List Nat) : lastOr l none = l.getLast? := by
  rw [lastOr_eq_getLast?]; cases l.getLast? <;> rfl

/-- `removeChild` preserves structural well-formedness (also on its error
paths, where the heap is returned untouched). -/
theorem removeChild_WF (s : Heap) (self old : Nat) (h : WF s) :
    WF (removeChild s self old).2 := by
  by_cases hk : (s.get self).kind = NodeKind.attribute
  · unfold removeChild; rw [if_pos hk]; exact h
  · cases hidx : listIndexOf (s.get self).childList old with
    | none =>
      unfold removeChild; rw [if_neg hk, hidx]; exact h
    | some idx =>
      obtain ⟨hlt, hsplit, holdT⟩ := listIndexOf_spec _ _ _ hidx
      set T := (s.get self).childList.take idx with hT
      set D := (s.get self).childList.drop (idx + 1) with hD
      have hL : (s.get self).childList = T ++ old :: D := hsplit.symm
      have hTlen : T.length = idx := by
        rw [hT, List.length_take]
        exact Nat.min_eq_left (Nat.le_of_lt hlt)
      obtain ⟨s', heq, hchild, hpar, hprev, hnext, hfirst, hlast, hmisc, hod⟩ :=
        removeChild_ok_char s self old idx hk hidx
      -- basic structure facts in s
      have hnodup : (T ++ old :: D).Nodup := hL ▸ h.childNodup self
      have hnodupTD : (T ++ D).Nodup :=
        hnodup.sublist ((D.sublist_cons_self old).append_left T)
      have holdTD : old ∉ T ++ D := by
        have := (List.nodup_middle.mp hnodup)
        exact (List.nodup_cons.mp this).1
      have holdD : old ∉ D := fun hc => holdTD (List.mem_append_right T hc)
      have hdisj : T.Disjoint D := ((List.nodup_append.mp hnodupTD).2.2)
      have hparent : ∀ c ∈ T ++ old :: D, (s.get c).parentNode = some self := by
        intro c hc
        exact h.childMem (hL ▸ hc)
      -- sibling decomposition in s
      have hsibL : sibSegN s none (T ++ old :: D) none := by
        have := h.sib self
        rw [sibSeg_iff_sibSegN, hL] at this
        exact this
      rw [sibSegN_append] at hsibL
      obtain ⟨hsibT, hsibOld⟩ := hsibL
      rw [sibSegN_cons] at hsibOld
      obtain ⟨hprevOld, hnextOld, hsibD⟩ := hsibOld
      have hheadOld : headOr (old :: D) none = some old := rfl
      rw [hheadOld] at hsibT
      -- erased list
      have herase : (s.get self).childList.eraseIdx idx = T ++ D := by
        conv_lhs => rw [hL, ← hTlen]
        exact eraseIdx_append_cons T D old
      -- the result is s'
      rw [heq]
      -- names for neighbor values
      -- prove the six WF components, each in unbounded form
      have wfChild : ∀ n, (s'.get n).childList =
          if n = self then T ++ D else (s.get n).childList := by
        intro n; rw [hchild n, herase]
      -- membership in s-childLists transfers to parent facts
      refine ⟨?_, ?_, ?_, ?_, ?_, ?_⟩
      -- (1) Nodup
      · intro p _
        rw [wfChild p]
        by_cases hp : p = self
        · rw [if_pos hp]; exact hnodupTD
        · rw [if_neg hp]; exact h.childNodup p
      -- (2) childMem
      · intro p _ c hc
        rw [wfChild p] at hc
        rw [hpar c]
        by_cases hp : p = self
        · rw [if_pos hp] at hc
          have hcL : c ∈ (s.get self).childList := by
            rw [hL]
            rcases List.mem_append.mp hc with hc | hc
            · exact List.mem_append_left _ hc
            · exact List.mem_append_right _ (List.mem_cons_of_mem _ hc)
          have hcold : c ≠ old := fun hco => holdTD (hco ▸ hc)
          rw [if_neg hcold, hp]
          exact h.childMem hcL
        · rw [if_neg hp] at hc
          have hcp := h.childMem hc
          have hcold : c ≠ old := by
            intro hco
            subst hco
            have : (s.get c).parentNode = some self :=
              hparent c (List.mem_append_right _ (List.mem_cons_self _ _))
            rw [this] at hcp
            exact hp (Option.some.injEq _ _ ▸ hcp.symm ▸ rfl)
          rw [if_neg hcold]
          exact hcp
      -- (3) parentMem
      · intro n _ p hn
        rw [hpar n] at hn
        by_cases hno : n = old
        · rw [if_pos hno] at hn; cases hn
        · rw [if_neg hno] at hn
          have hmem := h.parentMem hn
          rw [wfChild p]
          by_cases hp : p = self
          · rw [if_pos hp]
            rw [hp] at hmem
            rw [hL] at hmem
            rcases List.mem_append.mp hmem with hm | hm
            · exact List.mem_append_left _ hm
            · rcases List.mem_cons.mp hm with hm | hm
              · exact absurd hm hno
              · exact List.mem_append_right _ hm
          · rw [if_neg hp]; exact hmem
      -- (4) firstChild
      · intro p _
        rw [hfirst p, wfChild p]
        by_cases hp : p = self
        · rw [if_pos hp]
          subst hp
          have hf : (s.get p).firstChild = (T ++ old :: D).head? := hL ▸ h.firstEq p
          cases hTc : T with
          | nil =>
            have : (s.get p).firstChild = some old := by rw [hf, hTc]; rfl
            rw [if_pos ⟨rfl, this⟩, hnextOld, List.nil_append, headOr_none_eq]
          | cons t T' =>
            have hfp : (s.get p).firstChild = some t := by rw [hf, hTc]; rfl
            have htne : ¬ (p = p ∧ (s.get p).firstChild = some old) := by
              rintro ⟨-, hcon⟩
              rw [hfp] at hcon
              obtain rfl : t = old := by injection hcon
              exact holdT (hTc ▸ List.mem_cons_self _ _)
            rw [if_neg htne, hfp]
            rfl
        · rw [if_neg hp]
          have : ¬ (p = self ∧ (s.get self).firstChild = some old) := by
            rintro ⟨hps, -⟩; exact hp hps
          rw [if_neg this]
          exact h.firstEq p
      -- (5) lastChild
      · intro p _
        rw [hlast p, wfChild p]
        by_cases hp : p = self
        · rw [if_pos hp]
          subst hp
          have hf : (s.get p).lastChild = (T ++ old :: D).getLast? := hL ▸ h.lastEq p
          cases hDc : D with
          | nil =>
            have : (s.get p).lastChild = some old := by
              rw [hf, hDc, List.getLast?_append_cons]; rfl
            rw [if_pos ⟨rfl, this⟩, hprevOld, List.append_nil, lastOr_none_eq]
          | cons d D' =>
            have hgl : (d :: D').getLast? = some ((d :: D').getLast (by simp)) :=
              List.getLast?_eq_getLast _ _
            set dl := (d :: D').getLast (by simp) with hdl
            have hmemdl : dl ∈ d :: D' := List.getLast_mem _
            have hlp : (s.get p).lastChild = some dl := by
              rw [hf, hDc, List.getLast?_append_cons, List.getLast?_cons_cons]
              exact hgl
            have hne : ¬ (p = p ∧ (s.get p).lastChild = some old) := by
              rintro ⟨-, hcon⟩
              rw [hlp] at hcon
              obtain rfl : dl = old := by injection hcon
              exact holdD (hDc ▸ hmemdl)
            rw [if_neg hne, hlp, List.getLast?_append_cons, hgl]
        · rw [if_neg hp]
          have : ¬ (p = self ∧ (s.get self).lastChild = some old) := by
            rintro ⟨hps, -⟩; exact hp hps
          rw [if_neg this]
          exact h.lastEq p
      -- (6) sibling chains
      · intro p _
        have hmemLast : ∀ t, lastOr T none = some t → t ∈ T := by
          intro t ht
          rw [lastOr_none_eq] at ht
          exact List.mem_of_mem_getLast? ht
        have hmemHead : ∀ m, headOr D none = some m → m ∈ D := by
          intro m hm
          rw [headOr_none_eq] at hm
          exact List.mem_of_mem_head? hm
        rw [sibSeg_iff_sibSegN, wfChild p]
        by_cases hp : p = self
        · rw [if_pos hp]
          rw [sibSegN_append]
          constructor
          · -- the prefix, with its last member retargeted to the head of D
            refine sibSegN_update_last ((List.nodup_append.mp hnodupTD).1) ?_ ?_ ?_ hsibT
            · intro c hc
              rw [hprev c, if_neg (fun hco => holdT (by rw [← hco]; exact hc)),
                if_neg ?_]
              intro hcn
              rw [hnextOld] at hcn
              exact hdisj hc (hmemHead c hcn.symm)
            · intro c hc hcl
              rw [hnext c, if_neg (fun hco => holdT (by rw [← hco]; exact hc)), if_neg ?_]
              intro hcp
              rw [hprevOld, lastOr_none_eq] at hcp
              exact hcl (hcp.symm ▸ rfl)
            · intro c hcl
              have hcT : c ∈ T := List.mem_of_mem_getLast? hcl
              rw [hnext c, if_neg (fun hco => holdT (by rw [← hco]; exact hcT)), if_pos ?_, hnextOld]
              rw [hprevOld, lastOr_none_eq, hcl]
          · -- the suffix, with its head's previous pointer retargeted
            cases hDc : D with
            | nil => simp
            | cons m D' =>
              have hmD : m ∈ D := hDc ▸ List.mem_cons_self _ _
              have hmold : m ≠ old := fun hc => holdD (hc ▸ hmD)
              have hDnodup : (m :: D').Nodup := hDc ▸ (List.nodup_append.mp hnodupTD).2.1
              rw [sibSegN_cons]
              rw [hDc] at hsibD
              obtain ⟨hprevM, hnextM, hsibD'⟩ := sibSegN_cons _ _ _ _ _ |>.mp hsibD
              refine ⟨?_, ?_, ?_⟩
              · rw [hprev m, if_neg hmold, if_pos (by rw [hnextOld, hDc]; rfl),
                  hprevOld]
              · rw [hnext m, if_neg hmold, if_neg ?_, hnextM]
                intro hmp
                rw [hprevOld] at hmp
                exact hdisj (hmemLast m hmp.symm) hmD
              · refine sibSegN_congr ?_ hsibD'
                intro c hc
                have hcD : c ∈ D := hDc ▸ List.mem_cons_of_mem _ hc
                have hcold : c ≠ old := fun h' => holdD (h' ▸ hcD)
                have hcm : c ≠ m := fun h' => (List.nodup_cons.mp hDnodup).1 (h' ▸ hc)
                constructor
                · rw [hprev c, if_neg hcold, if_neg ?_]
                  intro hcn
                  rw [hnextOld, hDc] at hcn
                  exact hcm (by injection hcn)
                · rw [hnext c, if_neg hcold, if_neg ?_]
                  intro hcp
                  rw [hprevOld] at hcp
                  exact hdisj (hmemLast c hcp.symm) hcD
        · rw [if_neg hp]
          refine sibSegN_congr ?_ ((sibSeg_iff_sibSegN s none _).mp (h.sib p))
          intro c hc
          have hcp : (s.get c).parentNode = some p := h.childMem hc
          have hcold : c ≠ old := by
            intro hco
            have : (s.get old).parentNode = some self :=
              hparent old (List.mem_append_right _ (List.mem_cons_self _ _))
            rw [hco, this] at hcp
            exact hp (by injection hcp with e; exact e.symm)
          have hcnext : some c ≠ (s.get old).nextSibling := by
            intro hcn
            rw [hnextOld] at hcn
            have hcD := hmemHead c hcn.symm
            have : (s.get c).parentNode = some self :=
              hparent c (List.mem_append_right _ (List.mem_cons_of_mem _ hcD))
            rw [this] at hcp
            exact hp (by injection hcp with e; exact e.symm)
          have hcprev : some c ≠ (s.get old).previousSibling := by
            intro hcn
            rw [hprevOld] at hcn
            have hcT := hmemLast c hcn.symm
            have : (s.get c).parentNode = some self :=
              hparent c (List.mem_append_left _ hcT)
            rw [this] at hcp
            exact hp (by injection hcp with e; exact e.symm)
          exact ⟨by rw [hprev c, if_neg hcold, if_neg hcnext],
            by rw [hnext c, if_neg hcold, if_neg hcprev]⟩

/-- The linking tail of `insertBefore` preserves well-formedness, provided
the inserted node is detached and the insertion index is the one the source
computes (`indexOf(children, refChild)`, or `children.length` with no
reference child). -/
theorem finishInsert_WF (s : Heap) (self newChild : Nat) (refChild : Option Nat)
    (idx : Nat) (h : WF s) (hpnone : (s.get newChild).parentNode = none)
    (hidx : match refChild with
      | some r => listIndexOf (s.get self).childList r = some idx ∧ newChild ≠ r
      | none => idx = (s.get self).childList.length) :
    WF (finishInsert s self newChild refChild idx).2 := by
  obtain ⟨s', heq, hchild, hpar, hprev, hnext, hfirst, hlast, hmisc, hod⟩ :=
    finishInsert_char s self newChild refChild idx
  rw [heq]
  have hnotmem : ∀ p, newChild ∉ (s.get p).childList :=
    h.not_memChild_of_parent_none hpnone
  cases refChild with
  | some r =>
    simp only [prevSibOf_some] at hprev hnext
    obtain ⟨hfound, hner⟩ := hidx
    obtain ⟨hlt, hsplit, hrT⟩ := listIndexOf_spec _ _ _ hfound
    set T := (s.get self).childList.take idx with hT
    set D := (s.get self).childList.drop (idx + 1) with hD
    have hL : (s.get self).childList = T ++ r :: D := hsplit.symm
    have hTlen : T.length = idx := by
      rw [hT, List.length_take]
      exact Nat.min_eq_left (Nat.le_of_lt hlt)
    have hnodup : (T ++ r :: D).Nodup := hL ▸ h.childNodup self
    have hrTD : r ∉ T ++ D := (List.nodup_cons.mp (List.nodup_middle.mp hnodup)).1
    have hrD : r ∉ D := fun hc => hrTD (List.mem_append_right T hc)
    have hnodupTD : (T ++ D).Nodup :=
      hnodup.sublist ((D.sublist_cons_self r).append_left T)
    have hdisj : T.Disjoint D := (List.nodup_append.mp hnodupTD).2.2
    have hparent : ∀ c ∈ T ++ r :: D, (s.get c).parentNode = some self :=
      fun c hc => h.childMem (hL ▸ hc)
    have hncL : newChild ∉ T ++ r :: D := hL ▸ hnotmem self
    have hncT : newChild ∉ T := fun hc => hncL (List.mem_append_left _ hc)
    have hncD : newChild ∉ D :=
      fun hc => hncL (List.mem_append_right _ (List.mem_cons_of_mem _ hc))
    have hsibL : sibSegN s none (T ++ r :: D) none := by
      have := h.sib self
      rw [sibSeg_iff_sibSegN, hL] at this
      exact this
    rw [sibSegN_append] at hsibL
    obtain ⟨hsibT, hsibRD⟩ := hsibL
    rw [sibSegN_cons] at hsibRD
    obtain ⟨hprevR, hnextR, hsibD⟩ := hsibRD
    rw [show headOr (r :: D) none = some r from rfl] at hsibT
    have hins : (s.get self).childList.insertIdx idx newChild =
        T ++ newChild :: r :: D := by
      conv_lhs => rw [hL, ← hTlen]
      exact insertIdx_append T (r :: D) newChild
    have wfChild : ∀ n, (s'.get n).childList =
        if n = self then T ++ newChild :: r :: D else (s.get n).childList := by
      intro n; rw [hchild n, hins]
    have hnodupNew : (T ++ newChild :: r :: D).Nodup := by
      rw [List.nodup_middle]
      exact List.nodup_cons.mpr ⟨hL ▸ hnotmem self, hL ▸ h.childNodup self⟩
    have hprevV : (s.get r).previousSibling = lastOr T none := hprevR
    have hmemLast : ∀ t, lastOr T none = some t → t ∈ T := by
      intro t ht
      rw [lastOr_none_eq] at ht
      exact List.mem_of_mem_getLast? ht
    refine ⟨?_, ?_, ?_, ?_, ?_, ?_⟩
    · intro p _
      rw [wfChild p]
      by_cases hp : p = self
      · rw [if_pos hp]; exact hnodupNew
      · rw [if_neg hp]; exact h.childNodup p
    · intro p _ c hc
      rw [wfChild p] at hc
      rw [hpar c]
      by_cases hp : p = self
      · rw [if_pos hp] at hc
        by_cases hcn : c = newChild
        · rw [if_pos hcn, hp]
        · rw [if_neg hcn, hp]
          have hcL : c ∈ T ++ r :: D := by
            rcases List.mem_append.mp hc with hc | hc
            · exact List.mem_append_left _ hc
            · rcases List.mem_cons.mp hc with hc | hc
              · exact absurd hc hcn
              · exact List.mem_append_right _ hc
          exact hparent c hcL
      · rw [if_neg hp] at hc
        have hcn : c ≠ newChild := fun hcc => hnotmem p (by rw [← hcc]; exact hc)
        rw [if_neg hcn]
        exact h.childMem hc
    · intro n _ p hn
      rw [hpar n] at hn
      rw [wfChild p]
      by_cases hnc : n = newChild
      · rw [if_pos hnc] at hn
        obtain rfl : self = p := by injection hn
        rw [if_pos rfl, hnc]
        exact List.mem_append_right _ (List.mem_cons_self _ _)
      · rw [if_neg hnc] at hn
        have hmem := h.parentMem hn
        by_cases hp : p = self
        · rw [if_pos hp]
          rw [hp, hL] at hmem
          rcases List.mem_append.mp hmem with hm | hm
          · exact List.mem_append_left _ hm
          · exact List.mem_append_right _ (List.mem_cons_of_mem _ hm)
        · rw [if_neg hp]; exact hmem
    · intro p _
      rw [hfirst p, wfChild p]
      by_cases hp : p = self
      · rw [if_pos hp, if_pos hp, hins]
      · rw [if_neg hp, if_neg hp]; exact h.firstEq p
    · intro p _
      rw [hlast p, wfChild p]
      by_cases hp : p = self
      · rw [if_pos hp, if_pos hp, hins]
      · rw [if_neg hp, if_neg hp]; exact h.lastEq p
    · intro p _
      rw [sibSeg_iff_sibSegN, wfChild p]
      by_cases hp : p = self
      · rw [if_pos hp]
        rw [show T ++ newChild :: r :: D = T ++ (newChild :: r :: D) from rfl,
          sibSegN_append]
        constructor
        · refine sibSegN_update_last ((List.nodup_append.mp hnodupTD).1) ?_ ?_ ?_ hsibT
          · intro c hc
            rw [hprev c, if_neg (fun hcc => hncT (by rw [← hcc]; exact hc)), if_neg ?_]
            intro hcr
            have hceq : c = r := by injection hcr
            exact hrTD (by rw [← hceq]; exact List.mem_append_left _ hc)
          · intro c hc hcl
            rw [hnext c, if_neg (fun hcc => hncT (by rw [← hcc]; exact hc)), if_neg ?_]
            intro hcp
            rw [hprevV, lastOr_none_eq] at hcp
            exact hcl hcp
          · intro c hcl
            have hcT : c ∈ T := List.mem_of_mem_getLast? hcl
            rw [hnext c, if_neg (fun hcc => hncT (by rw [← hcc]; exact hcT)), if_pos ?_]
            · rfl
            · rw [hprevV, lastOr_none_eq, hcl]
        · rw [sibSegN_cons]
          refine ⟨?_, ?_, ?_⟩
          · rw [hprev newChild, if_pos rfl, hprevV]
          · rw [hnext newChild, if_pos rfl]; rfl
          · rw [sibSegN_cons]
            refine ⟨?_, ?_, ?_⟩
            · rw [hprev r, if_neg (Ne.symm hner), if_pos rfl]
            · rw [hnext r, if_neg (Ne.symm hner), if_neg ?_, hnextR]
              intro hrp
              rw [hprevV] at hrp
              exact hrTD (List.mem_append_left _ (hmemLast r hrp.symm))
            · refine sibSegN_congr ?_ hsibD
              intro c hc
              have hcnc : c ≠ newChild := fun hcc => hncD (by rw [← hcc]; exact hc)
              have hcr : c ≠ r := fun hcc => hrD (by rw [← hcc]; exact hc)
              refine ⟨?_, ?_⟩
              · rw [hprev c, if_neg hcnc, if_neg (fun hcc => hcr (by injection hcc))]
              · rw [hnext c, if_neg hcnc, if_neg ?_]
                intro hcp
                rw [hprevV] at hcp
                exact hdisj (hmemLast c hcp.symm) hc
      · rw [if_neg hp]
        refine sibSegN_congr ?_ ((sibSeg_iff_sibSegN s none _).mp (h.sib p))
        intro c hc
        have hcp : (s.get c).parentNode = some p := h.childMem hc
        have hcnc : c ≠ newChild := fun hcc => hnotmem p (by rw [← hcc]; exact hc)
        have hself : ∀ x, x ∈ T ++ r :: D → c = x → False := by
          intro x hx hcx
          have := hparent x hx
          rw [← hcx, hcp] at this
          exact hp (Option.some_inj.mp this)
        refine ⟨?_, ?_⟩
        · rw [hprev c, if_neg hcnc, if_neg ?_]
          intro hcr
          exact hself r (List.mem_append_right _ (List.mem_cons_self _ _))
            (by injection hcr)
        · rw [hnext c, if_neg hcnc, if_neg ?_]
          intro hcp'
          rw [hprevV] at hcp'
          exact hself _ (List.mem_append_left _ (hmemLast c hcp'.symm)) rfl
  | none =>
    simp only [prevSibOf_none] at hprev hnext
    have hidxlen : idx = (s.get self).childList.length := hidx
    have hnodup : (s.get self).childList.Nodup := h.childNodup self
    have hins : (s.get self).childList.insertIdx idx newChild =
        (s.get self).childList ++ [newChild] := by
      rw [hidxlen]
      exact List.insertIdx_length_self _ newChild
    have wfChild : ∀ n, (s'.get n).childList =
        if n = self then (s.get self).childList ++ [newChild]
        else (s.get n).childList := by
      intro n; rw [hchild n, hins]
    have hncL : newChild ∉ (s.get self).childList := hnotmem self
    have hparent : ∀ c ∈ (s.get self).childList, (s.get c).parentNode = some self :=
      fun c hc => h.childMem hc
    have hsibL : sibSegN s none (s.get self).childList none := by
      have := h.sib self
      rw [sibSeg_iff_sibSegN] at this
      exact this
    have hmemLast : ∀ t, (s.get self).childList.getLast? = some t →
        t ∈ (s.get self).childList :=
      fun t ht => List.mem_of_mem_getLast? ht
    refine ⟨?_, ?_, ?_, ?_, ?_, ?_⟩
    · intro p _
      rw [wfChild p]
      by_cases hp : p = self
      · rw [if_pos hp]
        rw [List.nodup_append]
        exact ⟨hnodup, List.nodup_singleton _,
          fun a ha hb => hncL ((List.mem_singleton.mp hb) ▸ ha)⟩
      · rw [if_neg hp]; exact h.childNodup p
    · intro p _ c hc
      rw [wfChild p] at hc
      rw [hpar c]
      by_cases hp : p = self
      · rw [if_pos hp] at hc
        by_cases hcn : c = newChild
        · rw [if_pos hcn, hp]
        · rw [if_neg hcn, hp]
          rcases List.mem_append.mp hc with hc | hc
          · exact hparent c hc
          · exact absurd (List.mem_singleton.mp hc) hcn
      · rw [if_neg hp] at hc
        have hcn : c ≠ newChild := fun hcc => hnotmem p (by rw [← hcc]; exact hc)
        rw [if_neg hcn]
        exact h.childMem hc
    · intro n _ p hn
      rw [hpar n] at hn
      rw [wfChild p]
      by_cases hnc : n = newChild
      · rw [if_pos hnc] at hn
        obtain rfl : self = p := by injection hn
        rw [if_pos rfl, hnc]
        exact List.mem_append_right _ (List.mem_singleton_self _)
      · rw [if_neg hnc] at hn
        have hmem := h.parentMem hn
        by_cases hp : p = self
        · rw [if_pos hp]
          exact List.mem_append_left _ (by rw [← hp]; exact hmem)
        · rw [if_neg hp]; exact hmem
    · intro p _
      rw [hfirst p, wfChild p]
      by_cases hp : p = self
      · rw [if_pos hp, if_pos hp, hins]
      · rw [if_neg hp, if_neg hp]; exact h.firstEq p
    · intro p _
      rw [hlast p, wfChild p]
      by_cases hp : p = self
      · rw [if_pos hp, if_pos hp, hins]
      · rw [if_neg hp, if_neg hp]; exact h.lastEq p
    · intro p _
      rw [sibSeg_iff_sibSegN, wfChild p]
      by_cases hp : p = self
      · rw [if_pos hp, sibSegN_append]
        constructor
        · refine sibSegN_update_last hnodup ?_ ?_ ?_ hsibL
          · intro c hc
            rw [hprev c, if_neg (fun hcc => hncL (by rw [← hcc]; exact hc))]
            simp
          · intro c hc hcl
            rw [hnext c, if_neg (fun hcc => hncL (by rw [← hcc]; exact hc)), if_neg ?_]
            intro hcp
            exact hcl hcp
          · intro c hcl
            have hcT : c ∈ (s.get self).childList := List.mem_of_mem_getLast? hcl
            rw [hnext c, if_neg (fun hcc => hncL (by rw [← hcc]; exact hcT)), if_pos ?_]
            · rfl
            · rw [hcl]
        · rw [sibSegN_cons]
          refine ⟨?_, ?_, trivial⟩
          · rw [hprev newChild, if_pos rfl, lastOr_none_eq]
          · rw [hnext newChild, if_pos rfl]; rfl
      · rw [if_neg hp]
        refine sibSegN_congr ?_ ((sibSeg_iff_sibSegN s none _).mp (h.sib p))
        intro c hc
        have hcp : (s.get c).parentNode = some p := h.childMem hc
        have hcnc : c ≠ newChild := fun hcc => hnotmem p (by rw [← hcc]; exact hc)
        refine ⟨?_, ?_⟩
        · rw [hprev c, if_neg hcnc]
          simp
        · rw [hnext c, if_neg hcnc, if_neg ?_]
          intro hcp'
          have hcL := List.mem_of_mem_getLast?
            (show (s.get self).childList.getLast? = some c from hcp'.symm)
          have := hparent c hcL
          rw [hcp] at this
          exact hp (Option.some_inj.mp this)

/-- A successful `removeChild` returns the removed node with its parent
pointer nulled. -/
theorem removeChild_ok_parent (s : Heap) (self old x : Nat) (s' : Heap)
    (h : removeChild s self old = (.ok x, s')) :
    x = old ∧ (s'.get old).parentNode = none := by
  unfold removeChild at h
  by_cases hk : (s.get self).kind = NodeKind.attribute
  · rw [if_pos hk] at h; cases h
  · rw [if_neg hk] at h
    cases hidx : listIndexOf (s.get self).childList old with
    | none => rw [hidx] at h; cases h
    | some idx =>
      rw [hidx] at h
      have h1 := congrArg Prod.fst h
      have h2 := congrArg Prod.snd h
      simp only at h1 h2
      refine ⟨(Except.ok.inj h1).symm, ?_⟩
      rw [← h2]
      simp

/-- `insertBefore` (and its internal fragment loop) preserve structural
well-formedness, for every fuel value and on every path, error paths
included. -/
theorem insertBefore_and_frag_WF : ∀ fuel : Nat,
    (∀ s self nc rc, WF s → WF (insertBeforeFuel fuel s self nc rc).2) ∧
    (∀ s self frag rc i, WF s → WF (fragLoopFuel fuel s self frag rc i).2) := by
  intro fuel
  induction fuel with
  | zero =>
    constructor
    · intro s self nc rc hwf
      simpa [insertBeforeFuel] using hwf
    · intro s self frag rc i hwf
      simpa [fragLoopFuel] using hwf
  | succ fuel ih =>
    constructor
    · intro s self nc rc hwf
      unfold insertBeforeFuel
      by_cases hk : (s.get self).kind = NodeKind.attribute
      · rw [if_pos hk]; exact hwf
      · rw [if_neg hk]
        by_cases hrc : rc = some nc
        · rw [if_pos hrc]; exact hwf
        · rw [if_neg hrc]
          by_cases hex : ∃ r, rc = some r ∧ (s.get r).parentNode ≠ some self
          · rw [dif_pos hex]; exact hwf
          · rw [dif_neg hex]
            by_cases hfrag : (s.get nc).kind = NodeKind.documentFragment
            · rw [if_pos hfrag]
              exact ih.2 s self nc rc 0 hwf
            · rw [if_neg hfrag]
              -- the detach step
              have main : ∀ s1 : Heap, WF s1 → (s1.get nc).parentNode = none →
                  WF (insertBeforeTail s1 self nc rc).2 := by
                intro s1 hwf1 hpn1
                unfold insertBeforeTail
                cases hrcc : rc with
                | some r =>
                  show WF ((match listIndexOf (s1.get self).childList r with
                    | none => (Except.error DomErr.hierarchy, s1)
                    | some idx => finishInsert s1 self nc (some r) idx).2)
                  cases hfound : listIndexOf (s1.get self).childList r with
                  | none => exact hwf1
                  | some idx =>
                    have hner : nc ≠ r := fun hcc => hrc (by rw [hrcc, hcc])
                    exact finishInsert_WF s1 self nc (some r) idx hwf1 hpn1
                      ⟨hfound, hner⟩
                | none =>
                  exact finishInsert_WF s1 self nc none _ hwf1 hpn1 rfl
              cases hpar : (s.get nc).parentNode with
              | none => exact main s hwf hpar
              | some p =>
                show WF ((match removeChild s p nc with
                  | (Except.error e, s1) => (Except.error e, s1)
                  | (Except.ok _, s1) =>
                    insertBeforeTail s1 self nc rc : Except DomErr Nat × Heap).2)
                rcases hdet : removeChild s p nc with ⟨res, s1⟩
                have hwf1 : WF s1 := by
                  have := removeChild_WF s p nc hwf
                  rw [hdet] at this
                  exact this
                cases res with
                | error e => exact hwf1
                | ok v =>
                  have hpn1 := (removeChild_ok_parent s p nc v s1 hdet).2
                  exact main s1 hwf1 hpn1
    · intro s self frag rc i hwf
      unfold fragLoopFuel
      by_cases hlt : i < (s.get frag).childList.length
      · rw [dif_pos hlt]
        show WF ((match insertBeforeFuel fuel s self
            ((s.get frag).childList.get ⟨i, hlt⟩) rc with
          | (Except.ok _, s') => fragLoopFuel fuel s' self frag rc (i + 1)
          | (Except.error e, s') =>
            (Except.error e, s') : Except DomErr Nat × Heap).2)
        rcases hres : insertBeforeFuel fuel s self
            ((s.get frag).childList.get ⟨i, hlt⟩) rc with ⟨res, s'⟩
        have hwf' : WF s' := by
          have := ih.1 s self ((s.get frag).childList.get ⟨i, hlt⟩) rc hwf
          rw [hres] at this
          exact this
        cases res with
        | ok v => exact ih.2 s' self frag rc (i + 1) hwf'
        | error e => exact hwf'
      · rw [dif_neg hlt]; exact hwf

/-- `insertBefore` preserves structural well-formedness. -/
theorem insertBefore_WF (fuel : Nat) (s : Heap) (self nc : Nat) (rc : Option Nat)
    (h : WF s) : WF (insertBeforeFuel fuel s self nc rc).2 :=
  (insertBefore_and_frag_WF fuel).1 s self nc rc h

/-- `appendChild` preserves structural well-formedness. -/
theorem appendChild_WF (fuel : Nat) (s : Heap) (self nc : Nat) (h : WF s) :
    WF (appendChild fuel s self nc).2 :=
  insertBefore_WF fuel s self nc none h

/-- Two node records agreeing on every field group are equal. -/
theorem NodeData.eq_of_fields (d d' : NodeData)
    (h1 : d.childList = d'.childList) (h2 : d.parentNode = d'.parentNode)
    (h3 : d.previousSibling = d'.previousSibling)
    (h4 : d.nextSibling = d'.nextSibling) (h5 : d.firstChild = d'.firstChild)
    (h6 : d.lastChild = d'.lastChild) (h7 : d.misc = d'.misc)
    (h8 : d.ownerDocument = d'.ownerDocument) : d = d' := by
  cases d; cases d'
  simp only [NodeData.misc, Prod.mk.injEq] at h7
  simp_all

theorem chainFrom_of_sibSegN (s : Heap) (l : List Nat) :
    ∀ (prev : Option Nat), sibSegN s prev l none →
      ∀ fuel, l.length ≤ fuel → chainFrom s fuel (headOr l none) = l := by
  induction l with
  | nil =>
    intro prev _ fuel _
    cases fuel <;> rfl
  | cons c rest ih =>
    intro prev h fuel hfuel
    obtain ⟨h1, h2, h3⟩ := h
    cases fuel with
    | zero => exact absurd hfuel (by simp)
    | succ fuel =>
      show c :: chainFrom s fuel (s.get c).nextSibling = c :: rest
      rw [h2, ih (some c) h3 fuel (by simpa using hfuel)]

/-- Under well-formedness, following `nextSibling` from `firstChild` for
(at least) `childList.length` steps enumerates exactly the backing child
list. -/
theorem chainFrom_eq_childList (s : Heap) (h : WF s) (p : Nat) (fuel : Nat)
    (hfuel : (s.get p).childList.length ≤ fuel) :
    chainFrom s fuel (s.get p).firstChild = (s.get p).childList := by
  have hseg : sibSegN s none (s.get p).childList none :=
    (sibSeg_iff_sibSegN s none _).mp (h.sib p)
  rw [h.firstEq p, ← headOr_none_eq]
  exact chainFrom_of_sibSegN s _ none hseg fuel hfuel

/-- The previous sibling of a child is again a child of the same parent. -/
theorem WF.prev_mem {s : Heap} (h : WF s) {p c q : Nat}
    (hc : c ∈ (s.get p).childList) (hq : (s.get c).previousSibling = some q) :
    q ∈ (s.get p).childList := by
  obtain ⟨T, D, hTD⟩ := List.append_of_mem hc
  have hseg : sibSegN s none (s.get p).childList none :=
    (sibSeg_iff_sibSegN s none _).mp (h.sib p)
  rw [hTD, sibSegN_append, sibSegN_cons] at hseg
  obtain ⟨-, hprev, -, -⟩ := hseg
  rw [hprev] at hq
  rw [lastOr_none_eq] at hq
  rw [hTD]
  exact List.mem_append_left _ (List.mem_of_mem_getLast? hq)

/-- The empty heap is well-formed. -/
theorem WF_empty : WF Heap.empty := by
  refine ⟨?_, ?_, ?_, ?_, ?_, ?_⟩ <;> intro p hp <;> cases hp

theorem Heap.get_alloc (s : Heap) (d : NodeData) (j : Nat) :
    (s.alloc d).2.get j = if j = s.nextId then d else s.get j := by
  simp only [Heap.alloc, Heap.get, Heap.lookupEntry]
  by_cases h : j = s.nextId <;> simp [h]

@[simp] theorem Heap.nextId_alloc (s : Heap) (d : NodeData) :
    (s.alloc d).2.nextId = s.nextId + 1 := rfl

@[simp] theorem Heap.fst_alloc (s : Heap) (d : NodeData) :
    (s.alloc d).1 = s.nextId := rfl

theorem Fresh_empty : Fresh Heap.empty := by
  intro j _
  rfl

theorem NodeData.blank_clean : NodeData.blank.clean :=
  ⟨rfl, rfl, rfl, rfl, rfl, rfl⟩

/-- Allocating a clean record preserves well-formedness and freshness. -/
theorem alloc_WF_Fresh (s : Heap) (d : NodeData) (hwf : WF s) (hf : Fresh s)
    (hd : d.clean) : WF (s.alloc d).2 ∧ Fresh (s.alloc d).2 := by
  obtain ⟨hdp, hdc, hdf, hdl, hdps, hdns⟩ := hd
  have hblank : s.get s.nextId = NodeData.blank := hf s.nextId (Nat.le_refl _)
  have hget : ∀ j, (s.alloc d).2.get j = if j = s.nextId then d else s.get j :=
    Heap.get_alloc s d
  have hnotchild : ∀ p, s.nextId ∉ (s.get p).childList := by
    intro p hmem
    have := hwf.childMem hmem
    rw [hblank] at this
    cases this
  constructor
  · refine ⟨?_, ?_, ?_, ?_, ?_, ?_⟩
    · intro p _
      rw [hget p]
      by_cases hp : p = s.nextId
      · rw [if_pos hp, hdc]; exact List.nodup_nil
      · rw [if_neg hp]; exact hwf.childNodup p
    · intro p _ c hc
      rw [hget p] at hc
      rw [hget c]
      by_cases hp : p = s.nextId
      · rw [if_pos hp, hdc] at hc; cases hc
      · rw [if_neg hp] at hc
        have hcn : c ≠ s.nextId := fun hcc => hnotchild p (by rw [← hcc]; exact hc)
        rw [if_neg hcn]
        exact hwf.childMem hc
    · intro n _ p hn
      rw [hget n] at hn
      rw [hget p]
      by_cases hnn : n = s.nextId
      · rw [if_pos hnn, hdp] at hn; cases hn
      · rw [if_neg hnn] at hn
        have hmem := hwf.parentMem hn
        by_cases hp : p = s.nextId
        · refine absurd hmem ?_
          rw [hp]
          intro hx
          rw [hblank] at hx
          cases hx
        · rw [if_neg hp]; exact hmem
    · intro p _
      rw [hget p]
      by_cases hp : p = s.nextId
      · rw [if_pos hp, hdf, hdc]; rfl
      · rw [if_neg hp]; exact hwf.firstEq p
    · intro p _
      rw [hget p]
      by_cases hp : p = s.nextId
      · rw [if_pos hp, hdl, hdc]; rfl
      · rw [if_neg hp]; exact hwf.lastEq p
    · intro p _
      rw [hget p]
      by_cases hp : p = s.nextId
      · rw [if_pos hp, hdc]; trivial
      · rw [if_neg hp]
        refine (sibSeg_iff_sibSegN _ none _).mpr
          (sibSegN_congr ?_ ((sibSeg_iff_sibSegN s none _).mp (hwf.sib p)))
        intro c hc
        have hcn : c ≠ s.nextId := fun hcc => hnotchild p (by rw [← hcc]; exact hc)
        rw [hget c, if_neg hcn]
        exact ⟨rfl, rfl⟩
  · intro j hj
    rw [Heap.nextId_alloc] at hj
    rw [hget j, if_neg (by omega)]
    exact hf j (by omega)

@[simp] theorem updChildList_nextId (s : Heap) (i : Nat) (f : List Nat → List Nat) :
    (updChildList s i f).nextId = s.nextId := rfl

@[simp] theorem updNext_nextId (s : Heap) (i : Nat) (v : Option Nat) :
    (updNext s i v).nextId = s.nextId := rfl

@[simp] theorem updPrev_nextId (s : Heap) (i : Nat) (v : Option Nat) :
    (updPrev s i v).nextId = s.nextId := rfl

@[simp] theorem updFirst_nextId (s : Heap) (i : Nat) (v : Option Nat) :
    (updFirst s i v).nextId = s.nextId := rfl

@[simp] theorem updLast_nextId (s : Heap) (i : Nat) (v : Option Nat) :
    (updLast s i v).nextId = s.nextId := rfl

@[simp] theorem updDetach_nextId (s : Heap) (i : Nat) :
    (updDetach s i).nextId = s.nextId := rfl

@[simp] theorem updLink_nextId (s : Heap) (i : Nat) (pv nv : Option Nat)
    (par : Nat) (od : Option Nat) :
    (updLink s i pv nv par od).nextId = s.nextId := rfl

@[simp] theorem updEnds_nextId (s : Heap) (i : Nat) :
    (updEnds s i).nextId = s.nextId := rfl

theorem removeChild_nextId (s : Heap) (self old : Nat) :
    (removeChild s self old).2.nextId = s.nextId := by
  unfold removeChild
  split
  · rfl
  split
  · rfl
  simp only [updChildList_prev, updChildList_next]
  cases (s.get old).previousSibling <;> cases (s.get old).nextSibling <;>
    split_ifs <;> rfl

theorem finishInsert_nextId (s : Heap) (self nc : Nat) (rc : Option Nat)
    (idx : Nat) : (finishInsert s self nc rc idx).2.nextId = s.nextId := by
  unfold finishInsert
  cases rc with
  | some r =>
    dsimp only
    cases (s.get r).previousSibling <;> rfl
  | none =>
    dsimp only
    cases (s.get self).childList.getLast? <;> rfl

theorem insertBeforeTail_nextId (s : Heap) (self nc : Nat) (rc : Option Nat) :
    (insertBeforeTail s self nc rc).2.nextId = s.nextId := by
  unfold insertBeforeTail
  cases rc with
  | some r =>
    show (match listIndexOf (s.get self).childList r with
      | none => (Except.error DomErr.hierarchy, s)
      | some idx => finishInsert s self nc (some r) idx).2.nextId = s.nextId
    cases listIndexOf (s.get self).childList r with
    | none => rfl
    | some idx => exact finishInsert_nextId s self nc (some r) idx
  | none => exact finishInsert_nextId s self nc none _

theorem insertBefore_and_frag_nextId : ∀ fuel : Nat,
    (∀ s self nc rc, (insertBeforeFuel fuel s self nc rc).2.nextId = s.nextId) ∧
    (∀ s self frag rc i,
      (fragLoopFuel fuel s self frag rc i).2.nextId = s.nextId) := by
  intro fuel
  induction fuel with
  | zero =>
    constructor
    · intro s self nc rc
      simp [insertBeforeFuel]
    · intro s self frag rc i
      simp [fragLoopFuel]
  | succ fuel ih =>
    constructor
    · intro s self nc rc
      unfold insertBeforeFuel
      by_cases hk : (s.get self).kind = NodeKind.attribute
      · rw [if_pos hk]
      · rw [if_neg hk]
        by_cases hrc : rc = some nc
        · rw [if_pos hrc]
        · rw [if_neg hrc]
          by_cases hex : ∃ r, rc = some r ∧ (s.get r).parentNode ≠ some self
          · rw [dif_pos hex]
          · rw [dif_neg hex]
            by_cases hfrag : (s.get nc).kind = NodeKind.documentFragment
            · rw [if_pos hfrag]
              exact ih.2 s self nc rc 0
            · rw [if_neg hfrag]
              cases hpar : (s.get nc).parentNode with
              | none => exact insertBeforeTail_nextId s self nc rc
              | some p =>
                show (match removeChild s p nc with
                  | (Except.error e, s1) => (Except.error e, s1)
                  | (Except.ok _, s1) =>
                    insertBeforeTail s1 self nc rc : Except DomErr Nat × Heap).2.nextId
                  = s.nextId
                rcases hdet : removeChild s p nc with ⟨res, s1⟩
                have h1 : s1.nextId = s.nextId := by
                  have := removeChild_nextId s p nc
                  rw [hdet] at this; exact this
                cases res with
                | error e => exact h1
                | ok v => rw [insertBeforeTail_nextId]; exact h1
    · intro s self frag rc i
      unfold fragLoopFuel
      by_cases hlt : i < (s.get frag).childList.length
      · rw [dif_pos hlt]
        show (match insertBeforeFuel fuel s self
            ((s.get frag).childList.get ⟨i, hlt⟩) rc with
          | (Except.ok _, s') => fragLoopFuel fuel s' self frag rc (i + 1)
          | (Except.error e, s') =>
            (Except.error e, s') : Except DomErr Nat × Heap).2.nextId = s.nextId
        rcases hres : insertBeforeFuel fuel s self
            ((s.get frag).childList.get ⟨i, hlt⟩) rc with ⟨res, s'⟩
        have h1 : s'.nextId = s.nextId := by
          have := ih.1 s self ((s.get frag).childList.get ⟨i, hlt⟩) rc
          rw [hres] at this; exact this
        cases res with
        | ok v => rw [ih.2]; exact h1
        | error e => exact h1
      · rw [dif_neg hlt]

theorem insertBefore_nextId (fuel : Nat) (s : Heap) (self nc : Nat)
    (rc : Option Nat) : (insertBeforeFuel fuel s self nc rc).2.nextId = s.nextId :=
  (insertBefore_and_frag_nextId fuel).1 s self nc rc

theorem appendChild_nextId (fuel : Nat) (s : Heap) (self nc : Nat) :
    (appendChild fuel s self nc).2.nextId = s.nextId :=
  insertBefore_nextId fuel s self nc none

/-- The next sibling of a child is again a child of the same parent. -/
theorem WF.next_mem {s : Heap} (h : WF s) {p c q : Nat}
    (hc : c ∈ (s.get p).childList) (hq : (s.get c).nextSibling = some q) :
    q ∈ (s.get p).childList := by
  obtain ⟨T, D, hTD⟩ := List.append_of_mem hc
  have hseg : sibSegN s none (s.get p).childList none :=
    (sibSeg_iff_sibSegN s none _).mp (h.sib p)
  rw [hTD, sibSegN_append, sibSegN_cons] at hseg
  obtain ⟨-, -, hnext, -⟩ := hseg
  rw [hnext] at hq
  rw [headOr_none_eq] at hq
  rw [hTD]
  exact List.mem_append_right _
    (List.mem_cons_of_mem _ (List.mem_of_mem_head? hq))

/-- `removeChild` never touches a blank (unallocated) node's record. -/
theorem removeChild_untouched (s : Heap) (self old j : Nat) (hwf : WF s)
    (hj : s.get j = NodeData.blank) :
    (removeChild s self old).2.get j = s.get j := by
  by_cases hk : (s.get self).kind = NodeKind.attribute
  · unfold removeChild; rw [if_pos hk]
  · cases hidx : listIndexOf (s.get self).childList old with
    | none => unfold removeChild; rw [if_neg hk, hidx]
    | some idx =>
      obtain ⟨s', heq, hchild, hpar, hprev, hnext, hfirst, hlast, hmisc, hod⟩ :=
        removeChild_ok_char s self old idx hk hidx
      rw [heq]
      have holdmem : old ∈ (s.get self).childList := by
        by_contra hno
        rw [(listIndexOf_eq_none_iff _ _).mpr hno] at hidx
        cases hidx
      have hjparent : (s.get j).parentNode = none := by rw [hj]; rfl
      have hjchild : (s.get j).childList = [] := by rw [hj]; rfl
      have hjs : j ≠ self := by
        intro hjj
        rw [hjj] at hjchild
        rw [hjchild] at holdmem
        cases holdmem
      have hjnotchild : ∀ p, j ∉ (s.get p).childList :=
        hwf.not_memChild_of_parent_none hjparent
      have hjo : j ≠ old := by
        intro hjj
        exact hjnotchild self (hjj ▸ holdmem)
      have hjnext : some j ≠ (s.get old).nextSibling := by
        intro hh
        exact hjnotchild self (hwf.next_mem holdmem hh.symm)
      have hjprev : some j ≠ (s.get old).previousSibling := by
        intro hh
        exact hjnotchild self (hwf.prev_mem holdmem hh.symm)
      refine NodeData.eq_of_fields _ _ ?_ ?_ ?_ ?_ ?_ ?_ ?_ ?_
      · rw [hchild j, if_neg hjs]
      · rw [hpar j, if_neg hjo]
      · rw [hprev j, if_neg hjo, if_neg hjnext]
      · rw [hnext j, if_neg hjo, if_neg hjprev]
      · rw [hfirst j, if_neg (fun hcon => hjs hcon.1)]
      · rw [hlast j, if_neg (fun hcon => hjs hcon.1)]
      · rw [hmisc j]
      · rw [hod j]

/-- `finishInsert` never touches a blank node's record other than the
receiver and the inserted node. -/
theorem finishInsert_untouched (s : Heap) (self nc : Nat) (rc : Option Nat)
    (idx j : Nat) (hwf : WF s) (hj : s.get j = NodeData.blank)
    (hjs : j ≠ self) (hjn : j ≠ nc)
    (hr : ∀ r, rc = some r → r ∈ (s.get self).childList) :
    (finishInsert s self nc rc idx).2.get j = s.get j := by
  obtain ⟨s', heq, hchild, hpar, hprev, hnext, hfirst, hlast, hmisc, hod⟩ :=
    finishInsert_char s self nc rc idx
  rw [heq]
  have hjparent : (s.get j).parentNode = none := by rw [hj]; rfl
  have hjnotchild : ∀ p, j ∉ (s.get p).childList :=
    hwf.not_memChild_of_parent_none hjparent
  have hjrc : some j ≠ rc := by
    intro hh
    exact hjnotchild self (hr j hh.symm)
  have hjps : some j ≠ prevSibOf s self rc := by
    intro hh
    cases hrc : rc with
    | some r =>
      rw [hrc] at hh
      rw [prevSibOf_some] at hh
      exact hjnotchild self (hwf.prev_mem (hr r hrc) hh.symm)
    | none =>
      rw [hrc] at hh
      rw [prevSibOf_none] at hh
      exact hjnotchild self (List.mem_of_mem_getLast? hh.symm)
  refine NodeData.eq_of_fields _ _ ?_ ?_ ?_ ?_ ?_ ?_ ?_ ?_
  · rw [hchild j, if_neg hjs]
  · rw [hpar j, if_neg hjn]
  · rw [hprev j, if_neg hjn, if_neg hjrc]
  · rw [hnext j, if_neg hjn, if_neg hjps]
  · rw [hfirst j, if_neg hjs]
  · rw [hlast j, if_neg hjs]
  · rw [hmisc j]
  · rw [hod j, if_neg hjn]

theorem insertBeforeTail_untouched (s : Heap) (self nc : Nat) (rc : Option Nat)
    (j : Nat) (hwf : WF s) (hj : s.get j = NodeData.blank)
    (hjs : j ≠ self) (hjn : j ≠ nc) :
    (insertBeforeTail s self nc rc).2.get j = s.get j := by
  unfold insertBeforeTail
  cases rc with
  | some r =>
    show (match listIndexOf (s.get self).childList r with
      | none => (Except.error DomErr.hierarchy, s)
      | some idx => finishInsert s self nc (some r) idx).2.get j = s.get j
    cases hfound : listIndexOf (s.get self).childList r with
    | none => rfl
    | some idx =>
      refine finishInsert_untouched s self nc (some r) idx j hwf hj hjs hjn ?_
      intro r' hr'
      obtain rfl : r = r' := by injection hr'
      by_contra hno
      rw [(listIndexOf_eq_none_iff _ _).mpr hno] at hfound
      cases hfound
  | none =>
    exact finishInsert_untouched s self nc none _ j hwf hj hjs hjn
      (fun r hr => by cases hr)

/-- `insertBefore` (with its fragment loop) never touches a blank node's
record other than the receiver and the inserted node. -/
theorem insertBefore_and_frag_untouched : ∀ fuel : Nat,
    (∀ s self nc rc j, WF s → s.get j = NodeData.blank → j ≠ self → j ≠ nc →
      (insertBeforeFuel fuel s self nc rc).2.get j = s.get j) ∧
    (∀ s self frag rc i j, WF s → s.get j = NodeData.blank → j ≠ self →
      (fragLoopFuel fuel s self frag rc i).2.get j = s.get j) := by
  intro fuel
  induction fuel with
  | zero =>
    constructor
    · intro s self nc rc j _ _ _ _
      simp [insertBeforeFuel]
    · intro s self frag rc i j _ _ _
      simp [fragLoopFuel]
  | succ fuel ih =>
    constructor
    · intro s self nc rc j hwf hj hjs hjn
      unfold insertBeforeFuel
      by_cases hk : (s.get self).kind = NodeKind.attribute
      · rw [if_pos hk]
      · rw [if_neg hk]
        by_cases hrc : rc = some nc
        · rw [if_pos hrc]
        · rw [if_neg hrc]
          by_cases hex : ∃ r, rc = some r ∧ (s.get r).parentNode ≠ some self
          · rw [dif_pos hex]
          · rw [dif_neg hex]
            by_cases hfrag : (s.get nc).kind = NodeKind.documentFragment
            · rw [if_pos hfrag]
              exact ih.2 s self nc rc 0 j hwf hj hjs
            · rw [if_neg hfrag]
              cases hpar : (s.get nc).parentNode with
              | none =>
                exact insertBeforeTail_untouched s self nc rc j hwf hj hjs hjn
              | some p =>
                show (match removeChild s p nc with
                  | (Except.error e, s1) => (Except.error e, s1)
                  | (Except.ok _, s1) =>
                    insertBeforeTail s1 self nc rc : Except DomErr Nat × Heap).2.get j
                  = s.get j
                rcases hdet : removeChild s p nc with ⟨res, s1⟩
                have hwf1 : WF s1 := by
                  have := removeChild_WF s p nc hwf
                  rw [hdet] at this; exact this
                have hunt : s1.get j = s.get j := by
                  have := removeChild_untouched s p nc j hwf hj
                  rw [hdet] at this; exact this
                cases res with
                | error e => exact hunt
                | ok v =>
                  rw [insertBeforeTail_untouched s1 self nc rc j hwf1
                    (hunt.trans hj) hjs hjn, hunt]
    · intro s self frag rc i j hwf hj hjs
      unfold fragLoopFuel
      by_cases hlt : i < (s.get frag).childList.length
      · rw [dif_pos hlt]
        show (match insertBeforeFuel fuel s self
            ((s.get frag).childList.get ⟨i, hlt⟩) rc with
          | (Except.ok _, s') => fragLoopFuel fuel s' self frag rc (i + 1)
          | (Except.error e, s') =>
            (Except.error e, s') : Except DomErr Nat × Heap).2.get j = s.get j
        have hjc : j ≠ (s.get frag).childList.get ⟨i, hlt⟩ := by
          intro hjj
          have hcm : (s.get frag).childList.get ⟨i, hlt⟩ ∈ (s.get frag).childList :=
            List.get_mem _ _ hlt
          have := hwf.childMem hcm
          rw [← hjj, hj] at this
          cases this
        rcases hres : insertBeforeFuel fuel s self
            ((s.get frag).childList.get ⟨i, hlt⟩) rc with ⟨res, s'⟩
        have hwf' : WF s' := by
          have := insertBefore_WF fuel s self
            ((s.get frag).childList.get ⟨i, hlt⟩) rc hwf
          rw [hres] at this; exact this
        have hunt : s'.get j = s.get j := by
          have := (ih.1) s self ((s.get frag).childList.get ⟨i, hlt⟩) rc j
            hwf hj hjs hjc
          rw [hres] at this; exact this
        cases res with
        | ok v =>
          rw [ih.2 s' self frag rc (i + 1) j hwf' (hunt.trans hj) hjs, hunt]
        | error e => exact hunt
      · rw [dif_neg hlt]

/-- `insertBefore` leaves blank records (other than receiver and inserted
node) untouched. -/
theorem insertBefore_untouched (fuel : Nat) (s : Heap) (self nc : Nat)
    (rc : Option Nat) (j : Nat) (hwf : WF s) (hj : s.get j = NodeData.blank)
    (hjs : j ≠ self) (hjn : j ≠ nc) :
    (insertBeforeFuel fuel s self nc rc).2.get j = s.get j :=
  (insertBefore_and_frag_untouched fuel).1 s self nc rc j hwf hj hjs hjn

/-- `replaceChild` preserves structural well-formedness. -/
theorem replaceChild_WF (fuel : Nat) (s : Heap) (self nc old : Nat) (h : WF s) :
    WF (replaceChild fuel s self nc old).2 := by
  unfold replaceChild
  by_cases hk : (s.get self).kind = NodeKind.attribute
  · rw [if_pos hk]; exact h
  · rw [if_neg hk]
    by_cases hex : ∃ p, (s.get old).parentNode = some p ∧ p ≠ self
    · rw [dif_pos hex]; exact h
    · rw [dif_neg hex]
      rcases hins : insertBeforeFuel fuel s self nc (some old) with ⟨res, s1⟩
      have hwf1 : WF s1 := by
        have := insertBefore_WF fuel s self nc (some old) h
        rw [hins] at this
        exact this
      cases res with
      | error e => exact hwf1
      | ok v => exact removeChild_WF s1 self old hwf1

/-- Well-formedness only looks at the six structural fields: any heap that
agrees with a well-formed one on all of them is well-formed. -/
theorem WF_congr {s s' : Heap}
    (h : ∀ j, (s'.get j).parentNode = (s.get j).parentNode ∧
      (s'.get j).childList = (s.get j).childList ∧
      (s'.get j).firstChild = (s.get j).firstChild ∧
      (s'.get j).lastChild = (s.get j).lastChild ∧
      (s'.get j).previousSibling = (s.get j).previousSibling ∧
      (s'.get j).nextSibling = (s.get j).nextSibling)
    (hwf : WF s) : WF s' := by
  refine ⟨?_, ?_, ?_, ?_, ?_, ?_⟩
  · intro p _
    rw [(h p).2.1]
    exact hwf.childNodup p
  · intro p _ c hc
    rw [(h p).2.1] at hc
    rw [(h c).1]
    exact hwf.childMem hc
  · intro n _ p hn
    rw [(h n).1] at hn
    rw [(h p).2.1]
    exact hwf.parentMem hn
  · intro p _
    rw [(h p).2.2.1, (h p).2.1]
    exact hwf.firstEq p
  · intro p _
    rw [(h p).2.2.2.1, (h p).2.1]
    exact hwf.lastEq p
  · intro p _
    rw [(h p).2.1]
    refine (sibSeg_iff_sibSegN _ none _).mpr
      (sibSegN_congr ?_ ((sibSeg_iff_sibSegN s none _).mp (hwf.sib p)))
    intro c _
    exact ⟨(h c).2.2.2.2.1, (h c).2.2.2.2.2⟩

/-- A field update that keeps all six structural fields preserves `WF`. -/
theorem WF_modify (s : Heap) (i : Nat) (f : NodeData → NodeData)
    (hstruct : ∀ d : NodeData, (f d).parentNode = d.parentNode ∧
      (f d).childList = d.childList ∧ (f d).firstChild = d.firstChild ∧
      (f d).lastChild = d.lastChild ∧
      (f d).previousSibling = d.previousSibling ∧
      (f d).nextSibling = d.nextSibling)
    (hwf : WF s) : WF (s.modify i f) := by
  refine WF_congr (fun j => ?_) hwf
  rw [Heap.get_modify]
  by_cases hj : j = i
  · subst hj
    rw [if_pos rfl]
    exact hstruct (s.get j)
  · rw [if_neg hj]
    exact ⟨rfl, rfl, rfl, rfl, rfl, rfl⟩

/-- Updating an already-allocated node preserves freshness. -/
theorem Fresh_modify (s : Heap) (i : Nat) (f : NodeData → NodeData)
    (hi : i < s.nextId) (hfr : Fresh s) : Fresh (s.modify i f) := by
  intro j hj
  rw [Heap.nextId_modify] at hj
  rw [Heap.get_modify_ne _ _ _ _ (by omega)]
  exact hfr j hj

theorem updNamespace_WF (s : Heap) (i : Nat) (v : Option String) (h : WF s) :
    WF (updNamespace s i v) :=
  WF_modify s i _ (fun _ => ⟨rfl, rfl, rfl, rfl, rfl, rfl⟩) h

theorem updOwnerDoc_WF (s : Heap) (i : Nat) (v : Option Nat) (h : WF s) :
    WF (updOwnerDoc s i v) :=
  WF_modify s i _ (fun _ => ⟨rfl, rfl, rfl, rfl, rfl, rfl⟩) h

theorem updAttrs_WF (s : Heap) (i : Nat) (l : List Nat) (h : WF s) :
    WF (updAttrs s i l) :=
  WF_modify s i _ (fun _ => ⟨rfl, rfl, rfl, rfl, rfl, rfl⟩) h

theorem updNamespace_Fresh (s : Heap) (i : Nat) (v : Option String)
    (hi : i < s.nextId) (h : Fresh s) : Fresh (updNamespace s i v) :=
  Fresh_modify s i _ hi h

theorem updOwnerDoc_Fresh (s : Heap) (i : Nat) (v : Option Nat)
    (hi : i < s.nextId) (h : Fresh s) : Fresh (updOwnerDoc s i v) :=
  Fresh_modify s i _ hi h

theorem updAttrs_Fresh (s : Heap) (i : Nat) (l : List Nat)
    (hi : i < s.nextId) (h : Fresh s) : Fresh (updAttrs s i l) :=
  Fresh_modify s i _ hi h

@[simp] theorem updNamespace_nextId (s : Heap) (i : Nat) (v : Option String) :
    (updNamespace s i v).nextId = s.nextId := rfl

@[simp] theorem updOwnerDoc_nextId (s : Heap) (i : Nat) (v : Option Nat) :
    (updOwnerDoc s i v).nextId = s.nextId := rfl

@[simp] theorem updAttrs_nextId (s : Heap) (i : Nat) (l : List Nat) :
    (updAttrs s i l).nextId = s.nextId := rfl

@[simp] theorem updOwnerElement_nextId (s : Heap) (i : Nat) (v : Option Nat) :
    (updOwnerElement s i v).nextId = s.nextId := rfl

/-- `insertBefore` allocates nothing and (for an allocated receiver and
argument) preserves freshness. -/
theorem insertBefore_Fresh (fuel : Nat) (s : Heap) (self nc : Nat)
    (rc : Option Nat) (hwf : WF s) (hfr : Fresh s) (hs : self < s.nextId)
    (hn : nc < s.nextId) : Fresh (insertBeforeFuel fuel s self nc rc).2 := by
  intro j hj
  rw [insertBefore_nextId] at hj
  rw [insertBefore_untouched fuel s self nc rc j hwf (hfr j hj)
    (by omega) (by omega)]
  exact hfr j hj

/-- Allocating a clean record: the build invariant plus allocation of the
new id. -/
theorem mk_alloc_inv (s : Heap) (d : NodeData) (hwf : WF s) (hfr : Fresh s)
    (hd : d.clean) :
    BuildInv s (s.alloc d).2 ∧ (s.alloc d).1 < (s.alloc d).2.nextId := by
  obtain ⟨h1, h2⟩ := alloc_WF_Fresh s d hwf hfr hd
  refine ⟨⟨h1, h2, ?_⟩, ?_⟩ <;> simp

theorem mkAttr_inv (s : Heap) (name value : String) (ns : Option String)
    (owner : Option Nat) (hwf : WF s) (hfr : Fresh s) :
    BuildInv s (mkAttr s name value ns owner).2 ∧
      (mkAttr s name value ns owner).1 < (mkAttr s name value ns owner).2.nextId := by
  unfold mkAttr
  exact mk_alloc_inv s
    { NodeData.blank with
      kind := .attribute
      nodeName := name
      nodeValue := some value
      namespaceURI := ns
      ownerElement := owner
      ownerDocument := owner.bind fun e => (s.get e).ownerDocument }
    hwf hfr ⟨rfl, rfl, rfl, rfl, rfl, rfl⟩

theorem mkElement_inv (s : Heap) (tagName : String) (hwf : WF s)
    (hfr : Fresh s) :
    BuildInv s (mkElement s tagName).2 ∧
      (mkElement s tagName).1 < (mkElement s tagName).2.nextId := by
  unfold mkElement
  exact mk_alloc_inv s
    { NodeData.blank with
      kind := .element
      nodeName := tagName
      nodeValue := none
      tagName := jsToUpperCase tagName }
    hwf hfr ⟨rfl, rfl, rfl, rfl, rfl, rfl⟩

theorem mkText_inv (s : Heap) (data : String) (hwf : WF s) (hfr : Fresh s) :
    BuildInv s (mkText s data).2 ∧
      (mkText s data).1 < (mkText s data).2.nextId := by
  unfold mkText
  exact mk_alloc_inv s
    { NodeData.blank with
      kind := .text
      nodeName := "#text"
      nodeValue := some data }
    hwf hfr ⟨rfl, rfl, rfl, rfl, rfl, rfl⟩

theorem mkCDATASection_inv (s : Heap) (data : String) (hwf : WF s)
    (hfr : Fresh s) :
    BuildInv s (mkCDATASection s data).2 ∧
      (mkCDATASection s data).1 < (mkCDATASection s data).2.nextId := by
  unfold mkCDATASection
  exact mk_alloc_inv s
    { NodeData.blank with
      kind := .cdata
      nodeName := "#cdata-section"
      nodeValue := some data }
    hwf hfr ⟨rfl, rfl, rfl, rfl, rfl, rfl⟩

theorem mkDocumentFragment_inv (s : Heap) (hwf : WF s) (hfr : Fresh s) :
    BuildInv s (mkDocumentFragment s).2 ∧
      (mkDocumentFragment s).1 < (mkDocumentFragment s).2.nextId := by
  unfold mkDocumentFragment
  exact mk_alloc_inv s
    { NodeData.blank with
      kind := .documentFragment
      nodeName := "#document-fragment"
      nodeValue := none }
    hwf hfr ⟨rfl, rfl, rfl, rfl, rfl, rfl⟩

theorem mkDocumentType_inv (s : Heap) (name publicId systemId : String)
    (hwf : WF s) (hfr : Fresh s) :
    BuildInv s (mkDocumentType s name publicId systemId).2 ∧
      (mkDocumentType s name publicId systemId).1 <
        (mkDocumentType s name publicId systemId).2.nextId := by
  unfold mkDocumentType
  exact mk_alloc_inv s
    { NodeData.blank with
      kind := .documentType
      nodeName := name
      nodeValue := none
      publicId := publicId
      systemId := systemId }
    hwf hfr ⟨rfl, rfl, rfl, rfl, rfl, rfl⟩

theorem mkDocument_inv (s : Heap) (ns : Option String) (hwf : WF s)
    (hfr : Fresh s) :
    BuildInv s (mkDocument s ns).2 ∧
      (mkDocument s ns).1 < (mkDocument s ns).2.nextId := by
  unfold mkDocument
  exact mk_alloc_inv s
    { NodeData.blank with
      kind := .document
      nodeName := "#document"
      nodeValue := none
      namespaceURI := ns
      ownerDocument := some s.nextId }
    hwf hfr ⟨rfl, rfl, rfl, rfl, rfl, rfl⟩

theorem mkGenericNode_inv (s : Heap) (k : NodeKind) (name : String)
    (value : Option String) (hwf : WF s) (hfr : Fresh s) :
    BuildInv s (mkGenericNode s k name value).2 ∧
      (mkGenericNode s k name value).1 < (mkGenericNode s k name value).2.nextId := by
  unfold mkGenericNode
  exact mk_alloc_inv s
    { NodeData.blank with
      kind := k
      nodeName := name
      nodeValue := value }
    hwf hfr ⟨rfl, rfl, rfl, rfl, rfl, rfl⟩

theorem allocAttrs_inv (ns : Option String) (e : Nat) :
    ∀ (l : List ResolvedWireAttr) (s : Heap), WF s → Fresh s →
      BuildInv s (allocAttrs ns e l s).2 := by
  intro l
  induction l with
  | nil =>
    intro s hwf hfr
    exact ⟨hwf, hfr, Nat.le_refl _⟩
  | cons a rest ih =>
    intro s hwf hfr
    obtain ⟨⟨hwf1, hfr1, hle1⟩, -⟩ := mkAttr_inv s a.name (a.value.getD "")
      (match a.ns with | some x => some x | none => ns) (some e) hwf hfr
    obtain ⟨hwf2, hfr2, hle2⟩ := ih _ hwf1 hfr1
    exact ⟨hwf2, hfr2, le_trans hle1 hle2⟩

/-- The shared tail `instance.ownerDocument = context.document` of
`instantiateDomNode`: the invariant survives it. -/
theorem instStep_inv (s : Heap) (p : Nat × Heap) (v : Option Nat)
    (hinv : BuildInv s p.2) (hi : p.1 < p.2.nextId) :
    BuildInv s (updOwnerDoc p.2 p.1 v) ∧
      p.1 < (updOwnerDoc p.2 p.1 v).nextId := by
  obtain ⟨hwf', hfr', hle⟩ := hinv
  refine ⟨⟨updOwnerDoc_WF _ _ _ hwf', updOwnerDoc_Fresh _ _ _ hi hfr', ?_⟩, ?_⟩
  · rw [updOwnerDoc_nextId]; exact hle
  · rw [updOwnerDoc_nextId]; exact hi

/-- The shared `ownerDocument` / `namespaceURI` assignment tail of the
`DocumentType` / `Attribute` / `CData` arms. -/
theorem instOwnerNs_inv (s : Heap) (p : Nat × Heap) (doc : Option Nat)
    (v : Option String) (hinv : BuildInv s p.2) (hi : p.1 < p.2.nextId) :
    BuildInv s (updNamespace (updOwnerDoc p.2 p.1 doc) p.1 v) ∧
      p.1 < (updNamespace (updOwnerDoc p.2 p.1 doc) p.1 v).nextId := by
  obtain ⟨hwf', hfr', hle⟩ := hinv
  have hi2 : p.1 < (updOwnerDoc p.2 p.1 doc).nextId := by
    rw [updOwnerDoc_nextId]; exact hi
  refine ⟨⟨updNamespace_WF _ _ _ (updOwnerDoc_WF _ _ _ hwf'),
    updNamespace_Fresh _ _ _ hi2 (updOwnerDoc_Fresh _ _ _ hi hfr'), ?_⟩, ?_⟩
  · rw [updNamespace_nextId, updOwnerDoc_nextId]; exact hle
  · rw [updNamespace_nextId, updOwnerDoc_nextId]; exact hi

theorem instantiateDocument_inv (ctx : BuildTreeContext) (s : Heap)
    (hwf : WF s) (hfr : Fresh s) :
    BuildInv s (instantiateDocument ctx s).2.1 ∧
      (instantiateDocument ctx s).1 < (instantiateDocument ctx s).2.1.nextId := by
  unfold instantiateDocument
  split_ifs
  · exact mkDocument_inv s (some XHTML_NAMESPACE) hwf hfr
  · exact mkDocument_inv s (some XHTML_NAMESPACE) hwf hfr
  · exact mkDocument_inv s none hwf hfr

theorem instantiateElement_inv (node : ResolvedWireNode)
    (ctx : BuildTreeContext) (s : Heap) (hwf : WF s) (hfr : Fresh s) :
    BuildInv s (instantiateElement node ctx s).2 ∧
      (instantiateElement node ctx s).1 <
        (instantiateElement node ctx s).2.nextId := by
  obtain ⟨⟨hwf1, hfr1, hle1⟩, hi1⟩ :=
    mkElement_inv s (node.nodeName.getD "") hwf hfr
  have hwf2 : WF (updNamespace (mkElement s (node.nodeName.getD "")).2
      (mkElement s (node.nodeName.getD "")).1 ctx.namespaceURI) :=
    updNamespace_WF _ _ _ hwf1
  have hfr2 : Fresh (updNamespace (mkElement s (node.nodeName.getD "")).2
      (mkElement s (node.nodeName.getD "")).1 ctx.namespaceURI) :=
    updNamespace_Fresh _ _ _ hi1 hfr1
  obtain ⟨hwf3, hfr3, hle3⟩ := allocAttrs_inv ctx.namespaceURI
    (mkElement s (node.nodeName.getD "")).1 node.attributes _ hwf2 hfr2
  rw [updNamespace_nextId] at hle3
  refine ⟨⟨?_, ?_, ?_⟩, ?_⟩
  · exact updAttrs_WF _ _ _ hwf3
  · exact updAttrs_Fresh _ _ _ (lt_of_lt_of_le hi1 hle3) hfr3
  · exact le_trans hle1 hle3
  · exact lt_of_lt_of_le hi1 hle3

theorem instantiateDocumentType_inv (node : ResolvedWireNode)
    (ctx : BuildTreeContext) (s : Heap) (hwf : WF s) (hfr : Fresh s) :
    BuildInv s (instantiateDocumentType node ctx s).2 ∧
      (instantiateDocumentType node ctx s).1 <
        (instantiateDocumentType node ctx s).2.nextId := by
  obtain ⟨h1, h2⟩ := mkDocumentType_inv s (node.nodeName.getD "")
    (((node.attributes.find? fun a => a.name = "publicId").bind
      fun a => a.value).getD "")
    (((node.attributes.find? fun a => a.name = "systemId").bind
      fun a => a.value).getD "") hwf hfr
  exact instOwnerNs_inv s _ ctx.document ctx.namespaceURI h1 h2

theorem instantiateAttribute_inv (node : ResolvedWireNode)
    (ctx : BuildTreeContext) (s : Heap) (hwf : WF s) (hfr : Fresh s) :
    BuildInv s (instantiateAttribute node ctx s).2 ∧
      (instantiateAttribute node ctx s).1 <
        (instantiateAttribute node ctx s).2.nextId := by
  obtain ⟨h1, h2⟩ := mkAttr_inv s (node.nodeName.getD "")
    (node.nodeValue.getD "") ctx.namespaceURI none hwf hfr
  exact instOwnerNs_inv s _ ctx.document ctx.namespaceURI h1 h2

theorem instantiateCData_inv (node : ResolvedWireNode)
    (ctx : BuildTreeContext) (s : Heap) (hwf : WF s) (hfr : Fresh s) :
    BuildInv s (instantiateCData node ctx s).2 ∧
      (instantiateCData node ctx s).1 <
        (instantiateCData node ctx s).2.nextId := by
  obtain ⟨h1, h2⟩ := mkCDATASection_inv s (node.nodeValue.getD "") hwf hfr
  exact instOwnerNs_inv s _ ctx.document ctx.namespaceURI h1 h2

/-- Instantiating any wire node preserves the build invariant, and the new
node's id is allocated. -/
theorem instantiateDomNode_inv (node : ResolvedWireNode)
    (ctx : BuildTreeContext) (s : Heap) (n : Nat) (s' : Heap)
    (ctx' : BuildTreeContext) (hwf : WF s) (hfr : Fresh s)
    (h : instantiateDomNode node ctx s = .ok (n, s', ctx')) :
    BuildInv s s' ∧ n < s'.nextId := by
  unfold instantiateDomNode at h
  split at h
  · cases h
  · cases hnt : node.nodeType <;> rw [hnt] at h <;>
      simp only [Except.ok.injEq, Prod.mk.injEq] at h <;>
      obtain ⟨rfl, rfl, rfl⟩ := h
    · exact instStep_inv s _ _
        (instantiateElement_inv node _ s hwf hfr).1
        (instantiateElement_inv node _ s hwf hfr).2
    · exact instStep_inv s _ _
        (instantiateAttribute_inv node _ s hwf hfr).1
        (instantiateAttribute_inv node _ s hwf hfr).2
    · exact instStep_inv s _ _
        (mkText_inv s (node.nodeValue.getD "") hwf hfr).1
        (mkText_inv s (node.nodeValue.getD "") hwf hfr).2
    · exact instStep_inv s _ _
        (instantiateCData_inv node _ s hwf hfr).1
        (instantiateCData_inv node _ s hwf hfr).2
    · exact instStep_inv s _ _
        (mkGenericNode_inv s _ (node.nodeName.getD "") node.nodeValue hwf hfr).1
        (mkGenericNode_inv s _ (node.nodeName.getD "") node.nodeValue hwf hfr).2
    · exact instStep_inv s _ _
        (mkGenericNode_inv s _ (node.nodeName.getD "") node.nodeValue hwf hfr).1
        (mkGenericNode_inv s _ (node.nodeName.getD "") node.nodeValue hwf hfr).2
    · exact instStep_inv s _ _
        (mkGenericNode_inv s _ (node.nodeName.getD "") node.nodeValue hwf hfr).1
        (mkGenericNode_inv s _ (node.nodeName.getD "") node.nodeValue hwf hfr).2
    · exact instStep_inv s _ _
        (mkGenericNode_inv s _ (node.nodeName.getD "") node.nodeValue hwf hfr).1
        (mkGenericNode_inv s _ (node.nodeName.getD "") node.nodeValue hwf hfr).2
    · exact instantiateDocument_inv _ s hwf hfr
    · exact instStep_inv s _ _
        (instantiateDocumentType_inv node _ s hwf hfr).1
        (instantiateDocumentType_inv node _ s hwf hfr).2
    · exact instStep_inv s _ _
        (mkDocumentFragment_inv s hwf hfr).1
        (mkDocumentFragment_inv s hwf hfr).2
    · exact instStep_inv s _ _
        (mkGenericNode_inv s _ (node.nodeName.getD "") node.nodeValue hwf hfr).1
        (mkGenericNode_inv s _ (node.nodeName.getD "") node.nodeValue hwf hfr).2

/-- The insert step of `buildSubtree` preserves the invariant and allocates
nothing. -/
theorem buildInsertStep_inv (fuel : Nat) (s1 : Heap) (parent : Option Nat)
    (prev next : Option Nat) (domNode : Nat) (res : Except DomErr Nat)
    (s2 : Heap) (hwf1 : WF s1) (hfr1 : Fresh s1)
    (hpar : ∀ p, parent = some p → p < s1.nextId) (hd : domNode < s1.nextId)
    (h : buildInsertStep fuel s1 parent prev next domNode = (res, s2)) :
    WF s2 ∧ Fresh s2 ∧ s2.nextId = s1.nextId := by
  unfold buildInsertStep at h
  cases parent with
  | none =>
    injection h with h1 h2
    subst h2
    exact ⟨hwf1, hfr1, rfl⟩
  | some p =>
    have hp := hpar p rfl
    simp only [] at h
    cases href : buildReference s1 p prev next with
    | some r =>
      rw [href] at h
      simp only [] at h
      refine ⟨?_, ?_, ?_⟩
      · have := insertBefore_WF fuel s1 p domNode (some r) hwf1
        rw [h] at this; exact this
      · have := insertBefore_Fresh fuel s1 p domNode (some r) hwf1 hfr1 hp hd
        rw [h] at this; exact this
      · have := insertBefore_nextId fuel s1 p domNode (some r)
        rw [h] at this; exact this
    | none =>
      rw [href] at h
      simp only [appendChild] at h
      refine ⟨?_, ?_, ?_⟩
      · have := insertBefore_WF fuel s1 p domNode none hwf1
        rw [h] at this; exact this
      · have := insertBefore_Fresh fuel s1 p domNode none hwf1 hfr1 hp hd
        rw [h] at this; exact this
      · have := insertBefore_nextId fuel s1 p domNode none
        rw [h] at this; exact this

/-- `buildSubtree` (with its children loop) preserves the build invariant;
the returned node is allocated. -/
theorem buildSubtree_and_children_inv : ∀ fuel : Nat,
    (∀ node parent prev next ctx s n s' ctx', WF s → Fresh s →
      (∀ p, parent = some p → p < s.nextId) →
      buildSubtreeFuel fuel node parent prev next ctx s = .ok (n, s', ctx') →
      BuildInv s s' ∧ n < s'.nextId) ∧
    (∀ childId previousChild domNode ctx s r s' ctx', WF s → Fresh s →
      domNode < s.nextId →
      buildChildrenFuel fuel childId previousChild domNode ctx s =
        .ok (r, s', ctx') →
      BuildInv s s') := by
  intro fuel
  induction fuel with
  | zero =>
    constructor
    · intro node parent prev next ctx s n s' ctx' _ _ _ h
      simp [buildSubtreeFuel] at h
    · intro childId previousChild domNode ctx s r s' ctx' _ _ _ h
      simp [buildChildrenFuel] at h
  | succ fuel ih =>
    constructor
    · intro node parent prev next ctx s n s' ctx' hwf hfr hpar h
      unfold buildSubtreeFuel at h
      rcases hinst : instantiateDomNode node ctx s with e | ⟨domNode, s1, ctx1⟩
      · rw [hinst] at h
        simp only [] at h
        cases h
      · rw [hinst] at h
        simp only [] at h
        obtain ⟨⟨hwf1, hfr1, hle1⟩, hi1⟩ :=
          instantiateDomNode_inv node ctx s domNode s1 ctx1 hwf hfr hinst
        rcases hstep : buildInsertStep fuel s1 parent prev next domNode
          with ⟨stepRes, s2⟩
        rw [hstep] at h
        obtain ⟨hwf2, hfr2, hnid2⟩ := buildInsertStep_inv fuel s1 parent prev
          next domNode stepRes s2 hwf1 hfr1
          (fun p hp => lt_of_lt_of_le (hpar p hp) hle1) hi1 hstep
        cases stepRes with
        | error e =>
          simp only [] at h
          cases h
        | ok v =>
          simp only [] at h
          rcases hch : buildChildrenFuel fuel node.firstChild none domNode
            ctx1 s2 with e2 | ⟨rr, s3, ctx3⟩
          · rw [hch] at h
            simp only [] at h
            cases h
          · rw [hch] at h
            simp only [Except.ok.injEq, Prod.mk.injEq] at h
            obtain ⟨rfl, rfl, rfl⟩ := h
            obtain ⟨hwf3, hfr3, hle3⟩ := ih.2 node.firstChild none domNode
              ctx1 s2 rr s3 ctx3 hwf2 hfr2 (by omega) hch
            exact ⟨⟨hwf3, hfr3, by omega⟩, by omega⟩
    · intro childId previousChild domNode ctx s r s' ctx' hwf hfr hd h
      unfold buildChildrenFuel at h
      cases childId with
      | none =>
        simp only [Except.ok.injEq, Prod.mk.injEq] at h
        obtain ⟨rfl, rfl, rfl⟩ := h
        exact ⟨hwf, hfr, Nat.le_refl _⟩
      | some cid =>
        simp only [] at h
        cases hlk : wireLookup ctx.lookup cid with
        | none =>
          rw [hlk] at h
          simp only [Except.ok.injEq, Prod.mk.injEq] at h
          obtain ⟨rfl, rfl, rfl⟩ := h
          exact ⟨hwf, hfr, Nat.le_refl _⟩
        | some childWire =>
          rw [hlk] at h
          simp only [] at h
          rcases hbs : buildSubtreeFuel fuel childWire (some domNode)
            previousChild none ctx s with e | ⟨child, s1, ctx1⟩
          · rw [hbs] at h
            simp only [] at h
            cases h
          · rw [hbs] at h
            simp only [] at h
            obtain ⟨⟨hwf1, hfr1, hle1⟩, hi1⟩ := ih.1 childWire (some domNode)
              previousChild none ctx s child s1 ctx1 hwf hfr
              (fun p hp => (Option.some_inj.mp hp) ▸ hd) hbs
            obtain ⟨hwf2, hfr2, hle2⟩ := ih.2 childWire.nextSibling
              (some child) domNode ctx1 s1 r s' ctx' hwf1 hfr1 (by omega) h
            exact ⟨hwf2, hfr2, by omega⟩

/-- A tree assembled by `buildDocumentTree` is structurally well-formed. -/
theorem buildDocumentTree_WF (doc : ResolvedWireDoc) (fuel : Nat) (d : Nat)
    (s : Heap) (h : buildDocumentTree doc fuel = .ok (d, s)) : WF s := by
  unfold buildDocumentTree at h
  rcases hfind : doc.nodes.find? (fun n => n.nodeType = NodeKind.document)
    with _ | root
  · rw [hfind] at h
    simp only [] at h
    cases h
  · rw [hfind] at h
    simp only [] at h
    rcases hbs : buildSubtreeFuel fuel root none none none
      { lookup := doc.nodes.foldl (fun acc n => wireLookupInsert acc n.id n) [],
        contentType := doc.contentType, quirksMode := doc.quirksMode,
        document := none, docContentType := none, namespaceURI := none }
        Heap.empty with e | ⟨d0, s0, ctx0⟩
    · rw [hbs] at h
      simp only [] at h
      cases h
    · rw [hbs] at h
      simp only [] at h
      obtain ⟨⟨hwf0, _, _⟩, _⟩ :=
        (buildSubtree_and_children_inv fuel).1 root none none none _
          Heap.empty d0 s0 ctx0 WF_empty Fresh_empty
          (fun p hp => by cases hp) hbs
      split at h
      · simp only [Except.ok.injEq, Prod.mk.injEq] at h
        obtain ⟨rfl, rfl⟩ := h
        exact hwf0
      · cases h

/-- C1: every tree assembled by `buildDocumentTree` is structurally
well-formed, every successful mutation-core call (`insertBefore`,
`appendChild`, `replaceChild`, `removeChild`) preserves well-formedness, and
in a well-formed heap a node `n` has `parentNode = p` exactly when `n` lies
on the sibling chain obtained from `p.firstChild` by following `nextSibling`
(so no node outside that chain claims parent `p`). -/
theorem C1_sibling_chain_invariant :
    (∀ doc fuel d s, buildDocumentTree doc fuel = Except.ok (d, s) → WF s) ∧
    (∀ fuel s self nc rc r s', WF s →
      insertBeforeFuel fuel s self nc rc = (Except.ok r, s') → WF s') ∧
    (∀ fuel s self nc r s', WF s →
      appendChild fuel s self nc = (Except.ok r, s') → WF s') ∧
    (∀ fuel s self nc old r s', WF s →
      replaceChild fuel s self nc old = (Except.ok r, s') → WF s') ∧
    (∀ s self old r s', WF s →
      removeChild s self old = (Except.ok r, s') → WF s') ∧
    (∀ s, WF s → ∀ p n,
      ((s.get n).parentNode = some p ↔
        n ∈ chainFrom s (s.get p).childList.length (s.get p).firstChild)) := by
  refine ⟨buildDocumentTree_WF, ?_, ?_, ?_, ?_, ?_⟩
  · intro fuel s self nc rc r s' hwf h
    have := insertBefore_WF fuel s self nc rc hwf
    rw [h] at this
    exact this
  · intro fuel s self nc r s' hwf h
    have := appendChild_WF fuel s self nc hwf
    rw [h] at this
    exact this
  · intro fuel s self nc old r s' hwf h
    have := replaceChild_WF fuel s self nc old hwf
    rw [h] at this
    exact this
  · intro s self old r s' hwf h
    have := removeChild_WF s self old hwf
    rw [h] at this
    exact this
  · intro s hwf p n
    rw [chainFrom_eq_childList s hwf p _ (Nat.le_refl _)]
    exact ⟨fun h => hwf.parentMem h, fun h => hwf.childMem h⟩

/-- C1 witness: the two-node wire document assembles to a well-formed heap;
inserting a freshly allocated text node keeps it well-formed; in the
assembled heap the element (id 2) has the document (id 1) as parent and is
exactly the sibling chain from its `firstChild`. -/
theorem C1_sibling_chain_invariant_witness :
    buildDocumentTree wireDocC1 16 = Except.ok (1, heapC1) ∧ WF heapC1 ∧
      WF heapC1App ∧
      ((heapC1.get 2).parentNode = some 1 ↔
        2 ∈ chainFrom heapC1 (heapC1.get 1).childList.length
          (heapC1.get 1).firstChild) :=
  ⟨by decide,
    C1_sibling_chain_invariant.1 wireDocC1 16 1 heapC1 (by decide),
    C1_sibling_chain_invariant.2.1 8 heapC1T 1 3 none 3 heapC1App (by decide)
      (by decide),
    C1_sibling_chain_invariant.2.2.2.2.2 heapC1 (by decide) 1 2⟩

/-- C2: `removeChild` of a non-child fails with a hierarchy-violation error
(the `Attr` override's `HierarchyRequestError` when the receiver is an
attribute, the base class's error otherwise) and returns the heap unchanged;
`insertBefore` with a `refChild` whose parent is not the receiver fails the
same way with the heap unchanged — provided `newChild ≠ refChild`, since the
`newChild === refChild` no-op return precedes the parent check. -/
theorem C2_error_handling :
    (∀ s self old, old ∉ (s.get self).childList →
      removeChild s self old =
        (Except.error (if (s.get self).kind = NodeKind.attribute then
          DomErr.attrHierarchy else DomErr.hierarchy), s)) ∧
    (∀ fuel s self nc r, nc ≠ r → (s.get r).parentNode ≠ some self →
      insertBeforeFuel (fuel + 1) s self nc (some r) =
        (Except.error (if (s.get self).kind = NodeKind.attribute then
          DomErr.attrHierarchy else DomErr.hierarchy), s)) := by
  constructor
  · intro s self old hmem
    unfold removeChild
    by_cases hk : (s.get self).kind = NodeKind.attribute
    · simp only [if_pos hk]
    · simp only [if_neg hk, (listIndexOf_eq_none_iff _ _).mpr hmem]
  · intro fuel s self nc r hne hpar
    unfold insertBeforeFuel
    by_cases hk : (s.get self).kind = NodeKind.attribute
    · simp only [if_pos hk]
    · simp only [if_neg hk]
      rw [if_neg (fun h : some r = some nc => hne (Option.some_inj.mp h).symm)]
      rw [dif_pos ⟨r, rfl, hpar⟩]

/-- C2 witness: in `sC2`, node 2 is not a child of node 1 and its parent is
not node 1; `removeChild` and `insertBefore` (with `newChild = 3 ≠ 2`) fail
with the hierarchy error and leave the heap untouched. -/
theorem C2_error_handling_witness :
    2 ∉ (sC2.get 1).childList ∧
      removeChild sC2 1 2 = (Except.error DomErr.hierarchy, sC2) ∧
      (3 : Nat) ≠ 2 ∧ (sC2.get 2).parentNode ≠ some 1 ∧
      insertBeforeFuel 1 sC2 1 3 (some 2) =
        (Except.error DomErr.hierarchy, sC2) :=
  ⟨by decide,
    C2_error_handling.1 sC2 1 2 (by decide),
    by decide, by decide,
    C2_error_handling.2 0 sC2 1 3 2 (by decide) (by decide)⟩

/-- C2 counterexample: when `newChild === refChild`, `insertBefore` returns
the new child successfully and changes nothing, even though `refChild`'s
parent is not the receiver — refuting "fails the same way" as originally
stated. -/
theorem C2_error_handling_counterexample :
    (sC2.get 2).parentNode ≠ some 1 ∧
      insertBeforeFuel 1 sC2 1 2 (some 2) = (Except.ok 2, sC2) := by
  decide

/-- C3: inserting a well-formed two-child fragment moves only the first
child.  The `for (const child of newChild.childNodes)` loop iterates the
*live* backing list by increasing index while each recursive `insertBefore`
removes the current child from the fragment, so after moving child 3 the
index skips past child 4: the parent ends with `[3]` and the fragment still
holds `[4]` — not "each of f's children, in their original order … afterwards
f has no children". -/
theorem C3_fragment_insertion_bug :
    WF sC3 ∧
      (insertBeforeFuel 9 sC3 1 2 none).1 = Except.ok 2 ∧
      ((insertBeforeFuel 9 sC3 1 2 none).2.get 1).childList = [3] ∧
      ((insertBeforeFuel 9 sC3 1 2 none).2.get 2).childList = [4] := by
  decide

theorem updOwnerElement_get (s : Heap) (i : Nat) (v : Option Nat) (j : Nat) :
    (updOwnerElement s i v).get j =
      if j = i then { s.get i with ownerElement := v } else s.get j := by
  simp [updOwnerElement, Heap.get_modify]

theorem attrShape_updOwnerElement (s : Heap) (i : Nat) (v : Option Nat)
    (a : Nat) : attrShape (updOwnerElement s i v) a = attrShape s a := by
  unfold attrShape
  rw [updOwnerElement_get]
  by_cases h : a = i
  · subst h
    rw [if_pos rfl]
  · rw [if_neg h]

theorem setAttrsOwner_nextId (e : Nat) :
    ∀ (l : List Nat) (s : Heap), (setAttrsOwner e l s).nextId = s.nextId := by
  intro l
  induction l with
  | nil => intro s; rfl
  | cons a rest ih =>
    intro s
    rw [setAttrsOwner, ih]
    rfl

theorem setAttrsOwner_get_notMem (e : Nat) :
    ∀ (l : List Nat) (s : Heap) (j : Nat), j ∉ l →
      (setAttrsOwner e l s).get j = s.get j := by
  intro l
  induction l with
  | nil => intro s j _; rfl
  | cons a rest ih =>
    intro s j hj
    rw [setAttrsOwner, ih _ _ (fun hc => hj (List.mem_cons_of_mem _ hc)),
      updOwnerElement_get,
      if_neg (fun hc => hj (by rw [hc]; exact List.mem_cons_self a rest))]

theorem attrShape_setAttrsOwner (e : Nat) :
    ∀ (l : List Nat) (s : Heap) (a : Nat),
      attrShape (setAttrsOwner e l s) a = attrShape s a := by
  intro l
  induction l with
  | nil => intro s a; rfl
  | cons x rest ih =>
    intro s a
    rw [setAttrsOwner, ih, attrShape_updOwnerElement]

/-- What `cloneAttrs` does: it only allocates, the clone ids are exactly the
fresh range, and the clones reproduce the source name/value pairs. -/
theorem cloneAttrs_spec :
    ∀ (l : List Nat) (s : Heap), (∀ a ∈ l, a < s.nextId) →
      (∀ j, j < s.nextId → (cloneAttrs l s).2.get j = s.get j) ∧
      s.nextId ≤ (cloneAttrs l s).2.nextId ∧
      (∀ x ∈ (cloneAttrs l s).1, s.nextId ≤ x ∧ x < (cloneAttrs l s).2.nextId) ∧
      (cloneAttrs l s).1.map (attrShape (cloneAttrs l s).2) =
        l.map (attrShape s) := by
  intro l
  induction l with
  | nil =>
    intro s _
    exact ⟨fun j _ => rfl, Nat.le_refl _,
      fun x hx => by simp [cloneAttrs] at hx, rfl⟩
  | cons a rest ih =>
    intro s hbound
    have ha := hbound a (List.mem_cons_self a rest)
    simp only [cloneAttrs]
    have hp1 : (mkAttr s (s.get a).nodeName ((s.get a).nodeValue.getD "")
        (s.get a).namespaceURI none).1 = s.nextId := rfl
    have hp2 : (mkAttr s (s.get a).nodeName ((s.get a).nodeValue.getD "")
        (s.get a).namespaceURI none).2.nextId = s.nextId + 1 := rfl
    have hget : ∀ j, (mkAttr s (s.get a).nodeName ((s.get a).nodeValue.getD "")
        (s.get a).namespaceURI none).2.get j =
        if j = s.nextId then
          { NodeData.blank with
            kind := .attribute
            nodeName := (s.get a).nodeName
            nodeValue := some ((s.get a).nodeValue.getD "")
            namespaceURI := (s.get a).namespaceURI
            ownerElement := none
            ownerDocument := Option.bind none fun e => (s.get e).ownerDocument }
          else s.get j :=
      fun j => Heap.get_alloc s _ j
    have hs2n : (updOwnerElement (mkAttr s (s.get a).nodeName
        ((s.get a).nodeValue.getD "") (s.get a).namespaceURI none).2
        (mkAttr s (s.get a).nodeName ((s.get a).nodeValue.getD "")
          (s.get a).namespaceURI none).1 (s.get a).ownerElement).nextId
        = s.nextId + 1 := by
      rw [updOwnerElement_nextId, hp2]
    have hs2get : ∀ j, j < s.nextId →
        (updOwnerElement (mkAttr s (s.get a).nodeName
          ((s.get a).nodeValue.getD "") (s.get a).namespaceURI none).2
          (mkAttr s (s.get a).nodeName ((s.get a).nodeValue.getD "")
            (s.get a).namespaceURI none).1 (s.get a).ownerElement).get j
          = s.get j := by
      intro j hj
      rw [updOwnerElement_get, if_neg (by rw [hp1]; omega), hget,
        if_neg (by omega)]
    obtain ⟨ihStab, ihLe, ihBounds, ihShapes⟩ := ih _ (fun x hx => by
      rw [hs2n]
      exact Nat.lt_succ_of_lt (hbound x (List.mem_cons_of_mem _ hx)))
    rw [hs2n] at ihLe
    refine ⟨?_, by omega, ?_, ?_⟩
    · intro j hj
      rw [ihStab j (by rw [hs2n]; omega), hs2get j hj]
    · intro x hx
      rcases List.mem_cons.mp hx with rfl | hx
      · exact ⟨by omega, by omega⟩
      · obtain ⟨h1, h2⟩ := ihBounds x hx
        rw [hs2n] at h1
        exact ⟨by omega, h2⟩
    · simp only [List.map_cons]
      refine congrArg₂ (· :: ·) ?_ ?_
      · unfold attrShape
        rw [ihStab _ (by rw [hs2n, hp1]; omega), updOwnerElement_get,
          if_pos rfl, hp1, hget, if_pos rfl]
        simp
      · rw [ihShapes]
        refine List.map_congr_left ?_
        intro x hx
        unfold attrShape
        rw [hs2get x (hbound x (List.mem_cons_of_mem _ hx))]

/-- A single clean allocation, as every non-element `cloneShallow` performs:
untouched old records, fresh id, the allocated record's shape, unlinked
pointers. -/
theorem clone_alloc_spec (s : Heap) (d : NodeData) (ha : d.attrs = [])
    (hc : d.clean) :
    (∀ j, j < s.nextId → (s.alloc d).2.get j = s.get j) ∧
    s.nextId ≤ (s.alloc d).1 ∧ (s.alloc d).1 < (s.alloc d).2.nextId ∧
    shallowShape (s.alloc d).2 (s.alloc d).1 = (d.nodeName, d.nodeValue, []) ∧
    ((s.alloc d).2.get (s.alloc d).1).clean ∧
    (∀ a ∈ ((s.alloc d).2.get (s.alloc d).1).attrs, a < (s.alloc d).2.nextId) := by
  have hget : ∀ j, (s.alloc d).2.get j = if j = s.nextId then d else s.get j :=
    Heap.get_alloc s d
  refine ⟨?_, Nat.le_refl _,
    by simp only [Heap.fst_alloc, Heap.nextId_alloc]; omega, ?_, ?_, ?_⟩
  · intro j hj
    rw [hget, if_neg (by omega)]
  · unfold shallowShape
    rw [Heap.fst_alloc, hget, if_pos rfl, ha]
    rfl
  · rw [Heap.fst_alloc, hget, if_pos rfl]
    exact hc
  · rw [Heap.fst_alloc, hget, if_pos rfl, ha]
    intro a hx
    cases hx

/-- Reading the freshly allocated element back after the attribute re-owning
loop: the loop only touches the (older) attribute clones. -/
theorem setAttrsOwner_alloc_get_self (s0 : Heap) (d : NodeData)
    (l : List Nat) (hl : ∀ x ∈ l, x < s0.nextId) :
    (setAttrsOwner (s0.alloc d).1 l (s0.alloc d).2).get (s0.alloc d).1 = d := by
  have hnm : (s0.alloc d).1 ∉ l := by
    intro hmem
    have h2 := hl _ hmem
    rw [Heap.fst_alloc] at h2
    exact lt_irrefl _ h2
  rw [setAttrsOwner_get_notMem _ _ _ _ hnm, Heap.get_alloc,
    if_pos (Heap.fst_alloc s0 d)]

/-- What one `cloneNode(false)` call does, for every node kind: it only
allocates (plus the re-owning writes on the fresh attribute clones), the
clone's id is fresh, its shallow shape is `cloneShape` of the source, and
its structural pointers are all unlinked. -/
theorem cloneNodeF_spec (s : Heap) (n : Nat)
    (hattrs : ∀ a ∈ (s.get n).attrs, a < s.nextId) :
    (∀ j, j < s.nextId → (cloneNodeF s n).2.get j = s.get j) ∧
    s.nextId ≤ (cloneNodeF s n).1 ∧
    (cloneNodeF s n).1 < (cloneNodeF s n).2.nextId ∧
    shallowShape (cloneNodeF s n).2 (cloneNodeF s n).1 = cloneShape s n ∧
    ((cloneNodeF s n).2.get (cloneNodeF s n).1).clean ∧
    (∀ a ∈ ((cloneNodeF s n).2.get (cloneNodeF s n).1).attrs,
      a < (cloneNodeF s n).2.nextId) := by
  cases hk : (s.get n).kind
  -- case element
  · have hcl : cloneNodeF s n = cloneElement s n := by
      simp only [cloneNodeF]
      rw [hk]
    have hsh : cloneShape s n =
        ((s.get n).tagName, none, (s.get n).attrs.map (attrShape s)) := by
      simp only [cloneShape]
      rw [hk]
    rw [hcl, hsh]
    unfold cloneElement
    dsimp only
    obtain ⟨qStab, qLe, qBounds, qShapes⟩ :=
      cloneAttrs_spec (s.get n).attrs s hattrs
    refine ⟨?_, ?_, ?_, ?_, ?_, ?_⟩
    · intro j hj
      rw [setAttrsOwner_get_notMem _ _ _ _
          (fun hmem => absurd (qBounds _ hmem).1 (by omega)),
        Heap.get_alloc, if_neg (by omega)]
      exact qStab j hj
    · exact qLe
    · rw [setAttrsOwner_nextId]
      exact Nat.lt_succ_self _
    · unfold shallowShape
      rw [setAttrsOwner_alloc_get_self _ _ _ (fun x hx => (qBounds x hx).2)]
      refine congrArg (fun l => ((s.get n).tagName, (none : Option String), l)) ?_
      refine (List.map_congr_left ?_).trans qShapes
      intro a hmem
      rw [attrShape_setAttrsOwner]
      unfold attrShape
      rw [Heap.get_alloc, if_neg (by
        have h2 := (qBounds a hmem).2
        omega)]
    · rw [setAttrsOwner_alloc_get_self _ _ _ (fun x hx => (qBounds x hx).2)]
      exact ⟨rfl, rfl, rfl, rfl, rfl, rfl⟩
    · rw [setAttrsOwner_nextId,
        setAttrsOwner_alloc_get_self _ _ _ (fun x hx => (qBounds x hx).2)]
      intro a hmem
      exact Nat.lt_succ_of_lt (qBounds a hmem).2
  -- case attribute
  · have hcl : cloneNodeF s n =
        ((mkAttr s (s.get n).nodeName ((s.get n).nodeValue.getD "")
          (s.get n).namespaceURI none).1,
          updOwnerElement (mkAttr s (s.get n).nodeName
            ((s.get n).nodeValue.getD "") (s.get n).namespaceURI none).2
            (mkAttr s (s.get n).nodeName ((s.get n).nodeValue.getD "")
              (s.get n).namespaceURI none).1 (s.get n).ownerElement) := by
      simp only [cloneNodeF]
      rw [hk]
    have hsh : cloneShape s n =
        ((s.get n).nodeName, some ((s.get n).nodeValue.getD ""), []) := by
      simp only [cloneShape]
      rw [hk]
    rw [hcl, hsh]
    dsimp only
    have hm1 : (mkAttr s (s.get n).nodeName ((s.get n).nodeValue.getD "")
        (s.get n).namespaceURI none).1 = s.nextId := rfl
    have hget : ∀ j, (mkAttr s (s.get n).nodeName ((s.get n).nodeValue.getD "")
        (s.get n).namespaceURI none).2.get j =
        if j = s.nextId then
          { NodeData.blank with
            kind := .attribute
            nodeName := (s.get n).nodeName
            nodeValue := some ((s.get n).nodeValue.getD "")
            namespaceURI := (s.get n).namespaceURI
            ownerElement := none
            ownerDocument := Option.bind none fun e => (s.get e).ownerDocument }
        else s.get j := fun j => Heap.get_alloc s _ j
    refine ⟨?_, ?_, ?_, ?_, ?_, ?_⟩
    · intro j hj
      rw [updOwnerElement_get, if_neg (by omega), hget, if_neg (by omega)]
    · exact Nat.le_refl _
    · exact Nat.lt_succ_self _
    · unfold shallowShape
      rw [updOwnerElement_get, if_pos rfl, hget, if_pos hm1]
      rfl
    · rw [updOwnerElement_get, if_pos rfl, hget, if_pos hm1]
      exact ⟨rfl, rfl, rfl, rfl, rfl, rfl⟩
    · rw [updOwnerElement_get, if_pos rfl, hget, if_pos hm1]
      intro a hx
      cases hx
  -- case text
  · have hcl : cloneNodeF s n = mkText s ((s.get n).nodeValue.getD "") := by
      simp only [cloneNodeF]
      rw [hk]
    have hsh : cloneShape s n =
        ("#text", some ((s.get n).nodeValue.getD ""), []) := by
      simp only [cloneShape]
      rw [hk]
    rw [hcl, hsh]
    exact clone_alloc_spec s
      { NodeData.blank with
        kind := .text
        nodeName := "#text"
        nodeValue := some ((s.get n).nodeValue.getD "") }
      rfl ⟨rfl, rfl, rfl, rfl, rfl, rfl⟩
  -- case cdata
  · have hcl : cloneNodeF s n = mkCDATASection s ((s.get n).nodeValue.getD "") := by
      simp only [cloneNodeF]
      rw [hk]
    have hsh : cloneShape s n =
        ("#cdata-section", some ((s.get n).nodeValue.getD ""), []) := by
      simp only [cloneShape]
      rw [hk]
    rw [hcl, hsh]
    exact clone_alloc_spec s
      { NodeData.blank with
        kind := .cdata
        nodeName := "#cdata-section"
        nodeValue := some ((s.get n).nodeValue.getD "") }
      rfl ⟨rfl, rfl, rfl, rfl, rfl, rfl⟩
  -- case entityReference
  · have hcl : cloneNodeF s n =
        mkGenericNode s .entityReference (s.get n).nodeName
          (s.get n).nodeValue := by
      simp only [cloneNodeF]
      rw [hk]
    have hsh : cloneShape s n = ((s.get n).nodeName, (s.get n).nodeValue, []) := by
      simp only [cloneShape]
      rw [hk]
    rw [hcl, hsh]
    exact clone_alloc_spec s
      { NodeData.blank with
        kind := .entityReference
        nodeName := (s.get n).nodeName
        nodeValue := (s.get n).nodeValue }
      rfl ⟨rfl, rfl, rfl, rfl, rfl, rfl⟩
  -- case entity
  · have hcl : cloneNodeF s n =
        mkGenericNode s .entity (s.get n).nodeName (s.get n).nodeValue := by
      simp only [cloneNodeF]
      rw [hk]
    have hsh : cloneShape s n = ((s.get n).nodeName, (s.get n).nodeValue, []) := by
      simp only [cloneShape]
      rw [hk]
    rw [hcl, hsh]
    exact clone_alloc_spec s
      { NodeData.blank with
        kind := .entity
        nodeName := (s.get n).nodeName
        nodeValue := (s.get n).nodeValue }
      rfl ⟨rfl, rfl, rfl, rfl, rfl, rfl⟩
  -- case processingInstruction
  · have hcl : cloneNodeF s n = s.alloc { NodeData.blank with
        kind := .processingInstruction
        nodeName := (s.get n).nodeName
        nodeValue := some ((s.get n).nodeValue.getD "") } := by
      simp only [cloneNodeF]
      rw [hk]
    have hsh : cloneShape s n =
        ((s.get n).nodeName, some ((s.get n).nodeValue.getD ""), []) := by
      simp only [cloneShape]
      rw [hk]
    rw [hcl, hsh]
    exact clone_alloc_spec s
      { NodeData.blank with
        kind := .processingInstruction
        nodeName := (s.get n).nodeName
        nodeValue := some ((s.get n).nodeValue.getD "") }
      rfl ⟨rfl, rfl, rfl, rfl, rfl, rfl⟩
  -- case comment
  · have hcl : cloneNodeF s n = s.alloc { NodeData.blank with
        kind := .comment
        nodeName := "#comment"
        nodeValue := some ((s.get n).nodeValue.getD "") } := by
      simp only [cloneNodeF]
      rw [hk]
    have hsh : cloneShape s n =
        ("#comment", some ((s.get n).nodeValue.getD ""), []) := by
      simp only [cloneShape]
      rw [hk]
    rw [hcl, hsh]
    exact clone_alloc_spec s
      { NodeData.blank with
        kind := .comment
        nodeName := "#comment"
        nodeValue := some ((s.get n).nodeValue.getD "") }
      rfl ⟨rfl, rfl, rfl, rfl, rfl, rfl⟩
  -- case document
  · have hcl : cloneNodeF s n = mkDocument s (some XHTML_NAMESPACE) := by
      simp only [cloneNodeF]
      rw [hk]
    have hsh : cloneShape s n = ("#document", none, []) := by
      simp only [cloneShape]
      rw [hk]
    rw [hcl, hsh]
    exact clone_alloc_spec s
      { NodeData.blank with
        kind := .document
        nodeName := "#document"
        nodeValue := none
        namespaceURI := some XHTML_NAMESPACE
        ownerDocument := some s.nextId }
      rfl ⟨rfl, rfl, rfl, rfl, rfl, rfl⟩
  -- case documentType
  · have hcl : cloneNodeF s n =
        mkDocumentType s (s.get n).nodeName (s.get n).publicId
          (s.get n).systemId := by
      simp only [cloneNodeF]
      rw [hk]
    have hsh : cloneShape s n = ((s.get n).nodeName, none, []) := by
      simp only [cloneShape]
      rw [hk]
    rw [hcl, hsh]
    exact clone_alloc_spec s
      { NodeData.blank with
        kind := .documentType
        nodeName := (s.get n).nodeName
        nodeValue := none
        publicId := (s.get n).publicId
        systemId := (s.get n).systemId }
      rfl ⟨rfl, rfl, rfl, rfl, rfl, rfl⟩
  -- case documentFragment
  · have hcl : cloneNodeF s n = mkDocumentFragment s := by
      simp only [cloneNodeF]
      rw [hk]
    have hsh : cloneShape s n = ("#document-fragment", none, []) := by
      simp only [cloneShape]
      rw [hk]
    rw [hcl, hsh]
    exact clone_alloc_spec s
      { NodeData.blank with
        kind := .documentFragment
        nodeName := "#document-fragment"
        nodeValue := none }
      rfl ⟨rfl, rfl, rfl, rfl, rfl, rfl⟩
  -- case notationNode
  · have hcl : cloneNodeF s n =
        mkGenericNode s .notationNode (s.get n).nodeName (s.get n).nodeValue := by
      simp only [cloneNodeF]
      rw [hk]
    have hsh : cloneShape s n = ((s.get n).nodeName, (s.get n).nodeValue, []) := by
      simp only [cloneShape]
      rw [hk]
    rw [hcl, hsh]
    exact clone_alloc_spec s
      { NodeData.blank with
        kind := .notationNode
        nodeName := (s.get n).nodeName
        nodeValue := (s.get n).nodeValue }
      rfl ⟨rfl, rfl, rfl, rfl, rfl, rfl⟩

/-- A node's shallow shape only reads its own record and its attributes'
records. -/
theorem shallowShape_stable (s s' : Heap) (c : Nat)
    (h : s'.get c = s.get c)
    (hattrs : ∀ a ∈ (s.get c).attrs, s'.get a = s.get a) :
    shallowShape s' c = shallowShape s c := by
  unfold shallowShape
  rw [h]
  refine congrArg (fun l => ((s.get c).nodeName, (s.get c).nodeValue, l)) ?_
  refine List.map_congr_left ?_
  intro a ha
  unfold attrShape
  rw [hattrs a ha]

/-- The expected clone shape only reads the source record and its
attributes' records. -/
theorem cloneShape_stable (s s' : Heap) (n : Nat)
    (h : s'.get n = s.get n)
    (hattrs : ∀ a ∈ (s.get n).attrs, s'.get a = s.get a) :
    cloneShape s' n = cloneShape s n := by
  unfold cloneShape
  dsimp only
  rw [h]
  cases (s.get n).kind
  case element =>
    dsimp only
    refine congrArg (fun l => ((s.get n).tagName, (none : Option String), l)) ?_
    refine List.map_congr_left ?_
    intro a ha
    unfold attrShape
    rw [hattrs a ha]
  all_goals rfl

/-- C9: for every allocated node (with allocated attribute nodes), two
`cloneNode(false)` calls yield clones of equal shallow shape (`nodeName`,
`nodeValue`, ordered attribute name/value pairs), with identities distinct
from each other and from the original, and neither clone shares any
structural pointer state: both have `parentNode`, sibling and child links
all null. -/
theorem C9_clone_node (s : Heap) (n : Nat) (hn : n < s.nextId)
    (hattrs : ∀ a ∈ (s.get n).attrs, a < s.nextId) :
    shallowShape (cloneNodeF (cloneNodeF s n).2 n).2 (cloneNodeF s n).1 =
      shallowShape (cloneNodeF (cloneNodeF s n).2 n).2
        (cloneNodeF (cloneNodeF s n).2 n).1 ∧
    (cloneNodeF s n).1 ≠ (cloneNodeF (cloneNodeF s n).2 n).1 ∧
    (cloneNodeF s n).1 ≠ n ∧ (cloneNodeF (cloneNodeF s n).2 n).1 ≠ n ∧
    ((cloneNodeF (cloneNodeF s n).2 n).2.get (cloneNodeF s n).1).clean ∧
    ((cloneNodeF (cloneNodeF s n).2 n).2.get
      (cloneNodeF (cloneNodeF s n).2 n).1).clean := by
  obtain ⟨stab1, le1, lt1, shape1, clean1, battrs1⟩ := cloneNodeF_spec s n hattrs
  have hgn : (cloneNodeF s n).2.get n = s.get n := stab1 n hn
  have hattrs2 : ∀ a ∈ ((cloneNodeF s n).2.get n).attrs,
      a < (cloneNodeF s n).2.nextId := by
    rw [hgn]
    intro a ha
    have := hattrs a ha
    omega
  obtain ⟨stab2, le2, lt2, shape2, clean2, -⟩ :=
    cloneNodeF_spec (cloneNodeF s n).2 n hattrs2
  have hga : ∀ a ∈ (s.get n).attrs, (cloneNodeF s n).2.get a = s.get a :=
    fun a ha => stab1 a (hattrs a ha)
  have hshape2' : shallowShape (cloneNodeF (cloneNodeF s n).2 n).2
      (cloneNodeF (cloneNodeF s n).2 n).1 = cloneShape s n := by
    rw [shape2]
    exact cloneShape_stable s (cloneNodeF s n).2 n hgn hga
  have hshape1' : shallowShape (cloneNodeF (cloneNodeF s n).2 n).2
      (cloneNodeF s n).1 = cloneShape s n := by
    rw [← shape1]
    refine shallowShape_stable (cloneNodeF s n).2
      (cloneNodeF (cloneNodeF s n).2 n).2 (cloneNodeF s n).1
      (stab2 _ lt1) ?_
    intro a ha
    exact stab2 a (battrs1 a ha)
  refine ⟨hshape1'.trans hshape2'.symm, by omega, by omega, by omega, ?_,
    clean2⟩
  rw [stab2 _ lt1]
  exact clean1

/-- C9 witness: cloning the concrete element `sC9` (id 1, one `class="x"`
attribute) twice yields distinct fresh ids, neither the original, equal
shallow shapes, and unlinked pointers. -/
theorem C9_clone_node_witness :
    shallowShape (cloneNodeF (cloneNodeF sC9 1).2 1).2 (cloneNodeF sC9 1).1 =
      shallowShape (cloneNodeF (cloneNodeF sC9 1).2 1).2
        (cloneNodeF (cloneNodeF sC9 1).2 1).1 ∧
    (cloneNodeF sC9 1).1 ≠ (cloneNodeF (cloneNodeF sC9 1).2 1).1 ∧
    (cloneNodeF sC9 1).1 ≠ 1 ∧
    ((cloneNodeF (cloneNodeF sC9 1).2 1).2.get (cloneNodeF sC9 1).1).clean :=
  ⟨(C9_clone_node sC9 1 (by decide) (by decide)).1,
    (C9_clone_node sC9 1 (by decide) (by decide)).2.1,
    (C9_clone_node sC9 1 (by decide) (by decide)).2.2.1,
    (C9_clone_node sC9 1 (by decide) (by decide)).2.2.2.2.1⟩

theorem removeChild_misc (s : Heap) (self old j : Nat) :
    ((removeChild s self old).2.get j).misc = (s.get j).misc := by
  unfold removeChild
  split
  · rfl
  split
  · rfl
  simp only [updChildList_prev, updChildList_next]
  cases (s.get old).previousSibling <;> cases (s.get old).nextSibling <;>
    split_ifs <;> simp

theorem finishInsert_misc (s : Heap) (self nc : Nat) (rc : Option Nat)
    (idx j : Nat) :
    ((finishInsert s self nc rc idx).2.get j).misc = (s.get j).misc := by
  unfold finishInsert
  cases rc with
  | some r =>
    dsimp only
    cases (s.get r).previousSibling <;> simp
  | none =>
    dsimp only
    cases (s.get self).childList.getLast? <;> simp

theorem insertBeforeTail_misc (s : Heap) (self nc : Nat) (rc : Option Nat)
    (j : Nat) :
    ((insertBeforeTail s self nc rc).2.get j).misc = (s.get j).misc := by
  unfold insertBeforeTail
  cases rc with
  | some r =>
    show ((match listIndexOf (s.get self).childList r with
      | none => (Except.error DomErr.hierarchy, s)
      | some idx => finishInsert s self nc (some r) idx).2.get j).misc
        = (s.get j).misc
    cases listIndexOf (s.get self).childList r with
    | none => rfl
    | some idx => exact finishInsert_misc s self nc (some r) idx j
  | none => exact finishInsert_misc s self nc none _ j

theorem insertBefore_and_frag_misc : ∀ fuel : Nat,
    (∀ s self nc rc j,
      ((insertBeforeFuel fuel s self nc rc).2.get j).misc = (s.get j).misc) ∧
    (∀ s self frag rc i j,
      ((fragLoopFuel fuel s self frag rc i).2.get j).misc = (s.get j).misc) := by
  intro fuel
  induction fuel with
  | zero =>
    constructor
    · intro s self nc rc j
      simp [insertBeforeFuel]
    · intro s self frag rc i j
      simp [fragLoopFuel]
  | succ fuel ih =>
    constructor
    · intro s self nc rc j
      unfold insertBeforeFuel
      by_cases hk : (s.get self).kind = NodeKind.attribute
      · rw [if_pos hk]
      · rw [if_neg hk]
        by_cases hrc : rc = some nc
        · rw [if_pos hrc]
        · rw [if_neg hrc]
          by_cases hex : ∃ r, rc = some r ∧ (s.get r).parentNode ≠ some self
          · rw [dif_pos hex]
          · rw [dif_neg hex]
            by_cases hfrag : (s.get nc).kind = NodeKind.documentFragment
            · rw [if_pos hfrag]
              exact ih.2 s self nc rc 0 j
            · rw [if_neg hfrag]
              cases hpar : (s.get nc).parentNode with
              | none => exact insertBeforeTail_misc s self nc rc j
              | some p =>
                show ((match removeChild s p nc with
                  | (Except.error e, s1) => (Except.error e, s1)
                  | (Except.ok _, s1) =>
                    insertBeforeTail s1 self nc rc :
                      Except DomErr Nat × Heap).2.get j).misc
                  = (s.get j).misc
                rcases hdet : removeChild s p nc with ⟨res, s1⟩
                have h1 : (s1.get j).misc = (s.get j).misc := by
                  have := removeChild_misc s p nc j
                  rw [hdet] at this; exact this
                cases res with
                | error e => exact h1
                | ok v => rw [insertBeforeTail_misc]; exact h1
    · intro s self frag rc i j
      unfold fragLoopFuel
      by_cases hlt : i < (s.get frag).childList.length
      · rw [dif_pos hlt]
        show ((match insertBeforeFuel fuel s self
            ((s.get frag).childList.get ⟨i, hlt⟩) rc with
          | (Except.ok _, s') => fragLoopFuel fuel s' self frag rc (i + 1)
          | (Except.error e, s') =>
            (Except.error e, s') : Except DomErr Nat × Heap).2.get j).misc
          = (s.get j).misc
        rcases hres : insertBeforeFuel fuel s self
            ((s.get frag).childList.get ⟨i, hlt⟩) rc with ⟨res, s'⟩
        have h1 : (s'.get j).misc = (s.get j).misc := by
          have := ih.1 s self ((s.get frag).childList.get ⟨i, hlt⟩) rc j
          rw [hres] at this; exact this
        cases res with
        | ok v => rw [ih.2]; exact h1
        | error e => exact h1
      · rw [dif_neg hlt]

theorem insertBefore_misc (fuel : Nat) (s : Heap) (self nc : Nat)
    (rc : Option Nat) (j : Nat) :
    ((insertBeforeFuel fuel s self nc rc).2.get j).misc = (s.get j).misc :=
  (insertBefore_and_frag_misc fuel).1 s self nc rc j

theorem replaceChild_misc (fuel : Nat) (s : Heap) (self nc old j : Nat) :
    ((replaceChild fuel s self nc old).2.get j).misc = (s.get j).misc := by
  unfold replaceChild
  by_cases hk : (s.get self).kind = NodeKind.attribute
  · rw [if_pos hk]
  · rw [if_neg hk]
    by_cases hex : ∃ p, (s.get old).parentNode = some p ∧ p ≠ self
    · rw [dif_pos hex]
    · rw [dif_neg hex]
      rcases hins : insertBeforeFuel fuel s self nc (some old) with ⟨res, s1⟩
      have h1 : (s1.get j).misc = (s.get j).misc := by
        have := insertBefore_misc fuel s self nc (some old) j
        rw [hins] at this; exact this
      cases res with
      | error e => exact h1
      | ok v => rw [removeChild_misc]; exact h1

/-- The mutation core never writes the node fields bundled in `misc` — in
particular the three `Document` caches. -/
theorem applyOps_misc : ∀ (ops : List MutOp) (s : Heap) (j : Nat),
    ((applyOps ops s).get j).misc = (s.get j).misc := by
  intro ops
  induction ops with
  | nil => intro s j; rfl
  | cons op rest ih =>
    intro s j
    cases op with
    | ins fuel self nc rc =>
      show ((applyOps rest (insertBeforeFuel fuel s self nc rc).2).get j).misc
        = (s.get j).misc
      rw [ih, insertBefore_misc]
    | app fuel self nc =>
      show ((applyOps rest (appendChild fuel s self nc).2).get j).misc
        = (s.get j).misc
      rw [ih]
      exact insertBefore_misc fuel s self nc none j
    | rep fuel self nc old =>
      show ((applyOps rest (replaceChild fuel s self nc old).2).get j).misc
        = (s.get j).misc
      rw [ih, replaceChild_misc]
    | rem self old =>
      show ((applyOps rest (removeChild s self old).2).get j).misc
        = (s.get j).misc
      rw [ih, removeChild_misc]

theorem caches_eq_of_misc (d d' : NodeData) (h : d.misc = d'.misc) :
    d.cacheDocumentElement = d'.cacheDocumentElement ∧
      d.cacheHead = d'.cacheHead ∧ d.cacheBody = d'.cacheBody := by
  unfold NodeData.misc at h
  simp only [Prod.mk.injEq] at h
  exact ⟨h.2.2.2.2.2.2.2.2.2.1, h.2.2.2.2.2.2.2.2.2.2.1,
    h.2.2.2.2.2.2.2.2.2.2.2⟩

theorem documentElementRead_sets_cache (s : Heap) (d fuel : Nat) (e : Nat)
    (h : (documentElementRead s d fuel).1 = some e) :
    ((documentElementRead s d fuel).2.get d).cacheDocumentElement = some e := by
  unfold documentElementRead at h ⊢
  cases hc : (s.get d).cacheDocumentElement with
  | some c =>
    rw [hc] at h
    simp only [] at h ⊢
    first
      | exact h
      | (rw [hc]; exact h)
  | none =>
    rw [hc] at h
    cases hs : documentElementScan s fuel (s.get d).firstChild with
    | some r =>
      rw [hs] at h
      simp only [] at h ⊢
      first
        | (rw [Heap.get_modify_self]; exact h)
        | exact h
    | none =>
      rw [hs] at h
      simp only [] at h
      cases h

theorem documentElementRead_cached (s : Heap) (d fuel : Nat) (e : Nat)
    (h : (s.get d).cacheDocumentElement = some e) :
    documentElementRead s d fuel = (some e, s) := by
  unfold documentElementRead
  rw [h]

theorem headRead_sets_cache (s : Heap) (d fuel : Nat) (e : Nat)
    (h : (headRead s d fuel).1 = some e) :
    ((headRead s d fuel).2.get d).cacheHead = some e := by
  unfold headRead at h ⊢
  cases hc : (s.get d).cacheHead with
  | some c =>
    rw [hc] at h
    simp only [] at h ⊢
    first
      | exact h
      | (rw [hc]; exact h)
  | none =>
    rw [hc] at h
    cases hs : namedElementScan (documentElementRead s d fuel).2 "head" fuel
        (headStart (documentElementRead s d fuel)) with
    | some r =>
      rw [hs] at h
      simp only [] at h ⊢
      first
        | (rw [Heap.get_modify_self]; exact h)
        | exact h
    | none =>
      rw [hs] at h
      simp only [] at h
      cases h

theorem headRead_cached (s : Heap) (d fuel : Nat) (e : Nat)
    (h : (s.get d).cacheHead = some e) : headRead s d fuel = (some e, s) := by
  unfold headRead
  rw [h]

theorem bodyRead_sets_cache (s : Heap) (d fuel : Nat) (e : Nat)
    (h : (bodyRead s d fuel).1 = some e) :
    ((bodyRead s d fuel).2.get d).cacheBody = some e := by
  unfold bodyRead at h ⊢
  cases hc : (s.get d).cacheBody with
  | some c =>
    rw [hc] at h
    simp only [] at h ⊢
    first
      | exact h
      | (rw [hc]; exact h)
  | none =>
    rw [hc] at h
    cases hs : namedElementScan (documentElementRead s d fuel).2 "body" fuel
        (headStart (documentElementRead s d fuel)) with
    | some r =>
      rw [hs] at h
      simp only [] at h ⊢
      first
        | (rw [Heap.get_modify_self]; exact h)
        | exact h
    | none =>
      rw [hs] at h
      simp only [] at h
      cases h

theorem bodyRead_cached (s : Heap) (d fuel : Nat) (e : Nat)
    (h : (s.get d).cacheBody = some e) : bodyRead s d fuel = (some e, s) := by
  unfold bodyRead
  rw [h]

/-- C10: once `documentElement` (likewise `head`, `body`) has returned a
node, every later read returns that same node and leaves the heap untouched,
no matter what sequence of mutation-core calls (`insertBefore`,
`appendChild`, `replaceChild`, `removeChild`) ran in between: the getters
populate their private caches on first read and no mutation invalidates
them. -/
theorem C10_accessor_caches :
    (∀ s d fuel fuel2 e ops, (documentElementRead s d fuel).1 = some e →
      documentElementRead (applyOps ops (documentElementRead s d fuel).2) d
        fuel2 = (some e, applyOps ops (documentElementRead s d fuel).2)) ∧
    (∀ s d fuel fuel2 e ops, (headRead s d fuel).1 = some e →
      headRead (applyOps ops (headRead s d fuel).2) d fuel2 =
        (some e, applyOps ops (headRead s d fuel).2)) ∧
    (∀ s d fuel fuel2 e ops, (bodyRead s d fuel).1 = some e →
      bodyRead (applyOps ops (bodyRead s d fuel).2) d fuel2 =
        (some e, applyOps ops (bodyRead s d fuel).2)) := by
  refine ⟨?_, ?_, ?_⟩
  · intro s d fuel fuel2 e ops h1
    have hset := documentElementRead_sets_cache s d fuel e h1
    have hpres := (caches_eq_of_misc _ _
      (applyOps_misc ops (documentElementRead s d fuel).2 d)).1
    exact documentElementRead_cached _ d fuel2 e (hpres.trans hset)
  · intro s d fuel fuel2 e ops h1
    have hset := headRead_sets_cache s d fuel e h1
    have hpres := (caches_eq_of_misc _ _
      (applyOps_misc ops (headRead s d fuel).2 d)).2.1
    exact headRead_cached _ d fuel2 e (hpres.trans hset)
  · intro s d fuel fuel2 e ops h1
    have hset := bodyRead_sets_cache s d fuel e h1
    have hpres := (caches_eq_of_misc _ _
      (applyOps_misc ops (bodyRead s d fuel).2 d)).2.2
    exact bodyRead_cached _ d fuel2 e (hpres.trans hset)

/-- C10 witness: in `sC10`, `documentElement` first returns the `html`
element (id 2); after `removeChild` detaches it, the accessor still returns
id 2 unchanged.  Likewise `head` keeps returning id 3 after the `head`
element is removed from the `html` element. -/
theorem C10_accessor_caches_witness :
    documentElementRead
        (applyOps [MutOp.rem 1 2] (documentElementRead sC10 1 4).2) 1 4 =
      (some 2, applyOps [MutOp.rem 1 2] (documentElementRead sC10 1 4).2) ∧
    headRead (applyOps [MutOp.rem 2 3] (headRead sC10 1 4).2) 1 4 =
      (some 3, applyOps [MutOp.rem 2 3] (headRead sC10 1 4).2) :=
  ⟨C10_accessor_caches.1 sC10 1 4 4 2 [MutOp.rem 1 2] (by decide),
    C10_accessor_caches.2.1 sC10 1 4 4 3 [MutOp.rem 2 3] (by decide)⟩

theorem namedNodeMapOwnKeysLoop_nil (s : Heap) (n : Nat) (k : Nat) :
    namedNodeMapOwnKeysLoop s n k = [] := by
  induction k with
  | zero => rfl
  | succ k ih => simp [namedNodeMapOwnKeysLoop, rawTargetIndexed, ih]

/-- C7: no attribute selector ever matches any element.  The `ownKeys` trap
of the `NamedNodeMap` proxy reads `t[i]` on the raw proxy target — which
holds no indexed properties — so every loop iteration takes the `continue`
and the trap returns only `["length"]`; with no attribute literally named
`length`, the `getOwnPropertyDescriptor` trap yields no descriptor for that
key either, so `Object.entries(node.attributes)` is empty, the matcher loop
never runs, and the attribute arm of `createMatch` is constantly `false`:
the claimed operator semantics (and the case-insensitivity flag) are never
exhibited.  Concretely, `[class="sel"]` fails against the `li` element that
carries `class="sel"`. -/
theorem C7_attribute_selectors_never_match :
    (∀ s n, namedNodeMapOwnKeys s n = ["length"]) ∧
    (∀ s n, (s.get n).attrs.find? (fun a =>
        jsToLowerCase (s.get a).nodeName == jsToLowerCase "length") = none →
      objectEntriesAttrs s n = []) ∧
    (∀ s n op ci name value, (s.get n).attrs.find? (fun a =>
        jsToLowerCase (s.get a).nodeName == jsToLowerCase "length") = none →
      attributeArmMatch s n op ci name value = false) ∧
    getNamedItemValue sC4 4 "class" = some "sel" ∧
    attributeArmMatch sC4 4 "=" false "class" (some "sel") = false := by
  have hkeys : ∀ s n, namedNodeMapOwnKeys s n = ["length"] := by
    intro s n
    simp [namedNodeMapOwnKeys, namedNodeMapOwnKeysLoop_nil, dedupFirst,
      dedupAux, jsSetAdd]
  have hent : ∀ s n, (s.get n).attrs.find? (fun a =>
      jsToLowerCase (s.get a).nodeName == jsToLowerCase "length") = none →
      objectEntriesAttrs s n = [] := by
    intro s n h
    have hnum : jsNumberOfString "length" = none := by decide
    have hdesc : namedNodeMapOwnDesc s n "length" = none := by
      simp [namedNodeMapOwnDesc, hnum, h]
    rw [objectEntriesAttrs, hkeys]
    simp [hdesc]
  refine ⟨hkeys, hent, ?_, by decide, by decide⟩
  intro s n op ci name value h
  simp [attributeArmMatch, hent s n h, attributeLoop]

/-- C7 witness: the hypothesis-bearing clauses of the theorem at a concrete
input — the `li` element 4 of `sC4` has no attribute named `length`, and the
theorem gives empty entries and a failing attribute arm for it. -/
theorem C7_attribute_selectors_never_match_witness :
    (sC4.get 4).attrs.find? (fun a =>
      jsToLowerCase (sC4.get a).nodeName == jsToLowerCase "length") = none ∧
    objectEntriesAttrs sC4 4 = [] ∧
    attributeArmMatch sC4 4 "~=" false "class" (some "sel") = false :=
  ⟨by decide,
    C7_attribute_selectors_never_match.2.1 sC4 4 (by decide),
    C7_attribute_selectors_never_match.2.2.1 sC4 4 "~=" false "class"
      (some "sel") (by decide)⟩


/-- C4: on the tree `<ul><li>A</li><li class="sel">B</li></ul>` (ul = 1,
the `li`s = 2 and 4), `querySelectorAll("li")` does return `[2, 4]` in
document order, `querySelectorAll("li:nth-child(2)")` returns `[4]`, and
node 4 does match `.sel` — but `querySelector(".sel")` returns no node at
all: `select`'s single mode signals the found node by throwing it and the
`catch {}` around the call swallows it and returns `null` instead of the
match, so the claim's `querySelector(".sel") = B` fails. -/
theorem C4_query_selector_bug :
    querySelectorAllApi sC4 1 9 (Except.ok (SelAst.typ "li" "li")) =
      some (Except.ok [2, 4]) ∧
    matchesApi sC4 4 (Except.ok (SelAst.cls "sel")) = Except.ok true ∧
    querySelectorAllApi sC4 1 9
        (Except.ok (SelAst.compound [SelAst.typ "li" "li", SelAst.nthChild "2"])) =
      some (Except.ok [4]) ∧
    querySelectorApi sC4 1 9 (Except.ok (SelAst.cls "sel")) =
      some (Except.ok none) := by
  decide

/-- C8: a parse failure propagates out of all three selector APIs —
`matches` builds its matcher with `selectorToMatch` directly,
`querySelectorAll` has no handler, and in `querySelector` the
`selectorToMatch` call sits *outside* the `try` — so the lookup APIs raise
on a syntactically invalid selector rather than returning a no-match
result; an empty result set from a valid selector is an ordinary empty
list (or an absent single result), not an error. -/
theorem C8_invalid_selector_handling :
    (∀ s node, matchesApi s node (Except.error ()) =
      Except.error JsErr.parseError) ∧
    (∀ s node fuel, querySelectorApi s node fuel (Except.error ()) =
      some (Except.error JsErr.parseError)) ∧
    (∀ s node fuel, querySelectorAllApi s node fuel (Except.error ()) =
      some (Except.error JsErr.parseError)) ∧
    querySelectorAllApi sC4 1 9 (Except.ok (SelAst.cls "nomatch")) =
      some (Except.ok []) ∧
    querySelectorApi sC4 1 9 (Except.ok (SelAst.cls "nomatch")) =
      some (Except.ok none) :=
  ⟨fun _ _ => rfl, fun _ _ _ => rfl, fun _ _ _ => rfl, by decide, by decide⟩

/-- C8 counterexample: with a syntactically invalid selector,
`querySelector` and `querySelectorAll` raise the parse failure rather than
returning `null` / an empty list as the claim says. -/
theorem C8_invalid_selector_handling_counterexample :
    querySelectorApi sC4 1 9 (Except.error ()) ≠ some (Except.ok none) ∧
    querySelectorAllApi sC4 1 9 (Except.error ()) ≠ some (Except.ok []) := by
  decide

/-- C5: a getter-backed collection re-derives its contents on every read —
any read against any later heap equals the recompute closure's result
there, so a collection object obtained before a mutation sees it without
re-fetching — while a manually constructed collection (no getter) always
returns its stored list; concretely, `div.children` obtained on `sC5` reads
length 1, and after `div.appendChild(em)` the same object reads length 2
with the new element last. -/
theorem C5_live_collections :
    (∀ s0 s' fuel owner,
      (refreshColl s' fuel (createHTMLColl s0 fuel owner)).1 =
        childrenItems s' owner fuel) ∧
    (∀ s' fuel l, (refreshColl s' fuel { storage := l, getter := none }).1 = l) ∧
    collLength sC5 9 cC5 = 1 ∧
    (appendChild 9 sC5 1 3).1 = Except.ok 3 ∧
    collLength (appendChild 9 sC5 1 3).2 9 cC5 = 2 ∧
    collItem (appendChild 9 sC5 1 3).2 9 cC5 1 = some 3 :=
  ⟨fun _ _ _ _ => rfl, fun _ _ _ => rfl, by decide, by decide, by decide, by decide⟩

/-- C5 counterexample: appending a *text* node — a child all the same —
changes nothing observable about the element-filtered collection: the very
next read of `div.children` still has length 1, refuting the claim's
"appending a child … changes the very next read". -/
theorem C5_live_collections_counterexample :
    (appendChild 9 sC5 1 4).1 = Except.ok 4 ∧
    collLength (appendChild 9 sC5 1 4).2 9 cC5 = 1 ∧
    collLength sC5 9 cC5 = 1 := by
  decide

/-- C6: re-materializing reads (`item`, `contains`, iteration) derive the
tokens from the current attribute value, and every mutation recomputes the
array from it and writes the joined value back to the attribute — `add`
appends and de-duplicates the combined array, `remove` only filters
(keeping any duplicates among the rest), `replace` substitutes in place and
de-duplicates, `toggle` delegates to `add` or `remove` — but `length` reads
the cached `#tokens` without re-materializing, so it does not see an
attribute changed under the list, and the materialization itself does not
de-duplicate. -/
theorem C6_token_list :
    (∀ st v, st.updating = false →
      (updateTokens (setAttrExternal st v) none).1 = materializeTokens v) ∧
    (∀ st toks, st.updating = false →
      (tlAdd st toks).attrValue =
        joinSp (dedupFirst (materializeTokens st.attrValue ++ toks))) ∧
    (∀ st toks, st.updating = false →
      (tlRemove st toks).attrValue =
        joinSp ((materializeTokens st.attrValue).filter
          (fun t => !toks.contains t))) ∧
    (∀ st tok, st.updating = false →
      (tlToggle st tok none).2 =
        if (materializeTokens st.attrValue).contains tok then
          tlRemove (updateTokens st none).2 [tok]
        else tlAdd (updateTokens st none).2 [tok]) ∧
    (∀ st oldT newT i, st.updating = false →
      listIndexOfStr (materializeTokens st.attrValue) oldT = some i →
      (tlReplace st oldT newT).1 = true ∧
      (tlReplace st oldT newT).2.attrValue =
        joinSp (dedupFirst ((materializeTokens st.attrValue).set i newT))) ∧
    (∀ st oldT newT, st.updating = false →
      listIndexOfStr (materializeTokens st.attrValue) oldT = none →
      tlReplace st oldT newT = (false, (updateTokens st none).2)) ∧
    (∀ st v, tlLength (setAttrExternal st v) = tlLength st) ∧
    tlLength (tlNew "a b a") = 3 := by
  refine ⟨?_, ?_, ?_, ?_, ?_, ?_, fun st v => rfl, by decide⟩
  · intro st v h
    simp [updateTokens, setAttrExternal, h]
  · intro st toks h
    simp [tlAdd, updateTokens, updateAttribute, tlValue, h]
  · intro st toks h
    simp [tlRemove, updateTokens, updateAttribute, tlValue, h]
  · intro st tok h
    by_cases hc : (materializeTokens st.attrValue).contains tok = true
    · simp [tlToggle, updateTokens, h, hc]
    · simp [tlToggle, updateTokens, h, hc]
  · intro st oldT newT i h hidx
    constructor
    · simp [tlReplace, updateTokens, h, hidx]
    · simp [tlReplace, updateTokens, updateAttribute, h, hidx]
  · intro st oldT newT h hidx
    simp [tlReplace, updateTokens, h, hidx]

/-- C6 witness: the hypothesis-bearing clauses of the theorem applied at
concrete states — after an external attribute write the re-materializing
read sees the new value; `add`, `remove`, `toggle` and `replace` (both the
present and the absent token) write back as the theorem states. -/
theorem C6_token_list_witness :
    (tlNew "a b").updating = false ∧
    (updateTokens (setAttrExternal (tlNew "a b") "a b c") none).1 =
      materializeTokens "a b c" ∧
    (tlAdd (tlNew "a b") ["c"]).attrValue =
      joinSp (dedupFirst (materializeTokens "a b" ++ ["c"])) ∧
    (tlRemove (tlNew "a b") ["a"]).attrValue =
      joinSp ((materializeTokens "a b").filter
        (fun t => !(["a"] : List String).contains t)) ∧
    ((tlToggle (tlNew "a b") "c" none).2 =
      if (materializeTokens "a b").contains "c" then
        tlRemove (updateTokens (tlNew "a b") none).2 ["c"]
      else tlAdd (updateTokens (tlNew "a b") none).2 ["c"]) ∧
    (tlReplace (tlNew "a b") "a" "c").1 = true ∧
    (tlReplace (tlNew "a b") "a" "c").2.attrValue =
      joinSp (dedupFirst ((materializeTokens "a b").set 0 "c")) ∧
    tlReplace (tlNew "a b") "x" "c" = (false, (updateTokens (tlNew "a b") none).2) :=
  ⟨by decide, C6_token_list.1 (tlNew "a b") "a b c" (by decide),
    C6_token_list.2.1 (tlNew "a b") ["c"] (by decide),
    C6_token_list.2.2.1 (tlNew "a b") ["a"] (by decide),
    C6_token_list.2.2.2.1 (tlNew "a b") "c" (by decide),
    (C6_token_list.2.2.2.2.1 (tlNew "a b") "a" "c" 0 (by decide) (by decide)).1,
    (C6_token_list.2.2.2.2.1 (tlNew "a b") "a" "c" 0 (by decide) (by decide)).2,
    C6_token_list.2.2.2.2.2.1 (tlNew "a b") "x" "c" (by decide) (by decide)⟩

/-- C6 counterexample: after the owning attribute changes under the list,
`length` still answers from the stale cache (2, not 3) until some other
read re-materializes; materializing `"a b a"` keeps the duplicate, so
`length` is 3 where a de-duplicated array would give 2; and `remove` writes
back a value that still holds duplicates (`"a a b"` minus `b` is `"a a"`),
so not every mutation produces a de-duplicated array either. -/
theorem C6_token_list_counterexample :
    tlLength (setAttrExternal (tlNew "a b") "a b c") = 2 ∧
    (tlItem (setAttrExternal (tlNew "a b") "a b c") 0).2.tokens =
      some ["a", "b", "c"] ∧
    tlLength (tlItem (setAttrExternal (tlNew "a b") "a b c") 0).2 = 3 ∧
    materializeTokens "a b a" = ["a", "b", "a"] ∧
    (tlRemove (tlNew "a a b") ["b"]).attrValue = "a a" := by
  decide

end Dawm
